import Mathlib

/-!
Verification model of the XMP/PNG metadata editor in
`src/removebg_square/xmp.py` (bg-remove-wpd).

Conventions of the embedding:

* Python `str` values are modelled as `List Char` (`Str`); Python `bytes`
  as `List Nat` (`Bytes`), one entry per byte.
* The UTF-8 byte boundary is modelled at code-point granularity
  (`strToBytes` maps each character to its code point): every fixed
  protocol string in the source (PNG signature, chunk types, the iTXt
  keyword `XML:com.adobe.xmp`, XML markup) is ASCII, where the two
  representations coincide byte for byte, and no claim in scope depends
  on the multi-byte splitting of non-ASCII text.  Decoding with
  `errors="replace"` is total, as in the source.
* `xml.etree.ElementTree` is an external collaborator of the source; it
  is modelled here by an explicit element tree `XElem` together with an
  executable serializer (`serializeXmpmeta`, mirroring
  `ET.tostring(..., encoding="utf-8", xml_declaration=True)` with the
  namespace prefixes the module registers) and an executable
  recursive-descent parser (`parseDoc`, mirroring `ET.fromstring` with
  namespace resolution, entity decoding, attribute-value and
  line-ending normalization).  The parser returns `none` exactly where
  `ET.fromstring` raises `ParseError` (which the source catches and
  turns into a fresh minimal packet).
* Filesystem effects are modelled by an explicit record `FS` holding the
  bytes at the target path, at the temporary path beside it, and at the
  sidecar path, plus a write counter for the sidecar (to observe
  "performs no write" no-ops); fallible OS calls take Boolean oracles.
-/

set_option maxHeartbeats 1600000
set_option maxRecDepth 10000

/-! ## Strings, bytes, Python string primitives -/

abbrev Str : Type := List Char

abbrev Bytes : Type := List Nat

/-- `a.startswith b` on lists. -/
def listStarts {α : Type} [DecidableEq α] : List α → List α → Bool
  | [], _ => true
  | _ :: _, [] => false
  | a :: as, b :: bs => a = b && listStarts as bs

/-- `a.endswith b` on lists. -/
def listEnds {α : Type} [DecidableEq α] (pat l : List α) : Bool :=
  listStarts pat.reverse l.reverse

/-- The whitespace set of Python `str.strip()` (Unicode whitespace). -/
def isPySpace (c : Char) : Bool :=
  let n := c.toNat
  (9 ≤ n && n ≤ 13) || (28 ≤ n && n ≤ 32) || n = 0x85 || n = 0xa0 ||
  n = 0x1680 || (0x2000 ≤ n && n ≤ 0x200a) || n = 0x2028 || n = 0x2029 ||
  n = 0x202f || n = 0x205f || n = 0x3000

/-- Python `str.strip()`. -/
def pyStrip (s : Str) : Str :=
  ((s.dropWhile isPySpace).reverse.dropWhile isPySpace).reverse

/-- Python `str.lower()` (ASCII-faithful; path suffixes are ASCII). -/
def pyLower (s : Str) : Str :=
  s.map Char.toLower

/-- `str.encode("utf-8")`, at code-point granularity (see header note). -/
def strToBytes (s : Str) : Bytes :=
  s.map Char.toNat

/-- The U+FFFD replacement character. -/
def replacementChar : Char := '�'

/-- `bytes.decode("utf-8", errors="replace")`: total, invalid code points
become U+FFFD.  Faithful on the round-trip: decoding an encoded string
recovers it. -/
def bytesToStr (b : Bytes) : Str :=
  b.map (fun n => if h : n.isValidChar then Char.ofNatAux n h else replacementChar)

/-! ## The element tree model of `xml.etree.ElementTree` -/

/-- An element: tag (in ElementTree's `{uri}local` qualified form when
namespaced), attributes in insertion order, optional text, optional tail
(text following this element inside its parent), children in order. -/
inductive XElem : Type where
  | mk : Str → List (Str × Str) → Option Str → Option Str → List XElem → XElem

def XElem.tag : XElem → Str
  | .mk t _ _ _ _ => t

def XElem.attrs : XElem → List (Str × Str)
  | .mk _ a _ _ _ => a

def XElem.text : XElem → Option Str
  | .mk _ _ tx _ _ => tx

def XElem.tail : XElem → Option Str
  | .mk _ _ _ tl _ => tl

def XElem.children : XElem → List XElem
  | .mk _ _ _ _ cs => cs

/-- Replace the tail of an element. -/
def XElem.withTail (e : XElem) (tl : Option Str) : XElem :=
  match e with
  | .mk t a tx _ cs => .mk t a tx tl cs

/-- Replace the children of an element. -/
def XElem.withChildren (e : XElem) (cs : List XElem) : XElem :=
  match e with
  | .mk t a tx tl _ => .mk t a tx tl cs

/-- Replace the text of an element. -/
def XElem.withText (e : XElem) (tx : Option Str) : XElem :=
  match e with
  | .mk t a _ tl cs => .mk t a tx tl cs

/-- Python truthiness of an optional string (`None` and `""` are falsy). -/
def optTruthy : Option Str → Bool
  | none => false
  | some s => s ≠ []

/-- `x or ""` for an optional string. -/
def optOrEmpty : Option Str → Str
  | none => []
  | some s => s

/-- Decidable equality for `XElem`. -/
def XElem.beq : XElem → XElem → Bool
  | .mk t a tx tl cs, .mk t' a' tx' tl' cs' =>
    t = t' && a = a' && tx = tx' && tl = tl' && beqList cs cs'
where
  beqList : List XElem → List XElem → Bool
    | [], [] => true
    | x :: xs, y :: ys => XElem.beq x y && beqList xs ys
    | _, _ => false

mutual

theorem XElem.beq_eq : ∀ a b : XElem, XElem.beq a b = true ↔ a = b
  | .mk t a tx tl cs, .mk t' a' tx' tl' cs' => by
    simp only [XElem.beq, Bool.and_eq_true, decide_eq_true_eq, XElem.mk.injEq]
    rw [XElem.beqList_eq cs cs']
    tauto

theorem XElem.beqList_eq : ∀ as bs : List XElem,
    XElem.beq.beqList as bs = true ↔ as = bs
  | [], [] => by simp [XElem.beq.beqList]
  | [], _ :: _ => by simp [XElem.beq.beqList]
  | _ :: _, [] => by simp [XElem.beq.beqList]
  | x :: xs, y :: ys => by
    simp only [XElem.beq.beqList, Bool.and_eq_true, List.cons.injEq]
    rw [XElem.beq_eq x y, XElem.beqList_eq xs ys]

end

instance : DecidableEq XElem := fun a b =>
  decidable_of_iff (XElem.beq a b = true) (XElem.beq_eq a b)

/-! ## Namespaces and qualified tags (module-level constants in the source) -/

/-- ElementTree qualified name: `{uri}local`. -/
def qname (uri loc : Str) : Str := '{' :: (uri ++ '}' :: loc)

def nsX : Str := "adobe:ns:meta/".toList

def nsRdf : Str := "http://www.w3.org/1999/02/22-rdf-syntax-ns#".toList

def nsDc : Str := "http://purl.org/dc/elements/1.1/".toList

def nsXml : Str := "http://www.w3.org/XML/1998/namespace".toList

def tagXmpmeta : Str := qname nsX "xmpmeta".toList

def tagRDF : Str := qname nsRdf "RDF".toList

def tagDescription : Str := qname nsRdf "Description".toList

def tagBag : Str := qname nsRdf "Bag".toList

def tagAlt : Str := qname nsRdf "Alt".toList

def tagLi : Str := qname nsRdf "li".toList

def tagDcSubject : Str := qname nsDc "subject".toList

def tagDcDescription : Str := qname nsDc "description".toList

def attrXmlLang : Str := qname nsXml "lang".toList

/-- `_minimal_xmp_packet_root`: `xmpmeta > RDF > Description`. -/
def minimalXmpPacketRoot : XElem :=
  .mk tagXmpmeta [] none none
    [.mk tagRDF [] none none [.mk tagDescription [] none none []]]

/-- Dictionary lookup in an attribute list (`elem.attrib.get`). -/
def lookupAttr (e : XElem) (k : Str) : Option Str :=
  (e.attrs.find? (fun kv => kv.1 = k)).map (·.2)

/-! ## The ensure-operations of the packet model

The source mutates child elements in place; the model threads the edited
subtree back through the parent explicitly.  `editFirstChild` is the
"find the first direct child satisfying `p` and mutate it" pattern of
`_find_child` + in-place edits; `editFirstPre` is the `root.iter()`
preorder variant used by `_get_or_create_rdf_description`. -/

def editFirstChild {β : Type} (p : XElem → Bool) (f : XElem → XElem × β) :
    List XElem → Option (List XElem × β)
  | [] => none
  | c :: cs =>
    if p c then
      let (c', b) := f c
      some (c' :: cs, b)
    else
      match editFirstChild p f cs with
      | some (cs', b) => some (c :: cs', b)
      | none => none

mutual

def editFirstPre {β : Type} (p : XElem → Bool) (f : XElem → XElem × β) :
    XElem → Option (XElem × β)
  | .mk t a tx tl cs =>
    if p (.mk t a tx tl cs) then some (f (.mk t a tx tl cs))
    else
      match editFirstPreList p f cs with
      | some (cs', b) => some (.mk t a tx tl cs', b)
      | none => none

def editFirstPreList {β : Type} (p : XElem → Bool) (f : XElem → XElem × β) :
    List XElem → Option (List XElem × β)
  | [] => none
  | c :: cs =>
    match editFirstPre p f c with
    | some (c', b) => some (c' :: cs, b)
    | none =>
      match editFirstPreList p f cs with
      | some (cs', b) => some (c :: cs', b)
      | none => none

end

/-- A fresh `rdf:li` carrying a keyword (`_ensure_dc_subject_keyword`'s append). -/
def freshLi (keyword : Str) : XElem := .mk tagLi [] (some keyword) none []

/-- The keyword match of `_ensure_dc_subject_keyword`:
`li.tag == rdf:li and (li.text or "").strip() == keyword`. -/
def liKeywordMatch (keyword : Str) (li : XElem) : Bool :=
  li.tag = tagLi && pyStrip (optOrEmpty li.text) = keyword

/-- Scan the `rdf:Bag` for the keyword, appending an `rdf:li` when absent. -/
def bagInsertLi (keyword : Str) (bag : XElem) : XElem × Bool :=
  if bag.children.any (liKeywordMatch keyword) then (bag, false)
  else (bag.withChildren (bag.children ++ [freshLi keyword]), true)

/-- Locate-or-create the `rdf:Bag` under an existing `dc:subject`. -/
def subjectEnsure (keyword : Str) (subject : XElem) : XElem × Bool :=
  match editFirstChild (fun ch => ch.tag = tagBag) (bagInsertLi keyword) subject.children with
  | some (cs', b) => (subject.withChildren cs', b)
  | none =>
    (subject.withChildren (subject.children ++ [.mk tagBag [] none none [freshLi keyword]]),
     true)

/-- `_ensure_dc_subject_keyword` on a `rdf:Description` node. -/
def ensureDcSubjectKeyword (desc : XElem) (keyword : Str) : XElem × Bool :=
  match editFirstChild (fun ch => ch.tag = tagDcSubject) (subjectEnsure keyword) desc.children with
  | some (cs', b) => (desc.withChildren cs', b)
  | none =>
    (desc.withChildren (desc.children ++
       [.mk tagDcSubject [] none none [.mk tagBag [] none none [freshLi keyword]]]),
     true)

/-- A fresh default-language `rdf:li` (`xml:lang="x-default"`). -/
def xdefaultLi (text : Str) : XElem :=
  .mk tagLi [(attrXmlLang, "x-default".toList)] (some text) none []

/-- The language match of `_ensure_dc_description_xdefault`:
`(li.attrib.get(xml_lang, "") or "").strip().lower() == "x-default"`. -/
def xdefaultLangMatch (li : XElem) : Bool :=
  li.tag = tagLi &&
  pyLower (pyStrip ((lookupAttr li attrXmlLang).getD [])) = "x-default".toList

/-- Scan the `rdf:Alt` entries for the default-language one: on an exact
text match leave it alone, otherwise overwrite its text; `none` when no
default-language entry exists. -/
def editXdefaultLi (text : Str) : List XElem → Option (List XElem × Bool)
  | [] => none
  | li :: rest =>
    if xdefaultLangMatch li then
      if optOrEmpty li.text = text then some (li :: rest, false)
      else some (li.withText (some text) :: rest, true)
    else
      match editXdefaultLi text rest with
      | some (rest', b) => some (li :: rest', b)
      | none => none

/-- Locate-or-create the default-language entry inside an existing `rdf:Alt`. -/
def altEnsureXdefault (text : Str) (alt : XElem) : XElem × Bool :=
  match editXdefaultLi text alt.children with
  | some (cs', b) => (alt.withChildren cs', b)
  | none => (alt.withChildren (alt.children ++ [xdefaultLi text]), true)

/-- Locate-or-create the `rdf:Alt` under an existing `dc:description`. -/
def descriptionEnsure (text : Str) (dcDesc : XElem) : XElem × Bool :=
  match editFirstChild (fun ch => ch.tag = tagAlt) (altEnsureXdefault text) dcDesc.children with
  | some (cs', b) => (dcDesc.withChildren cs', b)
  | none => (dcDesc.withChildren (dcDesc.children ++ [.mk tagAlt [] none none [xdefaultLi text]]), true)

/-- `_ensure_dc_description_xdefault` on a `rdf:Description` node. -/
def ensureDcDescriptionXdefault (desc : XElem) (text : Str) : XElem × Bool :=
  match editFirstChild (fun ch => ch.tag = tagDcDescription) (descriptionEnsure text) desc.children with
  | some (cs', b) => (desc.withChildren cs', b)
  | none =>
    (desc.withChildren (desc.children ++
       [.mk tagDcDescription [] none none [.mk tagAlt [] none none [xdefaultLi text]]]),
     true)

/-- Both ensure-operations applied to the `rdf:Description`, with their
two changed-flags (in the order the source applies them). -/
def descApply (keyword text : Str) (desc : XElem) : XElem × Bool × Bool :=
  let (d1, b1) := ensureDcSubjectKeyword desc keyword
  let (d2, b2) := ensureDcDescriptionXdefault d1 text
  (d2, b1, b2)

/-- The edit at the located `rdf:RDF`: reuse the first direct
`rdf:Description` child, creating it when absent
(`_get_or_create_rdf_description`'s second half). -/
def rdfApply (keyword text : Str) (rdf : XElem) : XElem × Bool × Bool :=
  match editFirstChild (fun ch => ch.tag = tagDescription) (descApply keyword text) rdf.children with
  | some (cs', b) => (rdf.withChildren cs', b)
  | none =>
    let (d, b) := descApply keyword text (.mk tagDescription [] none none [])
    (rdf.withChildren (rdf.children ++ [d]), b)

/-- `_get_or_create_rdf_description` followed by the two ensure calls of
`_make_updated_xmp_packet`: find the first `rdf:RDF` in preorder
(`root.iter()`), or append a fresh one to the root. -/
def updateXmpTree (keyword text : Str) (root : XElem) : XElem × Bool × Bool :=
  match editFirstPre (fun e => e.tag = tagRDF) (rdfApply keyword text) root with
  | some (r', b) => (r', b)
  | none =>
    let (d, b) := descApply keyword text (.mk tagDescription [] none none [])
    (root.withChildren (root.children ++ [.mk tagRDF [] none none [d]]), b)

/-! ## Serialization (model of `ET.tostring(root, encoding="utf-8",
xml_declaration=True)`) -/

/-- Split at the last occurrence of `ch` (Python `rsplit(ch, 1)`). -/
def lastSplitAt (ch : Char) : Str → Option (Str × Str)
  | [] => none
  | c :: rest =>
    match lastSplitAt ch rest with
    | some (a, b) => some (c :: a, b)
    | none => if c = ch then some ([], rest) else none

/-- Split at the first occurrence of `ch`. -/
def firstSplitAt (ch : Char) : Str → Option (Str × Str)
  | [] => none
  | c :: rest =>
    if c = ch then some ([], rest)
    else
      match firstSplitAt ch rest with
      | some (a, b) => some (c :: a, b)
      | none => none

/-- Decompose an ElementTree qualified name `{uri}local` (the serializer's
`qname[1:].rsplit("}", 1)`); `none` for plain names. -/
def splitQName (tag : Str) : Option (Str × Str) :=
  match tag with
  | '{' :: rest => lastSplitAt '}' rest
  | _ => none

/-- The prefixes known to the serializer: ElementTree's default
`_namespace_map` entries plus the module's three `register_namespace`
calls (which re-register `rdf` and `dc` with their default prefixes).
The `xml` namespace is handled separately and never declared. -/
def knownNsList : List (Str × Str) :=
  [(nsX, "x".toList), (nsRdf, "rdf".toList), (nsDc, "dc".toList),
   ("http://www.w3.org/1999/xhtml".toList, "html".toList),
   ("http://schemas.xmlsoap.org/wsdl/".toList, "wsdl".toList),
   ("http://www.w3.org/2001/XMLSchema".toList, "xs".toList),
   ("http://www.w3.org/2001/XMLSchema-instance".toList, "xsi".toList)]

mutual

/-- Qualified names of a tree in document order: for each element in
preorder, its tag then its attribute keys (`_namespaces`). -/
def collectQNames : XElem → List Str
  | .mk t a _ _ cs => (t :: a.map Prod.fst) ++ collectQNamesList cs

def collectQNamesList : List XElem → List Str
  | [] => []
  | c :: cs => collectQNames c ++ collectQNamesList cs

end

/-- Fold step of the serializer's prefix assignment: first sight of a
non-`xml` URI gets its registered prefix, or a generated `nsN`. -/
def addQName (acc : List (Str × Str)) (qn : Str) : List (Str × Str) :=
  match splitQName qn with
  | none => acc
  | some (uri, _) =>
    if uri = nsXml then acc
    else if (acc.find? (fun p => p.1 = uri)).isSome then acc
    else
      acc ++ [(uri, (((knownNsList.find? (fun p => p.1 = uri)).map Prod.snd).getD
        ("ns".toList ++ (toString acc.length).toList)))]

/-- The URI-to-prefix assignment for a document. -/
def buildAssign (qns : List Str) : List (Str × Str) := qns.foldl addQName []

/-- Serialized form of a possibly-qualified name. -/
def serTag (phi : List (Str × Str)) (tag : Str) : Str :=
  match splitQName tag with
  | none => tag
  | some (uri, loc) =>
    if uri = nsXml then "xml:".toList ++ loc
    else
      match phi.find? (fun p => p.1 = uri) with
      | some p => p.2 ++ ':' :: loc
      | none => loc

/-- Character-data escaping (`_escape_cdata`). -/
def escCdata : Str → Str
  | [] => []
  | c :: cs =>
    if c = '&' then "&amp;".toList ++ escCdata cs
    else if c = '<' then "&lt;".toList ++ escCdata cs
    else if c = '>' then "&gt;".toList ++ escCdata cs
    else c :: escCdata cs

/-- Attribute-value escaping (`_escape_attrib`). -/
def escAttrib : Str → Str
  | [] => []
  | c :: cs =>
    if c = '&' then "&amp;".toList ++ escAttrib cs
    else if c = '<' then "&lt;".toList ++ escAttrib cs
    else if c = '>' then "&gt;".toList ++ escAttrib cs
    else if c = '"' then "&quot;".toList ++ escAttrib cs
    else if c = '\r' then "&#13;".toList ++ escAttrib cs
    else if c = '\n' then "&#10;".toList ++ escAttrib cs
    else if c = '\t' then "&#09;".toList ++ escAttrib cs
    else c :: escAttrib cs

/-- Lexicographic order on strings by code point (Python `sorted`). -/
def strLe : Str → Str → Bool
  | [], _ => true
  | _ :: _, [] => false
  | a :: as, b :: bs =>
    if a.toNat < b.toNat then true
    else if b.toNat < a.toNat then false
    else strLe as bs

def insertByPfx (x : Str × Str) : List (Str × Str) → List (Str × Str)
  | [] => [x]
  | y :: ys => if strLe x.2 y.2 then x :: y :: ys else y :: insertByPfx x ys

/-- Namespace declarations sorted by prefix, as the serializer emits them. -/
def sortByPfx (l : List (Str × Str)) : List (Str × Str) := l.foldr insertByPfx []

/-- The `xmlns:prefix="uri"` declarations on the root element. -/
def declsOf (phi : List (Str × Str)) : Str :=
  ((sortByPfx phi).map
    (fun p => " xmlns:".toList ++ p.2 ++ '=' :: '"' :: (escAttrib p.1 ++ ['"']))).flatten

mutual

/-- Serialize one element (`_serialize_xml` with default
`short_empty_elements=True`); `extra` carries the root's namespace
declarations and is empty below the root. -/
def serElemCore (phi : List (Str × Str)) (extra : Str) : XElem → Str
  | .mk t a tx tl cs =>
    let nm := serTag phi t
    let attrsOut :=
      (a.map (fun kv => ' ' :: (serTag phi kv.1 ++ '=' :: '"' :: (escAttrib kv.2 ++ ['"'])))).flatten
    let tailOut := if optTruthy tl then escCdata (optOrEmpty tl) else []
    if optTruthy tx || !cs.isEmpty then
      '<' :: (nm ++ extra ++ attrsOut ++ '>' ::
        ((if optTruthy tx then escCdata (optOrEmpty tx) else []) ++
         serElemList phi cs ++
         '<' :: '/' :: (nm ++ '>' :: tailOut)))
    else
      '<' :: (nm ++ extra ++ attrsOut ++ ' ' :: '/' :: '>' :: tailOut)

def serElemList (phi : List (Str × Str)) : List XElem → Str
  | [] => []
  | c :: cs => serElemCore phi [] c ++ serElemList phi cs

end

/-- The XML declaration `ET.tostring` writes for `encoding="utf-8"`. -/
def xmlDeclStr : Str := "<?xml version='1.0' encoding='utf-8'?>\n".toList

/-- Serialize a document to text. -/
def serializeDoc (root : XElem) : Str :=
  let phi := buildAssign (collectQNames root)
  xmlDeclStr ++ serElemCore phi (declsOf phi) root

/-- `_serialize_xmpmeta`: document text as UTF-8 bytes. -/
def serializeXmpmeta (root : XElem) : Bytes := strToBytes (serializeDoc root)


/-! ## Parsing (model of `ET.fromstring`)

A recursive-descent parser over `Str`, with expat's observable behavior
on the constructs this system meets: namespace resolution through
`xmlns` attributes, the five named entities and decimal character
references, attribute-value whitespace normalization, line-ending
normalization in character data, rejection of control characters,
stripping of namespace declaration attributes, and hard failure
(`ParseError`, here `none`) on anything malformed.

The recursive parsers take a fuel argument so that they are structural
and compute under the kernel; every recursive step consumes at least
one input character, so any fuel of at least twice the input length
(`parseDocRaw` supplies it) is inexhaustible. -/

/-- XML whitespace. -/
def isXmlWs (c : Char) : Bool := c = ' ' || c = '\t' || c = '\n' || c = '\r'

/-- Characters the tokenizer accepts inside raw names. -/
def nameChar (c : Char) : Bool :=
  !(isXmlWs c) && c ≠ '<' && c ≠ '>' && c ≠ '/' && c ≠ '=' && c ≠ '"' &&
  c ≠ '\'' && c ≠ '&' && c ≠ '{' && c ≠ '}' && c ≠ '?' && c ≠ '!' &&
  c.toNat ≥ 0x21

/-- Longest prefix of name characters, and the remainder. -/
def pName : Str → Str × Str
  | [] => ([], [])
  | c :: r =>
    if nameChar c then
      let p := pName r
      (c :: p.1, p.2)
    else ([], c :: r)

/-- Skip XML whitespace. -/
def skipXmlWs : Str → Str
  | [] => []
  | c :: r => if isXmlWs c then skipXmlWs r else c :: r

/-- Read an entity body up to `;` (after the `&`). -/
def pEntityName : Str → Option (Str × Str)
  | [] => none
  | c :: r =>
    if c = ';' then some ([], r)
    else
      match pEntityName r with
      | some (nm, rest) => some (c :: nm, rest)
      | none => none

/-- The named entities expat predefines, and decimal character references. -/
def decodeEntityName (nm : Str) : Option Char :=
  if nm = "amp".toList then some '&'
  else if nm = "lt".toList then some '<'
  else if nm = "gt".toList then some '>'
  else if nm = "quot".toList then some '"'
  else if nm = "apos".toList then some '\''
  else
    match nm with
    | '#' :: ds =>
      if !ds.isEmpty && ds.all Char.isDigit then
        let n := ds.foldl (fun acc c => acc * 10 + (c.toNat - 48)) 0
        if h : n.isValidChar then some (Char.ofNatAux n h) else none
      else none
    | _ => none

/-- Drop the `\n` of a `\r\n` pair (line-ending normalization). -/
def dropLf : Str → Str
  | '\n' :: r1 => r1
  | r => r

/-- Consume one expected character. -/
def expectChar (ch : Char) : Str → Option Str
  | [] => none
  | c :: r => if c = ch then some r else none

/-- Consume an opening quote, returning it. -/
def pQuote : Str → Option (Char × Str)
  | [] => none
  | c :: r => if c = '"' || c = '\'' then some (c, r) else none

/-- Character data up to (and excluding) the next `<`: entities decoded,
line endings normalized to `\n`, control characters rejected, end of
input rejected (a close tag must follow). -/
def pTextF : Nat → Str → Option (Str × Str)
  | 0, _ => none
  | _ + 1, [] => none
  | fuel + 1, c :: r =>
    if c = '<' then some ([], c :: r)
    else if c = '&' then
      match pEntityName r with
      | none => none
      | some (nm, r1) =>
        match decodeEntityName nm with
        | none => none
        | some ch =>
          match pTextF fuel r1 with
          | none => none
          | some (t, r2) => some (ch :: t, r2)
    else if c = '\r' then
      match pTextF fuel (dropLf r) with
      | none => none
      | some (t, r2) => some ('\n' :: t, r2)
    else if c.toNat < 0x20 && c ≠ '\t' && c ≠ '\n' then none
    else
      match pTextF fuel r with
      | none => none
      | some (t, r2) => some (c :: t, r2)

/-- Attribute value up to the closing quote `q` (consumed): entities
decoded, literal whitespace normalized to a space, `<` and control
characters rejected. -/
def pAttrValueF (q : Char) : Nat → Str → Option (Str × Str)
  | 0, _ => none
  | _ + 1, [] => none
  | fuel + 1, c :: r =>
    if c = q then some ([], r)
    else if c = '<' then none
    else if c = '&' then
      match pEntityName r with
      | none => none
      | some (nm, r1) =>
        match decodeEntityName nm with
        | none => none
        | some ch =>
          match pAttrValueF q fuel r1 with
          | none => none
          | some (t, r2) => some (ch :: t, r2)
    else if c = '\r' then
      match pAttrValueF q fuel (dropLf r) with
      | none => none
      | some (t, r2) => some (' ' :: t, r2)
    else if c = '\t' || c = '\n' then
      match pAttrValueF q fuel r with
      | none => none
      | some (t, r2) => some (' ' :: t, r2)
    else if c.toNat < 0x20 then none
    else
      match pAttrValueF q fuel r with
      | none => none
      | some (t, r2) => some (c :: t, r2)

/-- One `name="value"` attribute, starting at the name. -/
def pOneAttr (fuel : Nat) (s : Str) : Option ((Str × Str) × Str) :=
  let p := pName s
  if p.1 = [] then none
  else
    match expectChar '=' (skipXmlWs p.2) with
    | none => none
    | some s4 =>
      match pQuote (skipXmlWs s4) with
      | none => none
      | some (qc, s6) =>
        match pAttrValueF qc fuel s6 with
        | none => none
        | some (v, s7) => some ((p.1, v), s7)

/-- Whether the head of the remaining input closes the start tag. -/
def headIsStop : Str → Bool
  | [] => false
  | c :: _ => c = '/' || c = '>'

/-- The raw attribute list of a start tag, stopping right before the
closing `>` or `/>`. -/
def pAttrsF : Nat → Str → Option (List (Str × Str) × Str)
  | 0, _ => none
  | fuel + 1, s =>
    let s1 := skipXmlWs s
    if headIsStop s1 then some ([], s1)
    else
      match pOneAttr fuel s1 with
      | none => none
      | some (kv, s2) =>
        match pAttrsF fuel s2 with
        | none => none
        | some (rest, s3) => some (kv :: rest, s3)

/-- Separate `xmlns`/`xmlns:p` declarations (consumed into the namespace
environment, illegal forms rejected) from ordinary attributes. -/
def splitXmlnsAttrs : List (Str × Str) → Option (List (Str × Str) × List (Str × Str))
  | [] => some ([], [])
  | (k, v) :: rest =>
    match splitXmlnsAttrs rest with
    | none => none
    | some (bs, ras) =>
      if k = "xmlns".toList then some (([], v) :: bs, ras)
      else
        match firstSplitAt ':' k with
        | some (pfx, loc) =>
          if pfx = "xmlns".toList then
            if loc = [] || v = [] || loc = "xmlns".toList || loc = "xml".toList then none
            else some ((loc, v) :: bs, ras)
          else some (bs, (k, v) :: ras)
        | none => some (bs, (k, v) :: ras)

/-- First match in the namespace environment. -/
def lookupEnv (env : List (Str × Str)) (pfx : Str) : Option Str :=
  (env.find? (fun p => p.1 = pfx)).map (·.2)

/-- Resolve a raw element name against the environment (default
namespace applies; unbound prefixes are fatal). -/
def resolveTagName (env : List (Str × Str)) (nm : Str) : Option Str :=
  match firstSplitAt ':' nm with
  | some (pfx, loc) =>
    if pfx = [] || loc = [] || loc.any (fun c => c = ':') then none
    else
      match lookupEnv env pfx with
      | some uri => if uri = [] then none else some (qname uri loc)
      | none => none
  | none =>
    match lookupEnv env [] with
    | some uri => if uri = [] then some nm else some (qname uri nm)
    | none => some nm

/-- Resolve a raw attribute name (no default namespace for attributes). -/
def resolveAttrName (env : List (Str × Str)) (nm : Str) : Option Str :=
  match firstSplitAt ':' nm with
  | some (pfx, loc) =>
    if pfx = [] || loc = [] || loc.any (fun c => c = ':') then none
    else
      match lookupEnv env pfx with
      | some uri => if uri = [] then none else some (qname uri loc)
      | none => none
  | none => some nm

def resolveAttrs (env : List (Str × Str)) : List (Str × Str) → Option (List (Str × Str))
  | [] => some []
  | (k, v) :: rest =>
    match resolveAttrName env k, resolveAttrs env rest with
    | some k', some rest' => some ((k', v) :: rest')
    | _, _ => none

/-! ## Well-formed documents

`wfX` is the class of trees that `ET.fromstring` can produce (and on
which serialization inverts parsing); the parser checks it as a final
validation, so `parseDoc` only returns well-formed trees. -/

/-- Character data free of control characters and carriage returns (the
parser never produces them: `\r` is normalized away, controls are fatal). -/
def cleanText (s : Str) : Bool :=
  s.all (fun c => c.toNat ≥ 0x20 || c = '\t' || c = '\n')

/-- Attribute values may additionally carry tab/newline/return (escaped
numerically on output). -/
def cleanAttrV (s : Str) : Bool :=
  s.all (fun c => c.toNat ≥ 0x20 || c = '\t' || c = '\n' || c = '\r')

/-- A plain (uncolonized) XML name as the tokenizer accepts it. -/
def nameOk (s : Str) : Bool :=
  !s.isEmpty && s.all (fun c => nameChar c && c ≠ ':')

/-- A well-formed tag: `{uri}local` with a nonempty attribute-safe URI,
or a plain name. -/
def tagOk (t : Str) : Bool :=
  match splitQName t with
  | some (uri, loc) => !uri.isEmpty && cleanAttrV uri && nameOk loc
  | none => nameOk t

/-- A well-formed attribute key (plain keys must not be `xmlns`). -/
def attrKeyOk (k : Str) : Bool :=
  match splitQName k with
  | some (uri, loc) => !uri.isEmpty && cleanAttrV uri && nameOk loc
  | none => nameOk k && k ≠ "xmlns".toList

/-- Text and tail fields are absent or nonempty and clean. -/
def wfOptText : Option Str → Bool
  | none => true
  | some s => !s.isEmpty && cleanText s

mutual

/-- Well-formed element trees. -/
def wfX : XElem → Bool
  | .mk t a tx tl cs =>
    tagOk t && a.all (fun kv => attrKeyOk kv.1 && cleanAttrV kv.2) &&
    wfOptText tx && wfOptText tl && wfXList cs

def wfXList : List XElem → Bool
  | [] => true
  | c :: cs => wfX c && wfXList cs

end

/-- Whether the remaining input starts a close tag. -/
def headIsClose : Str → Bool
  | '<' :: '/' :: _ => true
  | _ => false

mutual

/-- Parse one element starting at `<`.  The element's tail is attached
by the parent (`pChildrenF`); the returned tail is `none`. -/
def pElemF (env : List (Str × Str)) : Nat → Str → Option (XElem × Str)
  | 0, _ => none
  | _ + 1, [] => none
  | fuel + 1, c0 :: s1 =>
    if c0 = '<' then
      let nr := pName s1
      if nr.1 = [] then none
      else
        match pAttrsF fuel nr.2 with
        | none => none
        | some (raw, s3) =>
          match splitXmlnsAttrs raw with
          | none => none
          | some (bs, ras) =>
            match resolveTagName (bs ++ env) nr.1, resolveAttrs (bs ++ env) ras with
            | some tg, some ats =>
              match expectChar '/' s3 with
              | some sl =>
                match expectChar '>' sl with
                | none => none
                | some s4 => some (.mk tg ats none none [], s4)
              | none =>
                match expectChar '>' s3 with
                | none => none
                | some s4 =>
                  match pTextF fuel s4 with
                  | none => none
                  | some (tx, s5) =>
                    match pChildrenF (bs ++ env) fuel s5 with
                    | none => none
                    | some (cs, s6) =>
                      match expectChar '<' s6 with
                      | none => none
                      | some c1 =>
                        match expectChar '/' c1 with
                        | none => none
                        | some c2 =>
                          let nr2 := pName c2
                          if nr2.1 = nr.1 then
                            match expectChar '>' (skipXmlWs nr2.2) with
                            | none => none
                            | some c3 =>
                              some (.mk tg ats (if tx = [] then none else some tx) none cs, c3)
                          else none
            | _, _ => none
    else none

/-- Parse the children (and their tails) inside an element, stopping at
the close tag. -/
def pChildrenF (env : List (Str × Str)) : Nat → Str → Option (List XElem × Str)
  | 0, _ => none
  | fuel + 1, s =>
    if headIsClose s then some ([], s)
    else
      match pElemF env fuel s with
      | none => none
      | some (c, s2) =>
        match pTextF fuel s2 with
        | none => none
        | some (tl, s3) =>
          match pChildrenF env fuel s3 with
          | none => none
          | some (rest, s4) =>
            some ((c.withTail (if tl = [] then none else some tl)) :: rest, s4)

end

/-- Skip past the end `?>` of an XML declaration / processing instruction. -/
def skipPastPiEnd : Str → Option Str
  | [] => none
  | '?' :: '>' :: r => some r
  | _ :: r => skipPastPiEnd r

/-- The initial environment: only the built-in `xml` prefix is bound. -/
def env0 : List (Str × Str) := [("xml".toList, nsXml)]

/-- Parse a document: optional XML declaration at position zero, one
root element, nothing but whitespace after it. -/
def parseDocRaw (s : Str) : Option XElem :=
  let afterDecl : Option Str :=
    match s with
    | '<' :: '?' :: r => skipPastPiEnd r
    | _ => some s
  match afterDecl with
  | none => none
  | some s1 =>
    match pElemF env0 (2 * s1.length + 2) (skipXmlWs s1) with
    | none => none
    | some (root, r2) =>
      if skipXmlWs r2 = [] then some root else none

/-- `ET.fromstring`: parse and validate.  The final well-formedness
check is semantically redundant (the parser only produces well-formed
trees) and makes that invariant available by construction. -/
def parseDoc (s : Str) : Option XElem :=
  match parseDocRaw s with
  | some t => if wfX t then some t else none
  | none => none

/-! ## `_parse_or_create_xmpmeta_root` and `_make_updated_xmp_packet` -/

mutual

/-- First element in `root.iter()` preorder satisfying `p`. -/
def findPreFirst (p : XElem → Bool) : XElem → Option XElem
  | .mk t a tx tl cs =>
    if p (.mk t a tx tl cs) then some (.mk t a tx tl cs)
    else findPreFirstList p cs

def findPreFirstList (p : XElem → Bool) : List XElem → Option XElem
  | [] => none
  | c :: cs =>
    match findPreFirst p c with
    | some r => some r
    | none => findPreFirstList p cs

end

/-- `_decode_xml_bytes`: UTF-8 with `errors="replace"` never fails, so
the first decoding attempt always returns. -/
def decodeXmlBytes (b : Bytes) : Option Str :=
  if b.isEmpty then none else some (bytesToStr b)

/-- `_parse_or_create_xmpmeta_root`. -/
def parseOrCreateXmpmetaRoot (xmpXmlBytes : Option Bytes) : XElem :=
  match xmpXmlBytes with
  | some b =>
    if b.isEmpty then minimalXmpPacketRoot
    else
      match decodeXmlBytes b with
      | none => minimalXmpPacketRoot
      | some txt =>
        if txt.isEmpty then minimalXmpPacketRoot
        else
          match parseDoc txt with
          | none => minimalXmpPacketRoot
          | some root =>
            if listEnds "xmpmeta".toList root.tag then root
            else
              match findPreFirst (fun el => listEnds "xmpmeta".toList el.tag) root with
              | some el => el
              | none => minimalXmpPacketRoot
  | none => minimalXmpPacketRoot

/-- The keyword written for a tool (`f"ProcessedWith:{tool}"`). -/
def keywordFor (tool : Str) : Str := "ProcessedWith:".toList ++ tool

/-- The description written for a tool and date. -/
def descTextFor (tool processedDate : Str) : Str :=
  "Processed by ".toList ++ tool ++ " on ".toList ++ processedDate

/-- `_make_updated_xmp_packet`. -/
def makeUpdatedXmpPacket (existingXmp : Option Bytes) (tool processedDate : Str) : Bytes :=
  let root := parseOrCreateXmpmetaRoot existingXmp
  let u := updateXmpTree (keywordFor tool) (descTextFor tool processedDate) root
  serializeXmpmeta u.1

/-! ## PNG chunk layer -/

/-- The 8-byte PNG signature (`_PNG_SIG`). -/
def pngSig : Bytes := [0x89, 0x50, 0x4E, 0x47, 0x0D, 0x0A, 0x1A, 0x0A]

/-- The iTXt keyword marking XMP (`_XMP_ITXT_KEYWORD`), as bytes. -/
def xmpItxtKeyword : Bytes := strToBytes "XML:com.adobe.xmp".toList

def itxtType : Bytes := strToBytes "iTXt".toList

def iendType : Bytes := strToBytes "IEND".toList

/-- `struct.pack(">I", n)` (callers keep `n < 2^32`). -/
def encodeBe32 (n : Nat) : Bytes :=
  [n / 0x1000000 % 256, n / 0x10000 % 256, n / 0x100 % 256, n % 256]

/-- `struct.unpack(">I", bs)[0]` on a 4-byte slice. -/
def decodeBe32 (bs : Bytes) : Nat :=
  match bs with
  | [b0, b1, b2, b3] => b0 * 0x1000000 + b1 * 0x10000 + b2 * 0x100 + b3
  | _ => 0

/-- Python slice `data[a:b]`. -/
def pySlice (data : Bytes) (a b : Nat) : Bytes := (data.drop a).take (b - a)

/-- One bit-step of the reflected CRC-32 polynomial 0xEDB88320. -/
def crcBitStep (c : Nat) : Nat :=
  if c % 2 = 1 then Nat.xor 0xEDB88320 (c / 2) else c / 2

def crcByteStep (c b : Nat) : Nat :=
  Nat.iterate crcBitStep 8 (Nat.xor c b)

/-- `zlib.crc32(data, value)`. -/
def crc32Upd (value : Nat) (data : Bytes) : Nat :=
  Nat.xor (data.foldl crcByteStep (Nat.xor value 0xFFFFFFFF)) 0xFFFFFFFF

/-- A chunk descriptor as `_iter_png_chunks` yields it:
`(ctype, data_start, data_end, chunk_start, chunk_end)`. -/
structure ChunkDesc : Type where
  ctype : Bytes
  ds : Nat
  de : Nat
  cs : Nat
  ce : Nat
deriving DecidableEq

/-- The scan loop of `_iter_png_chunks`, from offset `i`.  The fuel
makes the recursion structural; every chunk advances the offset by at
least 12 bytes, so `data.length` steps never run out. -/
def iterPngChunksFrom : Nat → Bytes → Nat → List ChunkDesc
  | 0, _, _ => []
  | fuel + 1, data, i =>
    if i + 8 ≤ data.length then
      let len := decodeBe32 (pySlice data i (i + 4))
      let ctype := pySlice data (i + 4) (i + 8)
      let dataStart := i + 8
      let dataEnd := dataStart + len
      let crcEnd := dataEnd + 4
      if crcEnd ≤ data.length then
        ⟨ctype, dataStart, dataEnd, i, crcEnd⟩ ::
          (if ctype = iendType then [] else iterPngChunksFrom fuel data crcEnd)
      else []
    else []

/-- `_iter_png_chunks`: empty unless the buffer starts with the PNG
signature; otherwise scan from offset 8. -/
def iterPngChunks (data : Bytes) : List ChunkDesc :=
  if listStarts pngSig data then iterPngChunksFrom data.length data 8 else []

/-- `_build_png_chunk`. -/
def buildPngChunk (chunkType payload : Bytes) : Bytes :=
  encodeBe32 payload.length ++ chunkType ++ payload ++
    encodeBe32 (crc32Upd (crc32Upd 0 chunkType) payload)

/-- The iTXt payload holding an XMP packet: keyword, NUL, compression
flag 0, compression method 0, empty language tag, empty translated
keyword, packet. -/
def itxtXmpPayload (xmpPacket : Bytes) : Bytes :=
  xmpItxtKeyword ++ [0, 0, 0, 0, 0] ++ xmpPacket

/-- `_build_png_itxt_xmp_chunk` (the keyword length check always passes
for the fixed 17-byte keyword). -/
def buildPngItxtXmpChunk (xmpPacket : Bytes) : Bytes :=
  buildPngChunk itxtType (itxtXmpPayload xmpPacket)

/-- `bytes.find(b, start)`: first index of byte `b` at or after `start`. -/
def byteFindFrom (payload : Bytes) (b : Nat) (start : Nat) : Option Nat :=
  ((payload.drop start).findIdx? (fun x => x = b)).map (· + start)

/-- `_extract_png_itxt_xmp_packet`'s per-chunk field walk: keyword up to
the first NUL must match, then the two compression bytes, the
NUL-terminated language tag and translated keyword; returns the packet
bytes, or `none` when any field is missing (the scan then continues
with later chunks). -/
def extractFromPayload (payload : Bytes) : Option Bytes :=
  match byteFindFrom payload 0 0 with
  | none => none
  | some nul =>
    if nul = 0 then none
    else if payload.take nul ≠ xmpItxtKeyword then none
    else
      let j := nul + 1
      if j + 2 > payload.length then none
      else
        match byteFindFrom payload 0 (j + 2) with
        | none => none
        | some nul2 =>
          match byteFindFrom payload 0 (nul2 + 1) with
          | none => none
          | some nul3 => some (payload.drop (nul3 + 1))

/-- `_extract_png_itxt_xmp_packet`: first structurally complete XMP iTXt
chunk wins. -/
def extractPngItxtXmpPacketGo (data : Bytes) : List ChunkDesc → Option Bytes
  | [] => none
  | d :: ds =>
    if d.ctype ≠ itxtType then extractPngItxtXmpPacketGo data ds
    else
      match extractFromPayload (pySlice data d.ds d.de) with
      | some packet => some packet
      | none => extractPngItxtXmpPacketGo data ds

def extractPngItxtXmpPacket (data : Bytes) : Option Bytes :=
  extractPngItxtXmpPacketGo data (iterPngChunks data)

/-- The keyword test of the replacement scan in
`write_processed_xmp_embed_png` (`nul > 0 and payload[:nul] == keyword`). -/
def xmpHeadMatch (payload : Bytes) : Bool :=
  match byteFindFrom payload 0 0 with
  | none => false
  | some nul => nul ≠ 0 && payload.take nul = xmpItxtKeyword

/-- Outcome of the replacement scan. -/
inductive SpliceAction : Type where
  | replaceSpan : Nat → Nat → SpliceAction
  | insertAt : Nat → SpliceAction
deriving DecidableEq

/-- The scan loop of `write_processed_xmp_embed_png`: first XMP iTXt
chunk wins (its whole span is replaced), else the first `IEND` start
offset is the insertion point; `none` when neither is met. -/
def findSpliceGo (data : Bytes) : List ChunkDesc → Option SpliceAction
  | [] => none
  | d :: ds =>
    if d.ctype = itxtType && xmpHeadMatch (pySlice data (d.cs + 8) (d.ce - 4)) then
      some (.replaceSpan d.cs d.ce)
    else if d.ctype = iendType then some (.insertAt d.cs)
    else findSpliceGo data ds

def findSplice (data : Bytes) : Option SpliceAction :=
  findSpliceGo data (iterPngChunks data)

/-- The pure buffer transformation of `write_processed_xmp_embed_png`
between the signature check and the write phase: compose the updated
packet from any existing one, build the new chunk, splice.  `none`
models both failure returns (no signature, no splice point) and the
`struct.error` abort on an impossible oversized payload. -/
def embedBuffer (data : Bytes) (tool processedDate : Str) : Option Bytes :=
  if !listStarts pngSig data then none
  else
    let existingXmp := extractPngItxtXmpPacket data
    let newXmpPacket := makeUpdatedXmpPacket existingXmp tool processedDate
    let newItxt := buildPngItxtXmpChunk newXmpPacket
    if (itxtXmpPayload newXmpPacket).length ≥ 0x100000000 then none
    else
      match findSplice data with
      | some (.replaceSpan s e) => some (data.take s ++ newItxt ++ data.drop e)
      | some (.insertAt i) => some (data.take i ++ newItxt ++ data.drop i)
      | none => none

/-! ## Filesystem model and the write entry points -/

/-- The files the module touches: the PNG target, the temporary path
beside it, and the sidecar.  `sidecarWrites` counts sidecar write
operations (to observe "performs no write" no-ops). -/
structure FS : Type where
  target : Option Bytes
  tmp : Option Bytes
  sidecar : Option Bytes
  sidecarWrites : Nat
deriving DecidableEq

/-- `write_processed_xmp_embed_png`.  `suffix` is `Path(png_path).suffix`;
`writeOk`/`replaceOk` are oracles for the two fallible filesystem calls
of the write phase (`tmp.write_bytes`, `tmp.replace`).  A failed write
leaves a partial temporary file, which the cleanup handler removes. -/
def writeProcessedXmpEmbedPng (suffix : Str) (fs : FS) (tool processedDate : Str)
    (writeOk replaceOk : Bool) : Bool × FS :=
  if pyLower suffix ≠ ".png".toList then (false, fs)
  else
    match fs.target with
    | none => (false, fs)
    | some data =>
      match embedBuffer data tool processedDate with
      | none => (false, fs)
      | some newData =>
        if writeOk then
          if replaceOk then (true, { fs with target := some newData, tmp := none })
          else (false, { fs with tmp := none })
        else (false, { fs with tmp := none })

/-- `write_processed_xmp_sidecar`.  `writeOk` is the oracle for
`sidecar.write_bytes`. -/
def writeProcessedXmpSidecar (fs : FS) (tool processedDate : Str)
    (writeOk : Bool) : Bool × FS :=
  let existing := fs.sidecar
  let root := parseOrCreateXmpmetaRoot existing
  let u := updateXmpTree (keywordFor tool) (descTextFor tool processedDate) root
  let changed := u.2.1 || u.2.2
  if !changed && existing.isSome then (true, fs)
  else if writeOk then
    (true, { fs with sidecar := some (serializeXmpmeta u.1),
                     sidecarWrites := fs.sidecarWrites + 1 })
  else (false, fs)

/-- `write_processed_tags`. -/
def writeProcessedTags (suffix : Str) (fs : FS) (tool processedDate : Str)
    (embedPng alsoWriteSidecar : Bool)
    (writeOk replaceOk sidecarWriteOk : Bool) : Bool × FS :=
  let okAny := false
  let (okAny, fs) :=
    if pyLower suffix = ".png".toList && embedPng then
      let (r, fs') := writeProcessedXmpEmbedPng suffix fs tool processedDate writeOk replaceOk
      (r || okAny, fs')
    else (okAny, fs)
  if alsoWriteSidecar || pyLower suffix ≠ ".png".toList then
    let (r, fs') := writeProcessedXmpSidecar fs tool processedDate sidecarWriteOk
    (r || okAny, fs')
  else (okAny, fs)

/-! ## Support definitions for the checked properties -/

/-- A structured chunk: type tag and payload. -/
def renderChunk (c : Bytes × Bytes) : Bytes := buildPngChunk c.1 c.2

/-- A byte buffer as a signature followed by rendered chunks. -/
def renderChunks (cs : List (Bytes × Bytes)) : Bytes := (cs.map renderChunk).flatten

/-- Structured chunk well-formedness: 4-byte type, payload length
representable in the 32-bit length field. -/
def wfChunk (c : Bytes × Bytes) : Bool :=
  c.1.length = 4 && c.2.length < 0x100000000

/-- The chunk descriptors are consistent and contiguous starting at
offset `i`: each declared length matches its payload span, the CRC ends
the chunk, the whole span lies inside the buffer, and the next chunk
starts where the previous one ends. -/
def chainedFrom (data : Bytes) : Nat → List ChunkDesc → Bool
  | _, [] => true
  | i, d :: ds =>
    d.cs = i && d.ds = i + 8 && i + 8 ≤ data.length &&
    d.de = d.ds + decodeBe32 (pySlice data i (i + 4)) &&
    d.ctype = pySlice data (i + 4) (i + 8) &&
    d.ce = d.de + 4 && d.ce ≤ data.length &&
    chainedFrom data d.ce ds

/-- First direct child with a tag. -/
def firstChildTag (e : XElem) (t : Str) : Option XElem :=
  e.children.find? (fun c => c.tag = t)

/-- The `rdf:Description` a reader of the packet would consult — the
same node the writer edits: first `rdf:RDF` in preorder, then its first
`rdf:Description` child. -/
def packetDescription (root : XElem) : Option XElem :=
  match findPreFirst (fun e => e.tag = tagRDF) root with
  | some rdf => firstChildTag rdf tagDescription
  | none => none

/-- The keyword texts in the packet's `dc:subject` Bag. -/
def bagTexts (root : XElem) : List Str :=
  match packetDescription root >>= (firstChildTag · tagDcSubject) >>= (firstChildTag · tagBag) with
  | some bag => (bag.children.filter (fun li => li.tag = tagLi)).map (fun li => optOrEmpty li.text)
  | none => []

/-- The texts of the `xml:lang="x-default"` entries in the packet's
`dc:description` Alt. -/
def xdefaultTexts (root : XElem) : List Str :=
  match packetDescription root >>= (firstChildTag · tagDcDescription) >>= (firstChildTag · tagAlt) with
  | some alt =>
    ((alt.children.filter
        (fun li => li.tag = tagLi && lookupAttr li attrXmlLang = some "x-default".toList)).map
      (fun li => optOrEmpty li.text))
  | none => []

/-- Every descriptor before the last has a non-`IEND` type (the scanner
stops after yielding `IEND`). -/
def noIendButLast : List ChunkDesc → Bool
  | [] => true
  | [_] => true
  | d :: ds => d.ctype ≠ iendType && noIendButLast ds

/-- The descriptors the scanner should yield for rendered chunks
starting at offset `i` (stopping after the first `IEND`). -/
def descsFrom (i : Nat) : List (Bytes × Bytes) → List ChunkDesc
  | [] => []
  | c :: cs =>
    ⟨c.1, i + 8, i + 8 + c.2.length, i, i + 12 + c.2.length⟩ ::
      (if c.1 = iendType then [] else descsFrom (i + 12 + c.2.length) cs)

/-- The structured form of the scan condition of the replacement loop. -/
def chunkIsXmpItxt (c : Bytes × Bytes) : Bool :=
  c.1 = itxtType && xmpHeadMatch c.2

/-- The replacement scan over structured chunks. -/
def structuredSplice (i : Nat) : List (Bytes × Bytes) → Option SpliceAction
  | [] => none
  | c :: cs =>
    if chunkIsXmpItxt c then some (.replaceSpan i (i + 12 + c.2.length))
    else if c.1 = iendType then some (.insertAt i)
    else structuredSplice (i + 12 + c.2.length) cs

/-- The extractor over structured chunks. -/
def structuredExtract : List (Bytes × Bytes) → Option Bytes
  | [] => none
  | c :: cs =>
    if c.1 ≠ itxtType then structuredExtract cs
    else
      match extractFromPayload c.2 with
      | some p => some p
      | none => structuredExtract cs

/-- A chunk list with exactly one `IEND`, at the end (a valid PNG
layout). -/
def iendTerminated : List (Bytes × Bytes) → Bool
  | [] => false
  | c :: cs => if cs.isEmpty then c.1 = iendType else (c.1 ≠ iendType && iendTerminated cs)

/-! ## Serializer decomposition and round-trip side conditions

`serCore`/`serList` restate the serializer with each element's tail
split out (`serElemCore e = serCore e ++ tailEsc e`): the parser reads
an element's tail in the parent (`pChildrenF`), so the inversion
argument follows this grouping.  `resOk` and `phiOk` are the decidable
side conditions under which the document's namespace assignment is
invertible. -/

/-- The serialized tail of an element. -/
def tailEsc (e : XElem) : Str :=
  if optTruthy e.tail then escCdata (optOrEmpty e.tail) else []

/-- The raw attribute text ` k="v"...` for raw key/value pairs. -/
def rawAttrText (l : List (Str × Str)) : Str :=
  (l.map (fun kv => ' ' :: (kv.1 ++ '=' :: '"' :: (escAttrib kv.2 ++ ['"'])))).flatten

/-- The raw `(key, value)` pairs of the namespace declarations. -/
def declPairs (phi : List (Str × Str)) : List (Str × Str) :=
  (sortByPfx phi).map (fun p => ("xmlns:".toList ++ p.2, p.1))

mutual

/-- `serElemCore` without the element's own tail. -/
def serCore (phi : List (Str × Str)) (extra : Str) : XElem → Str
  | .mk t a tx _ cs =>
    let nm := serTag phi t
    let attrsOut := rawAttrText (a.map (fun kv => (serTag phi kv.1, kv.2)))
    if optTruthy tx || !cs.isEmpty then
      '<' :: (nm ++ extra ++ attrsOut ++ '>' ::
        ((if optTruthy tx then escCdata (optOrEmpty tx) else []) ++
         serList phi cs ++
         '<' :: '/' :: (nm ++ ['>'])))
    else
      '<' :: (nm ++ extra ++ attrsOut ++ [' ', '/', '>'])

/-- `serElemList`: each child's core followed by its tail. -/
def serList (phi : List (Str × Str)) : List XElem → Str
  | [] => []
  | c :: cs => serCore phi [] c ++ tailEsc c ++ serList phi cs

end

/-- A serialized name the tokenizer reads back in one piece. -/
def serTok (s : Str) : Bool := !s.isEmpty && s.all nameChar

/-- A raw attribute key `splitXmlnsAttrs` classifies as ordinary. -/
def ordAttrKey (k : Str) : Bool :=
  k ≠ "xmlns".toList &&
  (match firstSplitAt ':' k with
   | some (pfx, _) => pfx ≠ "xmlns".toList
   | none => true)

mutual

/-- Every tag and attribute key of the tree serializes to a clean token
that the parser resolves back to the same qualified name under `env`. -/
def resOk (phi env : List (Str × Str)) : XElem → Bool
  | .mk t a _ _ cs =>
    serTok (serTag phi t) &&
    decide (resolveTagName env (serTag phi t) = some t) &&
    a.all (fun kv =>
      serTok (serTag phi kv.1) && ordAttrKey (serTag phi kv.1) &&
      decide (resolveAttrName env (serTag phi kv.1) = some kv.1)) &&
    resOkList phi env cs

def resOkList (phi env : List (Str × Str)) : List XElem → Bool
  | [] => true
  | c :: cs => resOk phi env c && resOkList phi env cs

end

/-- A namespace-assignment entry whose declaration round-trips: clean
nonempty URI, token prefix without a colon, not `xml`/`xmlns`. -/
def declOk (p : Str × Str) : Bool :=
  !p.2.isEmpty && p.2.all nameChar && !p.2.any (fun c => c = ':') &&
  p.2 ≠ "xmlns".toList && p.2 ≠ "xml".toList &&
  !p.1.isEmpty && cleanAttrV p.1

def phiOk (phi : List (Str × Str)) : Bool := phi.all declOk

/-- The namespace environment the parser builds from the serialized
declarations. -/
def envOf (phi : List (Str × Str)) : List (Str × Str) :=
  (sortByPfx phi).map (fun p => (p.2, p.1)) ++ env0

/-- The decidable side condition of the round trip: the document's own
namespace assignment resolves every name of the tree back to itself. -/
def serRT (t : XElem) : Bool :=
  phiOk (buildAssign (collectQNames t)) &&
  resOk (buildAssign (collectQNames t)) (envOf (buildAssign (collectQNames t))) t

/-! # Theorems -/

/-! ## Helper lemmas: the chunk scanner -/

theorem iterFrom_chained (data : Bytes) :
    ∀ k i, chainedFrom data i (iterPngChunksFrom k data i) = true := by
  intro k
  induction k with
  | zero => intro i; simp [iterPngChunksFrom, chainedFrom]
  | succ k ih =>
    intro i
    rw [iterPngChunksFrom]
    split
    · next h8 =>
      dsimp only
      split
      · next hce =>
        have htail : chainedFrom data (i + 8 + decodeBe32 (pySlice data i (i + 4)) + 4)
            (if pySlice data (i + 4) (i + 8) = iendType then []
             else iterPngChunksFrom k data (i + 8 + decodeBe32 (pySlice data i (i + 4)) + 4)) = true := by
          split
          · simp [chainedFrom]
          · exact ih _
        simp [chainedFrom, h8, hce, htail]
      · simp [chainedFrom]
    · simp [chainedFrom]

theorem iterFrom_noIendButLast (data : Bytes) :
    ∀ k i, noIendButLast (iterPngChunksFrom k data i) = true := by
  intro k
  induction k with
  | zero => intro i; simp [iterPngChunksFrom, noIendButLast]
  | succ k ih =>
    intro i
    rw [iterPngChunksFrom]
    split
    · next h8 =>
      dsimp only
      split
      · next hce =>
        split
        · next hend => simp [noIendButLast]
        · next hend =>
          have hrec := ih (i + 8 + decodeBe32 (pySlice data i (i + 4)) + 4)
          cases hh : iterPngChunksFrom k data (i + 8 + decodeBe32 (pySlice data i (i + 4)) + 4) with
          | nil => simp [noIendButLast]
          | cons d ds =>
            rw [hh] at hrec
            simp only [noIendButLast, Bool.and_eq_true, decide_eq_true_eq]
            exact ⟨by simpa using hend, hrec⟩
      · simp [noIendButLast]
    · simp [noIendButLast]

/-- C7: the chunk scanner yields descriptors in file order starting
immediately after the 8-byte signature, with declared lengths matching
payload spans and every span inside the buffer (truncated sequence on
malformed input, never an error); it yields nothing when the signature
is missing; and it stops after yielding an `IEND` descriptor. -/
theorem C7_chunk_scanner (data : Bytes) :
    (listStarts pngSig data = false → iterPngChunks data = []) ∧
    (listStarts pngSig data = true → chainedFrom data 8 (iterPngChunks data) = true) ∧
    noIendButLast (iterPngChunks data) = true := by
  refine ⟨fun h => by simp [iterPngChunks, h], fun h => ?_, ?_⟩
  · rw [iterPngChunks, if_pos h]
    exact iterFrom_chained data data.length 8
  · rw [iterPngChunks]
    split
    · exact iterFrom_noIendButLast data data.length 8
    · simp [noIendButLast]

/-- C7 witness: a two-chunk buffer (IHDR then IEND). -/
theorem C7_chunk_scanner_witness :
    (listStarts pngSig (pngSig ++ renderChunk (iendType, [])) = true →
       chainedFrom (pngSig ++ renderChunk (iendType, [])) 8
         (iterPngChunks (pngSig ++ renderChunk (iendType, []))) = true) ∧
    chainedFrom (pngSig ++ renderChunk (iendType, [])) 8
      (iterPngChunks (pngSig ++ renderChunk (iendType, []))) = true :=
  ⟨(C7_chunk_scanner (pngSig ++ renderChunk (iendType, []))).2.1,
   (C7_chunk_scanner (pngSig ++ renderChunk (iendType, []))).2.1 (by decide)⟩

/-- C9: a target path whose (lowercased) extension is not `.png` makes
the PNG-embed operation return `False` without touching any file. -/
theorem C9_non_png_noop (suffix : Str) (fs : FS) (tool processedDate : Str)
    (writeOk replaceOk : Bool) (h : pyLower suffix ≠ ".png".toList) :
    writeProcessedXmpEmbedPng suffix fs tool processedDate writeOk replaceOk = (false, fs) := by
  unfold writeProcessedXmpEmbedPng
  rw [if_pos h]

/-- C9 witness: a `.jpg` path. -/
theorem C9_non_png_noop_witness :
    pyLower ".jpg".toList ≠ ".png".toList ∧
    writeProcessedXmpEmbedPng ".jpg".toList ⟨some [1], none, none, 0⟩ [] []
      true true = (false, ⟨some [1], none, none, 0⟩) :=
  ⟨by decide,
   C9_non_png_noop ".jpg".toList ⟨some [1], none, none, 0⟩ [] [] true true (by decide)⟩

/-- C5: when either write-phase filesystem call fails, the embed
operation returns failure, removes the temporary file, and leaves the
target (and everything else) byte-identical to its pre-call state. -/
theorem C5_write_failure_atomic (suffix : Str) (fs : FS) (tool processedDate : Str)
    (writeOk replaceOk : Bool) (data : Bytes)
    (hs : pyLower suffix = ".png".toList)
    (ht : fs.target = some data)
    (he : (embedBuffer data tool processedDate).isSome = true)
    (hf : ¬(writeOk = true ∧ replaceOk = true)) :
    (writeProcessedXmpEmbedPng suffix fs tool processedDate writeOk replaceOk).1 = false ∧
    (writeProcessedXmpEmbedPng suffix fs tool processedDate writeOk replaceOk).2.tmp = none ∧
    (writeProcessedXmpEmbedPng suffix fs tool processedDate writeOk replaceOk).2.target = fs.target ∧
    (writeProcessedXmpEmbedPng suffix fs tool processedDate writeOk replaceOk).2.sidecar = fs.sidecar := by
  obtain ⟨nd, hnd⟩ := Option.isSome_iff_exists.mp he
  cases writeOk <;> cases replaceOk <;>
    simp_all [writeProcessedXmpEmbedPng, hs, ht, hnd]



/-- C5 witness: a minimal one-chunk PNG and a failing write phase. -/
theorem C5_write_failure_atomic_witness :
    pyLower ".png".toList = ".png".toList ∧
    (embedBuffer (pngSig ++ renderChunk (iendType, [])) [] []).isSome = true ∧
    (writeProcessedXmpEmbedPng ".png".toList
        (FS.mk (some (pngSig ++ renderChunk (iendType, []))) none none 0) [] [] false false).1
      = false :=
  ⟨by decide, by decide,
   (C5_write_failure_atomic ".png".toList
     (FS.mk (some (pngSig ++ renderChunk (iendType, []))) none none 0) [] [] false false
     (pngSig ++ renderChunk (iendType, []))
     (by decide) rfl (by decide) (by simp)).1⟩

/-! ## Helper lemma: the replacement scan finds nothing -/

theorem findSpliceGo_none (data : Bytes) (l : List ChunkDesc)
    (h : ∀ d ∈ l, ¬(d.ctype = itxtType ∧
           xmpHeadMatch (pySlice data (d.cs + 8) (d.ce - 4)) = true) ∧
         d.ctype ≠ iendType) :
    findSpliceGo data l = none := by
  induction l with
  | nil => rfl
  | cons d ds ih =>
    have hd := h d (by simp)
    rw [findSpliceGo]
    rw [if_neg, if_neg]
    · exact ih (fun d' hd' => h d' (by simp [hd']))
    · simpa using hd.2
    · simp only [Bool.and_eq_true, decide_eq_true_eq]
      intro hc
      exact hd.1 ⟨hc.1, hc.2⟩

/-- C6: a `.png`-suffixed target whose bytes lack a valid PNG signature,
or whose chunk sequence has neither an XMP iTXt chunk (in the sense of
the replacement scan's keyword test) nor an `IEND` chunk, makes the
embed operation return failure with every file untouched. -/
theorem C6_malformed_failure (suffix : Str) (fs : FS) (tool processedDate : Str)
    (writeOk replaceOk : Bool) (data : Bytes)
    (hs : pyLower suffix = ".png".toList)
    (ht : fs.target = some data)
    (h : listStarts pngSig data = false ∨
         ∀ d ∈ iterPngChunks data,
           ¬(d.ctype = itxtType ∧
              xmpHeadMatch (pySlice data (d.cs + 8) (d.ce - 4)) = true) ∧
           d.ctype ≠ iendType) :
    writeProcessedXmpEmbedPng suffix fs tool processedDate writeOk replaceOk = (false, fs) := by
  have hemb : embedBuffer data tool processedDate = none := by
    cases h with
    | inl hsig => simp [embedBuffer, hsig]
    | inr hall =>
      have hfs : findSplice data = none := findSpliceGo_none data _ hall
      rw [embedBuffer]
      split
      · rfl
      · dsimp only
        split
        · rfl
        · rw [hfs]
  unfold writeProcessedXmpEmbedPng
  rw [if_neg (by simp [hs]), ht]
  simp [hemb]

/-- C6 witness: a `.png` target holding a signature followed by one
non-IEND, non-iTXt chunk. -/
theorem C6_malformed_failure_witness :
    pyLower ".png".toList = ".png".toList ∧
    (FS.mk (some (pngSig ++ renderChunk (strToBytes "IHDR".toList, [1]))) none none 0).target
      = some (pngSig ++ renderChunk (strToBytes "IHDR".toList, [1])) ∧
    writeProcessedXmpEmbedPng ".png".toList
      (FS.mk (some (pngSig ++ renderChunk (strToBytes "IHDR".toList, [1]))) none none 0)
      [] [] true true
      = (false, FS.mk (some (pngSig ++ renderChunk (strToBytes "IHDR".toList, [1]))) none none 0) :=
  ⟨by decide, rfl,
   C6_malformed_failure ".png".toList
     (FS.mk (some (pngSig ++ renderChunk (strToBytes "IHDR".toList, [1]))) none none 0)
     [] [] true true (pngSig ++ renderChunk (strToBytes "IHDR".toList, [1]))
     (by decide) rfl (Or.inr (by decide))⟩

/-- C10: for a non-`.png` path, the top-level entry point writes the
sidecar even with `also_write_sidecar=False` — sidecar writing is
forced, not opt-in. -/
theorem C10_sidecar_forced (suffix : Str) (fs : FS) (tool processedDate : Str)
    (embedPng writeOk replaceOk : Bool)
    (hs : pyLower suffix ≠ ".png".toList)
    (hsc : fs.sidecar = none) :
    (writeProcessedTags suffix fs tool processedDate embedPng false writeOk replaceOk true).2.sidecar
      = some (serializeXmpmeta
          (updateXmpTree (keywordFor tool) (descTextFor tool processedDate)
            minimalXmpPacketRoot).1) ∧
    (writeProcessedTags suffix fs tool processedDate embedPng false writeOk replaceOk
        true).2.sidecarWrites = fs.sidecarWrites + 1 := by
  have h1 : ¬ pyLower suffix = ['.', 'p', 'n', 'g'] := by simpa using hs
  simp [writeProcessedTags, h1, writeProcessedXmpSidecar, hsc, parseOrCreateXmpmetaRoot]

/-- C10 witness. -/
theorem C10_sidecar_forced_witness :
    pyLower ".jpg".toList ≠ ".png".toList ∧
    (FS.mk none none none 0).sidecar = none ∧
    (writeProcessedTags ".jpg".toList (FS.mk none none none 0) [] [] true false
        true true true).2.sidecar
      = some (serializeXmpmeta
          (updateXmpTree (keywordFor []) (descTextFor [] []) minimalXmpPacketRoot).1) :=
  ⟨by decide, rfl,
   (C10_sidecar_forced ".jpg".toList (FS.mk none none none 0) [] [] true true true
     (by decide) rfl).1⟩

/-! ## C1, C2, C8: counterexamples and amended statements -/

/-- C1 counterexample: with `tool = "a "` (trailing space) the keyword
`"ProcessedWith:a "` never equals its own stripped form, so the second
application appends a duplicate `rdf:li` and the output bytes differ. -/
theorem C1_idempotence_counterexample :
    makeUpdatedXmpPacket
        (some (makeUpdatedXmpPacket none "a ".toList "2024-01-01".toList))
        "a ".toList "2024-01-01".toList
      ≠ makeUpdatedXmpPacket none "a ".toList "2024-01-01".toList := by
  decide

/-- C2 counterexample: tools `A = "b "` and `B = "b"` are different, yet
after the second compose the Bag does not contain `ProcessedWith:b`:
the stripped text of the existing `ProcessedWith:b ` entry matches the
new keyword, so no entry is appended.  (The composed packet is the
serialization of the tree whose Bag is inspected.) -/
theorem C2_round_trip_counterexample :
    makeUpdatedXmpPacket
        (some (makeUpdatedXmpPacket none "b ".toList "d1".toList)) "b".toList "d2".toList
      = serializeXmpmeta
          (updateXmpTree (keywordFor "b".toList) (descTextFor "b".toList "d2".toList)
            (parseOrCreateXmpmetaRoot
              (some (makeUpdatedXmpPacket none "b ".toList "d1".toList)))).1 ∧
    ¬ (keywordFor "b".toList ∈ bagTexts
        (updateXmpTree (keywordFor "b".toList) (descTextFor "b".toList "d2".toList)
          (parseOrCreateXmpmetaRoot
            (some (makeUpdatedXmpPacket none "b ".toList "d1".toList)))).1) :=
  ⟨rfl, by decide⟩

/-- C8 counterexample: a sidecar whose bytes are a composed packet plus
a trailing newline.  The parsed tree already carries the keyword and
description, so the writer is a no-op returning success — although the
composed packet differs verbatim from the bytes on disk. -/
theorem C8_sidecar_counterexample :
    writeProcessedXmpSidecar
        (FS.mk none none (some (makeUpdatedXmpPacket none "t".toList "d".toList ++ [10])) 0)
        "t".toList "d".toList true
      = (true, FS.mk none none
          (some (makeUpdatedXmpPacket none "t".toList "d".toList ++ [10])) 0) ∧
    serializeXmpmeta
        (updateXmpTree (keywordFor "t".toList) (descTextFor "t".toList "d".toList)
          (parseOrCreateXmpmetaRoot
            (some (makeUpdatedXmpPacket none "t".toList "d".toList ++ [10])))).1
      ≠ makeUpdatedXmpPacket none "t".toList "d".toList ++ [10] := by
  constructor
  · decide
  · decide

/-- C8 amended: the sidecar writer writes (bumping the write counter
and storing the re-serialized packet) exactly when the ensure-operations
report a change or no sidecar exists; otherwise it performs no write and
returns success — even if the composed packet differs byte-for-byte from
the sidecar on disk. -/
theorem C8_sidecar_write_condition (fs : FS) (tool processedDate : Str) :
    ((updateXmpTree (keywordFor tool) (descTextFor tool processedDate)
        (parseOrCreateXmpmetaRoot fs.sidecar)).2.1 = false →
     (updateXmpTree (keywordFor tool) (descTextFor tool processedDate)
        (parseOrCreateXmpmetaRoot fs.sidecar)).2.2 = false →
     fs.sidecar.isSome = true →
     writeProcessedXmpSidecar fs tool processedDate true = (true, fs)) ∧
    (((updateXmpTree (keywordFor tool) (descTextFor tool processedDate)
         (parseOrCreateXmpmetaRoot fs.sidecar)).2.1 = true ∨
      (updateXmpTree (keywordFor tool) (descTextFor tool processedDate)
         (parseOrCreateXmpmetaRoot fs.sidecar)).2.2 = true ∨
      fs.sidecar = none) →
     (writeProcessedXmpSidecar fs tool processedDate true).2.sidecarWrites
        = fs.sidecarWrites + 1 ∧
     (writeProcessedXmpSidecar fs tool processedDate true).2.sidecar
        = some (serializeXmpmeta
            (updateXmpTree (keywordFor tool) (descTextFor tool processedDate)
              (parseOrCreateXmpmetaRoot fs.sidecar)).1)) := by
  constructor
  · intro h1 h2 h3
    unfold writeProcessedXmpSidecar
    rw [if_pos]
    simp [h1, h2, h3]
  · intro h
    unfold writeProcessedXmpSidecar
    rw [if_neg]
    · simp
    · rcases h with h | h | h <;> simp [h]

/-- C8 amended witness: an absent sidecar is written. -/
theorem C8_sidecar_write_condition_witness :
    ((FS.mk none none none 0).sidecar = none) ∧
    (writeProcessedXmpSidecar (FS.mk none none none 0) "t".toList "d".toList
        true).2.sidecarWrites = 0 + 1 :=
  ⟨rfl,
   ((C8_sidecar_write_condition (FS.mk none none none 0) "t".toList "d".toList).2
     (Or.inr (Or.inr rfl))).1⟩

/-! ## Helper lemmas: rendered chunks and the scanner -/

theorem encodeBe32_length (n : Nat) : (encodeBe32 n).length = 4 := rfl

theorem decodeBe32_encodeBe32 (n : Nat) (h : n < 0x100000000) :
    decodeBe32 (encodeBe32 n) = n := by
  simp only [encodeBe32, decodeBe32]
  omega

theorem renderChunk_length (c : Bytes × Bytes) (h : c.1.length = 4) :
    (renderChunk c).length = 12 + c.2.length := by
  simp [renderChunk, buildPngChunk, encodeBe32]
  omega

theorem renderChunks_cons (c : Bytes × Bytes) (cs : List (Bytes × Bytes)) :
    renderChunks (c :: cs) = renderChunk c ++ renderChunks cs := by
  simp [renderChunks]

theorem renderChunks_nil : renderChunks [] = [] := rfl

theorem length_le_renderChunks (cs : List (Bytes × Bytes))
    (h : ∀ c ∈ cs, wfChunk c = true) :
    cs.length ≤ (renderChunks cs).length := by
  induction cs with
  | nil => simp [renderChunks]
  | cons c cs ih =>
    rw [renderChunks_cons]
    have hc := h c (by simp)
    have h4 : c.1.length = 4 := by
      simp [wfChunk] at hc
      exact hc.1
    have := renderChunk_length c h4
    have := ih (fun c' hc' => h c' (by simp [hc']))
    simp only [List.length_cons, List.length_append]
    omega

theorem pySlice_at (pre mid post : Bytes) :
    pySlice (pre ++ mid ++ post) pre.length (pre.length + mid.length) = mid := by
  simp only [pySlice, List.append_assoc, List.drop_left, Nat.add_sub_cancel_left]
  exact List.take_left mid post

theorem wfChunk_type_length (c : Bytes × Bytes) (h : wfChunk c = true) : c.1.length = 4 := by
  simp [wfChunk] at h
  exact h.1

theorem wfChunk_payload_lt (c : Bytes × Bytes) (h : wfChunk c = true) :
    c.2.length < 0x100000000 := by
  simp [wfChunk] at h
  exact h.2

theorem iterFrom_render :
    ∀ (cs : List (Bytes × Bytes)) (fuel : Nat) (pre : Bytes),
      (∀ c ∈ cs, wfChunk c = true) → cs.length ≤ fuel →
      iterPngChunksFrom fuel (pre ++ renderChunks cs) pre.length = descsFrom pre.length cs := by
  intro cs
  induction cs with
  | nil =>
    intro fuel pre h hf
    cases fuel with
    | zero => rfl
    | succ f =>
      rw [iterPngChunksFrom, if_neg]
      · rfl
      · simp [renderChunks]
  | cons c cs ih =>
    intro fuel pre h hf
    cases fuel with
    | zero => simp at hf
    | succ f =>
      have hc := h c (by simp)
      have h4 : c.1.length = 4 := wfChunk_type_length c hc
      have hlt : c.2.length < 0x100000000 := wfChunk_payload_lt c hc
      have hdata : pre ++ renderChunks (c :: cs) =
          pre ++ encodeBe32 c.2.length ++
            (c.1 ++ (c.2 ++ (encodeBe32 (crc32Upd (crc32Upd 0 c.1) c.2) ++ renderChunks cs))) := by
        rw [renderChunks_cons]
        simp [renderChunk, buildPngChunk, List.append_assoc]
      have hlen : (pre ++ renderChunks (c :: cs)).length
          = pre.length + 12 + c.2.length + (renderChunks cs).length := by
        rw [renderChunks_cons]
        simp only [List.length_append, renderChunk_length c h4]
        omega
      have hs1 : pySlice (pre ++ renderChunks (c :: cs)) pre.length (pre.length + 4)
          = encodeBe32 c.2.length := by
        rw [hdata]
        have := pySlice_at pre (encodeBe32 c.2.length)
          (c.1 ++ (c.2 ++ (encodeBe32 (crc32Upd (crc32Upd 0 c.1) c.2) ++ renderChunks cs)))
        rwa [encodeBe32_length] at this
      have hs2 : pySlice (pre ++ renderChunks (c :: cs)) (pre.length + 4) (pre.length + 8)
          = c.1 := by
        have h0 := pySlice_at (pre ++ encodeBe32 c.2.length) c.1
          (c.2 ++ (encodeBe32 (crc32Upd (crc32Upd 0 c.1) c.2) ++ renderChunks cs))
        rw [List.length_append, encodeBe32_length, h4] at h0
        rw [List.append_assoc] at h0
        rw [hdata]
        have h44 : List.length pre + 4 + 4 = List.length pre + 8 := by omega
        rw [h44] at h0
        exact h0
      rw [iterPngChunksFrom]
      rw [if_pos (by rw [hlen]; omega)]
      dsimp only
      rw [hs1, hs2, decodeBe32_encodeBe32 _ hlt]
      rw [if_pos (by rw [hlen]; omega)]
      have hce : List.length pre + 8 + List.length c.2 + 4
          = List.length pre + 12 + List.length c.2 := by omega
      rw [hce, descsFrom]
      congr 1
      split
      · rfl
      · rw [show pre ++ renderChunks (c :: cs) = (pre ++ renderChunk c) ++ renderChunks cs from
          by rw [renderChunks_cons, List.append_assoc]]
        have hplen : (pre ++ renderChunk c).length = pre.length + 12 + c.2.length := by
          simp only [List.length_append, renderChunk_length c h4]
          omega
        have hrec := ih f (pre ++ renderChunk c) (fun c' hc' => h c' (by simp [hc']))
          (by simp at hf; omega)
        rw [hplen] at hrec
        exact hrec

theorem pySlice_payload (pre post : Bytes) (c : Bytes × Bytes) (h4 : c.1.length = 4) :
    pySlice (pre ++ renderChunk c ++ post) (pre.length + 8) (pre.length + 8 + c.2.length)
      = c.2 := by
  have h0 := pySlice_at (pre ++ encodeBe32 c.2.length ++ c.1) c.2
    (encodeBe32 (crc32Upd (crc32Upd 0 c.1) c.2) ++ post)
  rw [List.length_append, List.length_append, encodeBe32_length, h4] at h0
  have hsh : pre ++ renderChunk c ++ post =
      pre ++ encodeBe32 c.2.length ++ c.1 ++
        (c.2 ++ (encodeBe32 (crc32Upd (crc32Upd 0 c.1) c.2) ++ post)) := by
    simp [renderChunk, buildPngChunk, List.append_assoc]
  rw [hsh]
  have h8 : List.length pre + 4 + 4 = List.length pre + 8 := by omega
  rw [h8] at h0
  simpa [List.append_assoc] using h0

theorem listStarts_append {α : Type} [DecidableEq α] (p rest : List α) :
    listStarts p (p ++ rest) = true := by
  induction p with
  | nil => rfl
  | cons a as ih => simp [listStarts, ih]

theorem findSpliceGo_descs :
    ∀ (cs : List (Bytes × Bytes)) (pre post : Bytes),
      (∀ c ∈ cs, wfChunk c = true) →
      findSpliceGo (pre ++ (renderChunks cs ++ post)) (descsFrom pre.length cs)
        = structuredSplice pre.length cs := by
  intro cs
  induction cs with
  | nil => intro pre post h; rfl
  | cons c cs ih =>
    intro pre post h
    have hc := h c (by simp)
    have h4 : c.1.length = 4 := wfChunk_type_length c hc
    rw [descsFrom, findSpliceGo, structuredSplice]
    have harr : List.length pre + 12 + List.length c.2 - 4
        = List.length pre + 8 + List.length c.2 := by omega
    have hshape : pre ++ (renderChunks (c :: cs) ++ post)
        = pre ++ renderChunk c ++ (renderChunks cs ++ post) := by
      rw [renderChunks_cons]
      simp [List.append_assoc]
    have hpay : pySlice (pre ++ (renderChunks (c :: cs) ++ post))
        (pre.length + 8) (pre.length + 8 + c.2.length) = c.2 := by
      rw [hshape]
      exact pySlice_payload pre (renderChunks cs ++ post) c h4
    simp only [harr, hpay, chunkIsXmpItxt]
    by_cases hx : (decide (c.1 = itxtType) && xmpHeadMatch c.2) = true
    · rw [if_pos hx, if_pos hx]
    · rw [if_neg hx, if_neg hx]
      by_cases hie : c.1 = iendType
      · rw [if_pos hie, if_pos hie]
      · rw [if_neg hie, if_neg hie, if_neg hie]
        have hrec := ih (pre ++ renderChunk c) post (fun c' hc' => h c' (by simp [hc']))
        have hplen : (pre ++ renderChunk c).length = pre.length + 12 + c.2.length := by
          simp only [List.length_append, renderChunk_length c h4]
          omega
        rw [hplen] at hrec
        rw [hshape]
        exact hrec

theorem renderChunks_append (xs ys : List (Bytes × Bytes)) :
    renderChunks (xs ++ ys) = renderChunks xs ++ renderChunks ys := by
  simp [renderChunks]

theorem iendTerminated_single (c : Bytes × Bytes) :
    iendTerminated [c] = decide (c.1 = iendType) := rfl

theorem iendTerminated_cons_of_ne (c : Bytes × Bytes) (cs : List (Bytes × Bytes))
    (h : cs ≠ []) :
    iendTerminated (c :: cs) = (decide (c.1 ≠ iendType) && iendTerminated cs) := by
  cases cs with
  | nil => exact absurd rfl h
  | cons b bs => rfl

theorem iendTerminated_mid (cs1 : List (Bytes × Bytes)) (c : Bytes × Bytes)
    (cs2 : List (Bytes × Bytes)) :
    iendTerminated (cs1 ++ c :: cs2) = true → c.1 = iendType → cs2 = [] := by
  induction cs1 with
  | nil =>
    intro h hc
    cases cs2 with
    | nil => rfl
    | cons b bs =>
      rw [List.nil_append, iendTerminated_cons_of_ne c (b :: bs) (by simp)] at h
      simp [hc] at h
  | cons a as ih =>
    intro h hc
    rw [List.cons_append, iendTerminated_cons_of_ne a (as ++ c :: cs2) (by simp)] at h
    simp only [Bool.and_eq_true] at h
    exact ih h.2 hc

theorem iendTerminated_insert (cs1 : List (Bytes × Bytes)) (a : Bytes × Bytes)
    (cs2 : List (Bytes × Bytes)) :
    iendTerminated (cs1 ++ cs2) = true → cs2 ≠ [] → a.1 ≠ iendType →
    iendTerminated (cs1 ++ a :: cs2) = true := by
  induction cs1 with
  | nil =>
    intro h hne ha
    rw [List.nil_append] at h ⊢
    rw [iendTerminated_cons_of_ne a cs2 hne]
    simp [ha, h]
  | cons x xs ih =>
    intro h hne ha
    have hx : xs ++ cs2 ≠ [] := by
      cases cs2 with
      | nil => exact absurd rfl hne
      | cons b bs => simp
    rw [List.cons_append, iendTerminated_cons_of_ne x (xs ++ cs2) hx] at h
    rw [List.cons_append, iendTerminated_cons_of_ne x (xs ++ a :: cs2) (by simp)]
    simp only [Bool.and_eq_true] at h ⊢
    exact ⟨h.1, ih h.2 hne ha⟩

theorem iendTerminated_replace (cs1 : List (Bytes × Bytes)) (c c' : Bytes × Bytes)
    (cs2 : List (Bytes × Bytes)) :
    iendTerminated (cs1 ++ c :: cs2) = true → c.1 ≠ iendType → c'.1 ≠ iendType →
    iendTerminated (cs1 ++ c' :: cs2) = true := by
  induction cs1 with
  | nil =>
    intro h hc hc'
    rw [List.nil_append] at h ⊢
    cases cs2 with
    | nil =>
      rw [iendTerminated_single] at h
      simp [hc] at h
    | cons b bs =>
      rw [iendTerminated_cons_of_ne c (b :: bs) (by simp)] at h
      rw [iendTerminated_cons_of_ne c' (b :: bs) (by simp)]
      simp only [Bool.and_eq_true] at h ⊢
      exact ⟨by simp [hc'], h.2⟩
  | cons x xs ih =>
    intro h hc hc'
    rw [List.cons_append, iendTerminated_cons_of_ne x (xs ++ c :: cs2) (by simp)] at h
    rw [List.cons_append, iendTerminated_cons_of_ne x (xs ++ c' :: cs2) (by simp)]
    simp only [Bool.and_eq_true] at h ⊢
    exact ⟨h.1, ih h.2 hc hc'⟩

theorem iendTerminated_last (cs : List (Bytes × Bytes)) :
    iendTerminated cs = true → ∃ front p, cs = front ++ [(iendType, p)] := by
  induction cs with
  | nil => intro h; simp [iendTerminated] at h
  | cons c cs ih =>
    intro h
    cases cs with
    | nil =>
      rw [iendTerminated_single] at h
      simp only [decide_eq_true_eq] at h
      refine ⟨[], c.2, ?_⟩
      rw [List.nil_append]
      have hc : c = (iendType, c.2) := by
        rw [← h]
      rw [← hc]
    | cons b bs =>
      rw [iendTerminated_cons_of_ne c (b :: bs) (by simp)] at h
      simp only [Bool.and_eq_true] at h
      obtain ⟨front, p, hfp⟩ := ih h.2
      exact ⟨c :: front, p, by rw [List.cons_append, ← hfp]⟩
theorem structuredSplice_replace_decomp :
    ∀ (cs : List (Bytes × Bytes)) (i s e : Nat),
      (∀ c ∈ cs, wfChunk c = true) →
      structuredSplice i cs = some (.replaceSpan s e) →
      ∃ cs1 c cs2, cs = cs1 ++ c :: cs2 ∧ chunkIsXmpItxt c = true ∧
        (∀ c' ∈ cs1, chunkIsXmpItxt c' = false ∧ c'.1 ≠ iendType) ∧
        s = i + (renderChunks cs1).length ∧ e = s + (renderChunk c).length := by
  intro cs
  induction cs with
  | nil => intro i s e hw h; simp [structuredSplice] at h
  | cons c cs ih =>
    intro i s e hw h
    rw [structuredSplice] at h
    by_cases hx : chunkIsXmpItxt c = true
    · rw [if_pos hx] at h
      simp only [Option.some.injEq, SpliceAction.replaceSpan.injEq] at h
      refine ⟨[], c, cs, rfl, hx, by simp, ?_, ?_⟩
      · simp [renderChunks, ← h.1]
      · have h4 : c.1.length = 4 := wfChunk_type_length c (hw c (by simp))
        rw [renderChunk_length c h4, ← h.1, ← h.2]
        omega
    · rw [if_neg hx] at h
      by_cases hie : c.1 = iendType
      · rw [if_pos hie] at h
        simp at h
      · rw [if_neg hie] at h
        obtain ⟨cs1, c', cs2, hcs, hx', hall, hs, he⟩ :=
          ih (i + 12 + c.2.length) s e (fun c' hc' => hw c' (by simp [hc'])) h
        refine ⟨c :: cs1, c', cs2, by rw [hcs]; simp, hx', ?_, ?_, he⟩
        · intro c' hc'
          rcases List.mem_cons.mp hc' with h1 | h1
          · rw [h1]
            exact ⟨by simpa using hx, hie⟩
          · exact hall c' h1
        · have h4 : c.1.length = 4 := wfChunk_type_length c (hw c (by simp))
          rw [hs, renderChunks_cons]
          simp only [List.length_append, renderChunk_length c h4]
          omega

theorem structuredSplice_insert_decomp :
    ∀ (cs : List (Bytes × Bytes)) (i s : Nat),
      (∀ c ∈ cs, wfChunk c = true) →
      structuredSplice i cs = some (.insertAt s) →
      ∃ cs1 c cs2, cs = cs1 ++ c :: cs2 ∧ c.1 = iendType ∧
        (∀ c' ∈ cs1, chunkIsXmpItxt c' = false ∧ c'.1 ≠ iendType) ∧
        s = i + (renderChunks cs1).length := by
  intro cs
  induction cs with
  | nil => intro i s hw h; simp [structuredSplice] at h
  | cons c cs ih =>
    intro i s hw h
    rw [structuredSplice] at h
    by_cases hx : chunkIsXmpItxt c = true
    · rw [if_pos hx] at h
      simp at h
    · rw [if_neg hx] at h
      by_cases hie : c.1 = iendType
      · rw [if_pos hie] at h
        simp only [Option.some.injEq, SpliceAction.insertAt.injEq] at h
        exact ⟨[], c, cs, rfl, hie, by simp, by simp [renderChunks, ← h]⟩
      · rw [if_neg hie] at h
        obtain ⟨cs1, c', cs2, hcs, hie', hall, hs⟩ :=
          ih (i + 12 + c.2.length) s (fun c' hc' => hw c' (by simp [hc'])) h
        refine ⟨c :: cs1, c', cs2, by rw [hcs]; simp, hie', ?_, ?_⟩
        · intro c' hc'
          rcases List.mem_cons.mp hc' with h1 | h1
          · rw [h1]
            exact ⟨by simpa using hx, hie⟩
          · exact hall c' h1
        · have h4 : c.1.length = 4 := wfChunk_type_length c (hw c (by simp))
          rw [hs, renderChunks_cons]
          simp only [List.length_append, renderChunk_length c h4]
          omega

theorem structuredSplice_none :
    ∀ (cs : List (Bytes × Bytes)) (i : Nat),
      structuredSplice i cs = none →
      ∀ c ∈ cs, chunkIsXmpItxt c = false ∧ c.1 ≠ iendType := by
  intro cs
  induction cs with
  | nil => intro i h c hc; simp at hc
  | cons c cs ih =>
    intro i h c' hc'
    rw [structuredSplice] at h
    by_cases hx : chunkIsXmpItxt c = true
    · rw [if_pos hx] at h; simp at h
    · rw [if_neg hx] at h
      by_cases hie : c.1 = iendType
      · rw [if_pos hie] at h; simp at h
      · rw [if_neg hie] at h
        rcases List.mem_cons.mp hc' with h1 | h1
        · rw [h1]; exact ⟨by simpa using hx, hie⟩
        · exact ih _ h c' h1
theorem extractGo_descs :
    ∀ (cs : List (Bytes × Bytes)) (pre post : Bytes),
      (∀ c ∈ cs, wfChunk c = true) → iendTerminated cs = true →
      extractPngItxtXmpPacketGo (pre ++ (renderChunks cs ++ post)) (descsFrom pre.length cs)
        = structuredExtract cs := by
  intro cs
  induction cs with
  | nil => intro pre post hw ht; simp [iendTerminated] at ht
  | cons c cs ih =>
    intro pre post hw ht
    have hc := hw c (by simp)
    have h4 : c.1.length = 4 := wfChunk_type_length c hc
    have hshape : pre ++ (renderChunks (c :: cs) ++ post)
        = pre ++ renderChunk c ++ (renderChunks cs ++ post) := by
      rw [renderChunks_cons]
      simp [List.append_assoc]
    have hpay : pySlice (pre ++ (renderChunks (c :: cs) ++ post))
        (pre.length + 8) (pre.length + 8 + c.2.length) = c.2 := by
      rw [hshape]
      exact pySlice_payload pre (renderChunks cs ++ post) c h4
    rw [descsFrom, extractPngItxtXmpPacketGo, structuredExtract]
    by_cases hie : c.1 = iendType
    · have hcs : cs = [] := by
        by_contra hne
        rw [iendTerminated_cons_of_ne c cs hne] at ht
        simp [hie] at ht
      subst hcs
      have hni : (c.1 ≠ itxtType) := by
        rw [hie]
        decide
      rw [if_pos hie]
      rw [if_pos hni, if_pos hni]
      rfl
    · have hrest : iendTerminated cs = true := by
        cases cs with
        | nil =>
          rw [iendTerminated_single] at ht
          simp only [decide_eq_true_eq] at ht
          exact absurd ht hie
        | cons b bs =>
          rw [iendTerminated_cons_of_ne c (b :: bs) (by simp)] at ht
          simp only [Bool.and_eq_true] at ht
          exact ht.2
      rw [if_neg hie]
      have hrec : extractPngItxtXmpPacketGo (pre ++ (renderChunks (c :: cs) ++ post))
          (descsFrom (pre.length + 12 + c.2.length) cs) = structuredExtract cs := by
        have hplen : (pre ++ renderChunk c).length = pre.length + 12 + c.2.length := by
          simp only [List.length_append, renderChunk_length c h4]
          omega
        have h0 := ih (pre ++ renderChunk c) post (fun c' hc' => hw c' (by simp [hc'])) hrest
        rw [hplen] at h0
        rw [hshape]
        rw [List.append_assoc] at h0 ⊢
        exact h0
      by_cases hit : c.1 = itxtType
      · have : ¬ (c.1 ≠ itxtType) := by simpa using hit
        rw [if_neg (by simpa using this), if_neg (by simpa using this)]
        rw [show (⟨c.1, pre.length + 8, pre.length + 8 + c.2.length, pre.length,
            pre.length + 12 + c.2.length⟩ : ChunkDesc).ds = pre.length + 8 from rfl]
        rw [show (⟨c.1, pre.length + 8, pre.length + 8 + c.2.length, pre.length,
            pre.length + 12 + c.2.length⟩ : ChunkDesc).de = pre.length + 8 + c.2.length from rfl]
        rw [hpay]
        cases hep : extractFromPayload c.2 with
        | some p => rfl
        | none => exact hrec
      · rw [if_pos (by simpa using hit), if_pos (by simpa using hit)]
        exact hrec
theorem iterPngChunks_render (cs : List (Bytes × Bytes))
    (hw : ∀ c ∈ cs, wfChunk c = true) :
    iterPngChunks (pngSig ++ renderChunks cs) = descsFrom 8 cs := by
  rw [iterPngChunks, if_pos (listStarts_append _ _)]
  have hf : cs.length ≤ (pngSig ++ renderChunks cs).length := by
    have := length_le_renderChunks cs hw
    simp only [List.length_append]
    omega
  have h0 := iterFrom_render cs ((pngSig ++ renderChunks cs).length) pngSig hw hf
  rw [show (pngSig : Bytes).length = 8 from rfl] at h0
  exact h0

theorem findSplice_render (cs : List (Bytes × Bytes))
    (hw : ∀ c ∈ cs, wfChunk c = true) :
    findSplice (pngSig ++ renderChunks cs) = structuredSplice 8 cs := by
  rw [findSplice, iterPngChunks_render cs hw]
  have h0 := findSpliceGo_descs cs pngSig [] hw
  rw [List.append_nil] at h0
  rw [show (pngSig : Bytes).length = 8 from rfl] at h0
  exact h0

theorem extract_render (cs : List (Bytes × Bytes))
    (hw : ∀ c ∈ cs, wfChunk c = true) (ht : iendTerminated cs = true) :
    extractPngItxtXmpPacket (pngSig ++ renderChunks cs) = structuredExtract cs := by
  rw [extractPngItxtXmpPacket, iterPngChunks_render cs hw]
  have h0 := extractGo_descs cs pngSig [] hw ht
  rw [List.append_nil] at h0
  rw [show (pngSig : Bytes).length = 8 from rfl] at h0
  exact h0
/-- C3: embedding into a well-formed PNG (signature, well-formed chunks
ending in IEND) yields a buffer that still starts with the signature, is
again a signature followed by well-formed rendered chunks ending in a
valid IEND chunk, contains the new iTXt chunk (whose rendering carries
the CRC32 of type and payload), and whose scanner descriptors tile it
exactly, each declared length matching its payload span. -/
theorem C3_chunk_integrity (cs : List (Bytes × Bytes)) (tool processedDate : Str) (out : Bytes)
    (hwf : ∀ c ∈ cs, wfChunk c = true)
    (hterm : iendTerminated cs = true)
    (hemb : embedBuffer (pngSig ++ renderChunks cs) tool processedDate = some out) :
    listStarts pngSig out = true ∧
    ∃ cs', out = pngSig ++ renderChunks cs' ∧
      (∀ c ∈ cs', wfChunk c = true) ∧
      iendTerminated cs' = true ∧
      (itxtType, itxtXmpPayload (makeUpdatedXmpPacket
         (extractPngItxtXmpPacket (pngSig ++ renderChunks cs)) tool processedDate)) ∈ cs' ∧
      iterPngChunks out = descsFrom 8 cs' ∧
      chainedFrom out 8 (iterPngChunks out) = true ∧
      (∃ front p, out = front ++ renderChunk (iendType, p)) := by
  rw [embedBuffer] at hemb
  rw [if_neg (by simp [listStarts_append])] at hemb
  dsimp only at hemb
  rw [findSplice_render cs hwf] at hemb
  split at hemb
  · exact absurd hemb (by simp)
  · rename_i hsmall
    split at hemb
    · -- replace case
      rename_i s e hsp
      simp only [Option.some.injEq] at hemb
      obtain ⟨cs1, c, cs2, hcs, hx, hclean, hs, he⟩ :=
        structuredSplice_replace_decomp cs 8 s e hwf hsp
      have hcit : c.1 = itxtType := by
        simp only [chunkIsXmpItxt, Bool.and_eq_true, decide_eq_true_eq] at hx
        exact hx.1
      have h4 : c.1.length = 4 := wfChunk_type_length c (hwf c (by rw [hcs]; simp))
      have hdata : pngSig ++ renderChunks cs
          = (pngSig ++ renderChunks cs1) ++ (renderChunk c ++ renderChunks cs2) := by
        rw [hcs, renderChunks_append, renderChunks_cons]
        simp [List.append_assoc]
      have hslen : s = (pngSig ++ renderChunks cs1).length := by
        simp only [List.length_append, hs]
        rfl
      have htake : (pngSig ++ renderChunks cs).take s = pngSig ++ renderChunks cs1 := by
        rw [hdata, hslen]
        exact List.take_left _ _
      have helen : e = ((pngSig ++ renderChunks cs1) ++ renderChunk c).length := by
        simp only [List.length_append, he, hs]
        rw [show (pngSig : Bytes).length = 8 from rfl]
      have hdrop : (pngSig ++ renderChunks cs).drop e = renderChunks cs2 := by
        rw [hdata, helen, ← List.append_assoc]
        exact List.drop_left _ _
      rw [htake, hdrop] at hemb
      have hout : out = pngSig ++ renderChunks (cs1 ++ (itxtType, itxtXmpPayload (makeUpdatedXmpPacket (extractPngItxtXmpPacket (pngSig ++ renderChunks cs)) tool processedDate)) :: cs2) := by
        rw [← hemb, renderChunks_append, renderChunks_cons]
        simp only [buildPngItxtXmpChunk, List.append_assoc]
        rfl
      have hwfnew : wfChunk (itxtType, itxtXmpPayload (makeUpdatedXmpPacket (extractPngItxtXmpPacket (pngSig ++ renderChunks cs)) tool processedDate)) = true := by
        simp only [wfChunk, Bool.and_eq_true, decide_eq_true_eq]
        constructor
        · rfl
        · omega
      have hwf' : ∀ c' ∈ cs1 ++ (itxtType, itxtXmpPayload (makeUpdatedXmpPacket (extractPngItxtXmpPacket (pngSig ++ renderChunks cs)) tool processedDate)) :: cs2, wfChunk c' = true := by
        intro c' hc'
        rcases List.mem_append.mp hc' with h1 | h1
        · exact hwf c' (by rw [hcs]; simp [h1])
        · rcases List.mem_cons.mp h1 with h2 | h2
          · rw [h2]; exact hwfnew
          · exact hwf c' (by rw [hcs]; simp [h2])
      have hterm' : iendTerminated (cs1 ++ (itxtType, itxtXmpPayload (makeUpdatedXmpPacket (extractPngItxtXmpPacket (pngSig ++ renderChunks cs)) tool processedDate)) :: cs2) = true := by
        refine iendTerminated_replace cs1 c _ cs2 (by rw [← hcs]; exact hterm) ?_
          (show (itxtType : Bytes) ≠ iendType from by decide)
        rw [hcit]
        decide
      refine ⟨by rw [hout]; exact listStarts_append _ _, _, hout, hwf', hterm', by simp, ?_, ?_, ?_⟩
      · rw [hout]; exact iterPngChunks_render _ hwf'
      · rw [iterPngChunks]
        split
        · exact iterFrom_chained out out.length 8
        · simp [chainedFrom]
      · obtain ⟨front, p, hfp⟩ := iendTerminated_last _ hterm'
        refine ⟨pngSig ++ renderChunks front, p, ?_⟩
        rw [hout, hfp, renderChunks_append]
        simp [renderChunks, List.append_assoc]
    · -- insert case
      rename_i ipos hsp
      simp only [Option.some.injEq] at hemb
      obtain ⟨cs1, c, cs2, hcs, hie, hclean, hs⟩ :=
        structuredSplice_insert_decomp cs 8 ipos hwf hsp
      have hcs2 : cs2 = [] := iendTerminated_mid cs1 c cs2 (by rw [← hcs]; exact hterm) hie
      subst hcs2
      have h4 : c.1.length = 4 := wfChunk_type_length c (hwf c (by rw [hcs]; simp))
      have hdata : pngSig ++ renderChunks cs
          = (pngSig ++ renderChunks cs1) ++ renderChunk c := by
        rw [hcs, renderChunks_append, renderChunks_cons, renderChunks_nil]
        simp [List.append_assoc]
      have hslen : ipos = (pngSig ++ renderChunks cs1).length := by
        simp only [List.length_append, hs]
        rfl
      have htake : (pngSig ++ renderChunks cs).take ipos = pngSig ++ renderChunks cs1 := by
        rw [hdata, hslen]
        exact List.take_left _ _
      have hdrop : (pngSig ++ renderChunks cs).drop ipos = renderChunk c := by
        rw [hdata, hslen]
        exact List.drop_left _ _
      rw [htake, hdrop] at hemb
      have hout : out = pngSig ++ renderChunks (cs1 ++ (itxtType, itxtXmpPayload (makeUpdatedXmpPacket (extractPngItxtXmpPacket (pngSig ++ renderChunks cs)) tool processedDate)) :: [c]) := by
        rw [← hemb, renderChunks_append, renderChunks_cons, renderChunks_cons, renderChunks_nil]
        simp only [buildPngItxtXmpChunk, List.append_assoc, List.append_nil]
        rfl
      have hwfnew : wfChunk (itxtType, itxtXmpPayload (makeUpdatedXmpPacket (extractPngItxtXmpPacket (pngSig ++ renderChunks cs)) tool processedDate)) = true := by
        simp only [wfChunk, Bool.and_eq_true, decide_eq_true_eq]
        constructor
        · rfl
        · omega
      have hwf' : ∀ c' ∈ cs1 ++ (itxtType, itxtXmpPayload (makeUpdatedXmpPacket (extractPngItxtXmpPacket (pngSig ++ renderChunks cs)) tool processedDate)) :: [c], wfChunk c' = true := by
        intro c' hc'
        rcases List.mem_append.mp hc' with h1 | h1
        · exact hwf c' (by rw [hcs]; simp [h1])
        · rcases List.mem_cons.mp h1 with h2 | h2
          · rw [h2]; exact hwfnew
          · simp only [List.mem_singleton] at h2
            exact hwf c' (by rw [hcs]; simp [h2])
      have hterm' : iendTerminated (cs1 ++ (itxtType, itxtXmpPayload (makeUpdatedXmpPacket (extractPngItxtXmpPacket (pngSig ++ renderChunks cs)) tool processedDate)) :: [c]) = true := by
        exact iendTerminated_insert cs1 _ [c] (by rw [← hcs]; exact hterm) (by simp)
          (show (itxtType : Bytes) ≠ iendType from by decide)
      refine ⟨by rw [hout]; exact listStarts_append _ _, _, hout, hwf', hterm', by simp, ?_, ?_, ?_⟩
      · rw [hout]; exact iterPngChunks_render _ hwf'
      · rw [iterPngChunks]
        split
        · exact iterFrom_chained out out.length 8
        · simp [chainedFrom]
      · obtain ⟨front, p, hfp⟩ := iendTerminated_last _ hterm'
        refine ⟨pngSig ++ renderChunks front, p, ?_⟩
        rw [hout, hfp, renderChunks_append]
        simp [renderChunks, List.append_assoc]
    · exact absurd hemb (by simp)

theorem C3_chunk_integrity_witness :
    listStarts pngSig
      ((embedBuffer (pngSig ++ renderChunks [(iendType, [])]) [] []).getD []) = true := by
  have hs : (embedBuffer (pngSig ++ renderChunks [(iendType, [])]) [] []).isSome = true := by
    decide
  have hemb : embedBuffer (pngSig ++ renderChunks [(iendType, [])]) [] []
      = some ((embedBuffer (pngSig ++ renderChunks [(iendType, [])]) [] []).getD []) := by
    cases h : embedBuffer (pngSig ++ renderChunks [(iendType, [])]) [] [] with
    | none => rw [h] at hs; cases hs
    | some v => rfl
  exact (C3_chunk_integrity [(iendType, [])] [] []
    ((embedBuffer (pngSig ++ renderChunks [(iendType, [])]) [] []).getD [])
    (by decide) (by decide) hemb).1

/-! ## Helper lemmas: the first matching chunk -/

theorem iendTerminated_early (xs ys : List (Bytes × Bytes)) (hys : ys ≠ []) :
    iendTerminated (xs ++ ys) = true → ∀ x ∈ xs, x.1 ≠ iendType := by
  induction xs with
  | nil => intro _ x hx; cases hx
  | cons a as ih =>
    intro h x hx
    have hne : as ++ ys ≠ [] := by
      cases ys with
      | nil => exact absurd rfl hys
      | cons b bs => simp
    rw [List.cons_append, iendTerminated_cons_of_ne a (as ++ ys) hne] at h
    simp only [Bool.and_eq_true, decide_eq_true_eq] at h
    rcases List.mem_cons.mp hx with h1 | h1
    · rw [h1]; exact h.1
    · exact ih h.2 x h1

theorem structuredSplice_first (cs1 : List (Bytes × Bytes)) (c : Bytes × Bytes)
    (cs2 : List (Bytes × Bytes)) :
    ∀ i : Nat, (∀ c' ∈ cs1, wfChunk c' = true) →
    (∀ c' ∈ cs1, chunkIsXmpItxt c' = false ∧ c'.1 ≠ iendType) →
    chunkIsXmpItxt c = true →
    structuredSplice i (cs1 ++ c :: cs2)
      = some (.replaceSpan (i + (renderChunks cs1).length)
          (i + (renderChunks cs1).length + 12 + c.2.length)) := by
  induction cs1 with
  | nil =>
    intro i _ _ hmatch
    rw [List.nil_append, structuredSplice, if_pos hmatch]
    simp [renderChunks_nil]
  | cons a as ih =>
    intro i hwf hclean hmatch
    have ha := hclean a (by simp)
    rw [List.cons_append, structuredSplice,
        if_neg (by simp [ha.1]), if_neg ha.2,
        ih (i + 12 + a.2.length) (fun c' hc' => hwf c' (by simp [hc']))
          (fun c' hc' => hclean c' (by simp [hc'])) hmatch]
    have h4 : a.1.length = 4 := wfChunk_type_length a (hwf a (by simp))
    rw [renderChunks_cons, List.length_append, renderChunk_length a h4]
    congr 2 <;> omega

/-- C4 counterexample: the first keyword-matching iTXt chunk (whose
fields after the keyword are missing, so nothing can be extracted from
it) is the one whose span the scan selects for replacement, yet the
packet extraction comes from a later structurally complete XMP chunk —
so the updated packet is computed neither from the found chunk's bytes
nor from `none`. -/
theorem C4_found_chunk_counterexample :
    findSplice (pngSig ++ renderChunks
        [(itxtType, xmpItxtKeyword ++ [0]),
         (itxtType, itxtXmpPayload (makeUpdatedXmpPacket none "Z".toList "z".toList)),
         (iendType, [])]) = some (.replaceSpan 8 38) ∧
    extractFromPayload (xmpItxtKeyword ++ [0]) = none ∧
    extractPngItxtXmpPacket (pngSig ++ renderChunks
        [(itxtType, xmpItxtKeyword ++ [0]),
         (itxtType, itxtXmpPayload (makeUpdatedXmpPacket none "Z".toList "z".toList)),
         (iendType, [])])
      = some (makeUpdatedXmpPacket none "Z".toList "z".toList) ∧
    makeUpdatedXmpPacket (some (makeUpdatedXmpPacket none "Z".toList "z".toList))
        "B".toList "b".toList
      ≠ makeUpdatedXmpPacket none "B".toList "b".toList :=
  ⟨by decide, by decide, by decide, by decide⟩

/-- C4 amended: when the chunk list holds a first XMP-keyword iTXt
match `c` (no earlier chunk matches the keyword test), a successful
embed replaces exactly that chunk's byte span with the new iTXt chunk;
the packet composed into the new chunk is fed from the first
structurally complete XMP iTXt chunk of the whole buffer
(`structuredExtract`), which need not be the replaced chunk. -/
theorem C4_replace_first_match (cs1 : List (Bytes × Bytes)) (c : Bytes × Bytes)
    (cs2 : List (Bytes × Bytes)) (tool processedDate : Str)
    (hwf : ∀ c' ∈ cs1 ++ c :: cs2, wfChunk c' = true)
    (hterm : iendTerminated (cs1 ++ c :: cs2) = true)
    (hclean : ∀ c' ∈ cs1, chunkIsXmpItxt c' = false)
    (hmatch : chunkIsXmpItxt c = true)
    (hsize : (itxtXmpPayload (makeUpdatedXmpPacket
        (structuredExtract (cs1 ++ c :: cs2)) tool processedDate)).length
        < 0x100000000) :
    embedBuffer (pngSig ++ renderChunks (cs1 ++ c :: cs2)) tool processedDate
      = some (pngSig ++ renderChunks cs1
          ++ buildPngItxtXmpChunk (makeUpdatedXmpPacket
               (structuredExtract (cs1 ++ c :: cs2)) tool processedDate)
          ++ renderChunks cs2) := by
  have hclean2 : ∀ c' ∈ cs1, chunkIsXmpItxt c' = false ∧ c'.1 ≠ iendType :=
    fun c' hc' =>
      ⟨hclean c' hc', iendTerminated_early cs1 (c :: cs2) (by simp) hterm c' hc'⟩
  rw [embedBuffer]
  rw [if_neg (by simp [listStarts_append])]
  dsimp only
  rw [extract_render _ hwf hterm]
  rw [if_neg (by omega)]
  rw [findSplice_render _ hwf]
  rw [structuredSplice_first cs1 c cs2 8
      (fun c' hc' => hwf c' (List.mem_append_left _ hc')) hclean2 hmatch]
  dsimp only
  have h4 : c.1.length = 4 := wfChunk_type_length c (hwf c (by simp))
  have hdata : pngSig ++ renderChunks (cs1 ++ c :: cs2)
      = (pngSig ++ renderChunks cs1) ++ (renderChunk c ++ renderChunks cs2) := by
    rw [renderChunks_append, renderChunks_cons]
    simp [List.append_assoc]
  have hslen : 8 + (renderChunks cs1).length = (pngSig ++ renderChunks cs1).length := by
    rw [List.length_append, show (pngSig : Bytes).length = 8 from rfl]
  have htake : (pngSig ++ renderChunks (cs1 ++ c :: cs2)).take
      (8 + (renderChunks cs1).length) = pngSig ++ renderChunks cs1 := by
    rw [hdata, hslen]
    exact List.take_left _ _
  have helen : 8 + (renderChunks cs1).length + 12 + c.2.length
      = ((pngSig ++ renderChunks cs1) ++ renderChunk c).length := by
    rw [List.length_append, List.length_append, renderChunk_length c h4,
        show (pngSig : Bytes).length = 8 from rfl]
    omega
  have hdrop : (pngSig ++ renderChunks (cs1 ++ c :: cs2)).drop
      (8 + (renderChunks cs1).length + 12 + c.2.length) = renderChunks cs2 := by
    rw [hdata, helen, ← List.append_assoc]
    exact List.drop_left _ _
  rw [htake, hdrop]

/-- C4 amended witness: a buffer whose only keyword match is an
incomplete XMP iTXt chunk followed by IEND. -/
theorem C4_replace_first_match_witness :
    embedBuffer (pngSig ++ renderChunks
        ([] ++ (itxtType, xmpItxtKeyword ++ [0]) :: [(iendType, [])])) [] []
      = some (pngSig ++ renderChunks []
          ++ buildPngItxtXmpChunk (makeUpdatedXmpPacket
               (structuredExtract
                 ([] ++ (itxtType, xmpItxtKeyword ++ [0]) :: [(iendType, [])])) [] [])
          ++ renderChunks [(iendType, [])]) :=
  C4_replace_first_match [] (itxtType, xmpItxtKeyword ++ [0]) [(iendType, [])] [] []
    (by decide) (by decide) (by simp) (by decide) (by decide)

/-! ## Round trip, step 1: serializer decomposition and token lemmas -/

mutual

theorem serElemCore_eq : ∀ (phi : List (Str × Str)) (extra : Str) (e : XElem),
    serElemCore phi extra e = serCore phi extra e ++ tailEsc e
  | phi, extra, .mk t a tx tl cs => by
    rw [serElemCore, serCore]
    rw [serElemList_eq phi cs]
    rw [show tailEsc (.mk t a tx tl cs)
        = (if optTruthy tl then escCdata (optOrEmpty tl) else []) from rfl]
    rw [show rawAttrText (a.map (fun kv => (serTag phi kv.1, kv.2)))
        = (a.map (fun kv =>
            ' ' :: (serTag phi kv.1 ++ '=' :: '"' :: (escAttrib kv.2 ++ ['"'])))).flatten from by
      simp only [rawAttrText, List.map_map]
      rfl]
    split <;> simp [List.append_assoc]

theorem serElemList_eq : ∀ (phi : List (Str × Str)) (cs : List XElem),
    serElemList phi cs = serList phi cs
  | _, [] => rfl
  | phi, c :: cs => by
    rw [serElemList, serList, serElemCore_eq phi [] c, serElemList_eq phi cs, List.append_assoc]

end

theorem char_toNat_valid (c : Char) : c.toNat.isValidChar := c.valid

theorem charOfNatAux_toNat (c : Char) (h : c.toNat.isValidChar) :
    Char.ofNatAux c.toNat h = c := by
  have h2 := Char.ofNat_toNat c
  rw [Char.ofNat, dif_pos h] at h2
  exact h2

theorem bytesToStr_strToBytes (s : Str) : bytesToStr (strToBytes s) = s := by
  induction s with
  | nil => rfl
  | cons c cs ih =>
    simp only [strToBytes, bytesToStr, List.map_cons, List.map_map] at *
    rw [dif_pos (char_toNat_valid c), charOfNatAux_toNat, ih]

theorem escCdata_len (s : Str) : s.length ≤ (escCdata s).length := by
  induction s with
  | nil => simp [escCdata]
  | cons c cs ih =>
    rw [escCdata]
    split
    · simp; omega
    · split
      · simp; omega
      · split
        · simp; omega
        · simp; omega

theorem escAttrib_len (s : Str) : s.length ≤ (escAttrib s).length := by
  induction s with
  | nil => simp [escAttrib]
  | cons c cs ih =>
    rw [escAttrib]
    split
    · simp; omega
    · split
      · simp; omega
      · split
        · simp; omega
        · split
          · simp; omega
          · split
            · simp; omega
            · split
              · simp; omega
              · split
                · simp; omega
                · simp; omega

theorem skipXmlWs_cons_not (c : Char) (r : Str) (h : isXmlWs c = false) :
    skipXmlWs (c :: r) = c :: r := by
  rw [skipXmlWs, h]
  rfl

theorem pName_token (nm : Str) (c : Char) (r : Str)
    (h : nm.all nameChar = true) (hc : nameChar c = false) :
    pName (nm ++ c :: r) = (nm, c :: r) := by
  induction nm with
  | nil =>
    rw [List.nil_append, pName, hc]
    rfl
  | cons a as ih =>
    simp only [List.all_cons, Bool.and_eq_true] at h
    rw [List.cons_append, pName, if_pos h.1, ih h.2]

theorem pEntityName_token (nm : Str) (r : Str) (h : nm.all (fun c => c ≠ ';') = true) :
    pEntityName (nm ++ ';' :: r) = some (nm, r) := by
  induction nm with
  | nil =>
    rw [List.nil_append, pEntityName, if_pos rfl]
  | cons a as ih =>
    simp only [List.all_cons, Bool.and_eq_true, decide_eq_true_eq] at h
    rw [List.cons_append, pEntityName, if_neg h.1, ih h.2]

theorem decodeEntityName_amp : decodeEntityName "amp".toList = some '&' := by decide

theorem decodeEntityName_lt : decodeEntityName "lt".toList = some '<' := by decide

theorem decodeEntityName_gt : decodeEntityName "gt".toList = some '>' := by decide

theorem decodeEntityName_quot : decodeEntityName "quot".toList = some '"' := by decide

theorem decodeEntityName_cr : decodeEntityName "#13".toList = some '\r' := by decide

theorem decodeEntityName_lf : decodeEntityName "#10".toList = some '\n' := by decide

theorem decodeEntityName_tab : decodeEntityName "#09".toList = some '\t' := by decide

theorem pTextF_entity_step (f : Nat) (nm : Str) (ch : Char) (rest : Str)
    (hnm : nm.all (fun c => c ≠ ';') = true)
    (hdec : decodeEntityName nm = some ch) :
    pTextF (f + 1) ('&' :: (nm ++ ';' :: rest))
      = match pTextF f rest with
        | none => none
        | some (t, r2) => some (ch :: t, r2) := by
  rw [pTextF, if_neg (by decide), if_pos rfl, pEntityName_token nm rest hnm]
  dsimp only
  rw [hdec]

theorem pTextF_escCdata : ∀ (s : Str) (fuel : Nat) (r0 : Str),
    cleanText s = true → s.length + 1 ≤ fuel →
    pTextF fuel (escCdata s ++ '<' :: r0) = some (s, '<' :: r0)
  | s, 0, _ => by intro _ h; omega
  | [], f + 1, r0 => by
    intro _ _
    rw [escCdata, List.nil_append, pTextF, if_pos rfl]
  | c :: cs, f + 1, r0 => by
    intro hclean hfuel
    simp only [cleanText, List.all_cons, Bool.and_eq_true] at hclean
    have hcs : cleanText cs = true := hclean.2
    have hrec := pTextF_escCdata cs f r0 hcs (by simp at hfuel ⊢; omega)
    rw [escCdata]
    by_cases h1 : c = '&'
    · rw [if_pos h1]
      subst h1
      show pTextF (f + 1) ('&' :: ("amp".toList ++ ';' :: (escCdata cs ++ '<' :: r0))) = _
      rw [pTextF_entity_step f "amp".toList '&' _ (by decide) decodeEntityName_amp, hrec]
    · rw [if_neg h1]
      by_cases h2 : c = '<'
      · rw [if_pos h2]
        subst h2
        show pTextF (f + 1) ('&' :: ("lt".toList ++ ';' :: (escCdata cs ++ '<' :: r0))) = _
        rw [pTextF_entity_step f "lt".toList '<' _ (by decide) decodeEntityName_lt, hrec]
      · rw [if_neg h2]
        by_cases h3 : c = '>'
        · rw [if_pos h3]
          subst h3
          show pTextF (f + 1) ('&' :: ("gt".toList ++ ';' :: (escCdata cs ++ '<' :: r0))) = _
          rw [pTextF_entity_step f "gt".toList '>' _ (by decide) decodeEntityName_gt, hrec]
        · rw [if_neg h3]
          have hclean1 : c.toNat ≥ 32 ∨ c = '\t' ∨ c = '\n' := by
            have h := hclean.1
            simp only [Bool.or_eq_true, decide_eq_true_eq] at h
            tauto
          have hcr : c ≠ '\r' := by
            intro he
            subst he
            rcases hclean1 with h | h | h
            · exact absurd h (by decide)
            · exact absurd h (by decide)
            · exact absurd h (by decide)
          rw [List.cons_append, pTextF, if_neg h2, if_neg h1, if_neg hcr,
              if_neg (by
                intro hx
                simp only [Bool.and_eq_true, decide_eq_true_eq] at hx
                rcases hclean1 with h | h | h
                · have := hx.1.1
                  omega
                · exact absurd h hx.1.2
                · exact absurd h hx.2),
              hrec]

theorem pAttrValueF_entity_step (f : Nat) (nm : Str) (ch : Char) (rest : Str)
    (hnm : nm.all (fun c => c ≠ ';') = true)
    (hdec : decodeEntityName nm = some ch) :
    pAttrValueF '"' (f + 1) ('&' :: (nm ++ ';' :: rest))
      = match pAttrValueF '"' f rest with
        | none => none
        | some (t, r2) => some (ch :: t, r2) := by
  rw [pAttrValueF, if_neg (by decide), if_neg (by decide), if_pos rfl,
      pEntityName_token nm rest hnm]
  dsimp only
  rw [hdec]

theorem pAttrValueF_escAttrib : ∀ (s : Str) (fuel : Nat) (r0 : Str),
    cleanAttrV s = true → s.length + 1 ≤ fuel →
    pAttrValueF '"' fuel (escAttrib s ++ '"' :: r0) = some (s, r0)
  | _, 0, _ => by intro _ h; omega
  | [], f + 1, r0 => by
    intro _ _
    rw [escAttrib, List.nil_append, pAttrValueF, if_pos rfl]
  | c :: cs, f + 1, r0 => by
    intro hclean hfuel
    simp only [cleanAttrV, List.all_cons, Bool.and_eq_true] at hclean
    have hcs : cleanAttrV cs = true := hclean.2
    have hrec := pAttrValueF_escAttrib cs f r0 hcs (by simp at hfuel ⊢; omega)
    rw [escAttrib]
    by_cases h1 : c = '&'
    · rw [if_pos h1]
      subst h1
      show pAttrValueF '"' (f + 1) ('&' :: ("amp".toList ++ ';' :: (escAttrib cs ++ '"' :: r0))) = _
      rw [pAttrValueF_entity_step f "amp".toList '&' _ (by decide) decodeEntityName_amp, hrec]
    · rw [if_neg h1]
      by_cases h2 : c = '<'
      · rw [if_pos h2]
        subst h2
        show pAttrValueF '"' (f + 1) ('&' :: ("lt".toList ++ ';' :: (escAttrib cs ++ '"' :: r0))) = _
        rw [pAttrValueF_entity_step f "lt".toList '<' _ (by decide) decodeEntityName_lt, hrec]
      · rw [if_neg h2]
        by_cases h3 : c = '>'
        · rw [if_pos h3]
          subst h3
          show pAttrValueF '"' (f + 1) ('&' :: ("gt".toList ++ ';' :: (escAttrib cs ++ '"' :: r0))) = _
          rw [pAttrValueF_entity_step f "gt".toList '>' _ (by decide) decodeEntityName_gt, hrec]
        · rw [if_neg h3]
          by_cases h4 : c = '"'
          · rw [if_pos h4]
            subst h4
            show pAttrValueF '"' (f + 1)
                ('&' :: ("quot".toList ++ ';' :: (escAttrib cs ++ '"' :: r0))) = _
            rw [pAttrValueF_entity_step f "quot".toList '"' _ (by decide) decodeEntityName_quot,
                hrec]
          · rw [if_neg h4]
            by_cases h5 : c = '\r'
            · rw [if_pos h5]
              subst h5
              show pAttrValueF '"' (f + 1)
                  ('&' :: ("#13".toList ++ ';' :: (escAttrib cs ++ '"' :: r0))) = _
              rw [pAttrValueF_entity_step f "#13".toList '\r' _ (by decide) decodeEntityName_cr,
                  hrec]
            · rw [if_neg h5]
              by_cases h6 : c = '\n'
              · rw [if_pos h6]
                subst h6
                show pAttrValueF '"' (f + 1)
                    ('&' :: ("#10".toList ++ ';' :: (escAttrib cs ++ '"' :: r0))) = _
                rw [pAttrValueF_entity_step f "#10".toList '\n' _ (by decide) decodeEntityName_lf,
                    hrec]
              · rw [if_neg h6]
                by_cases h7 : c = '\t'
                · rw [if_pos h7]
                  subst h7
                  show pAttrValueF '"' (f + 1)
                      ('&' :: ("#09".toList ++ ';' :: (escAttrib cs ++ '"' :: r0))) = _
                  rw [pAttrValueF_entity_step f "#09".toList '\t' _ (by decide)
                      decodeEntityName_tab, hrec]
                · rw [if_neg h7]
                  have hge : c.toNat ≥ 32 := by
                    have h := hclean.1
                    simp only [Bool.or_eq_true, decide_eq_true_eq] at h
                    rcases h with ((h | h) | h) | h
                    · exact h
                    · exact absurd h h7
                    · exact absurd h h6
                    · exact absurd h h5
                  rw [List.cons_append, pAttrValueF, if_neg h4, if_neg h2, if_neg h1, if_neg h5,
                      if_neg (by
                        intro hx
                        simp only [Bool.or_eq_true, decide_eq_true_eq] at hx
                        rcases hx with h | h
                        · exact h7 h
                        · exact h6 h),
                      if_neg (by omega),
                      hrec]

theorem rawAttrText_nil : rawAttrText [] = [] := rfl

theorem rawAttrText_cons (kv : Str × Str) (l : List (Str × Str)) :
    rawAttrText (kv :: l)
      = (' ' :: (kv.1 ++ '=' :: '"' :: (escAttrib kv.2 ++ ['"']))) ++ rawAttrText l := by
  simp [rawAttrText]

theorem nameChar_spec (c : Char) (h : nameChar c = true) :
    isXmlWs c = false ∧ c ≠ '<' ∧ c ≠ '>' ∧ c ≠ '/' ∧ c ≠ '=' ∧ c ≠ '"' ∧
    c ≠ '\'' ∧ c ≠ '&' ∧ c ≠ '\x7b' ∧ c ≠ '\x7d' ∧ c ≠ '?' ∧ c ≠ '!' ∧ c.toNat ≥ 0x21 := by
  simp only [nameChar, Bool.and_eq_true, Bool.not_eq_true', decide_eq_true_eq] at h
  tauto

theorem nameChar_not_ws (c : Char) (h : nameChar c = true) : isXmlWs c = false :=
  (nameChar_spec c h).1

theorem pAttrsF_rawAttrText : ∀ (l : List (Str × Str)) (fuel : Nat) (r : Str),
    (∀ kv ∈ l, serTok kv.1 = true ∧ cleanAttrV kv.2 = true) →
    headIsStop (skipXmlWs r) = true →
    (rawAttrText l).length + 1 ≤ fuel →
    pAttrsF fuel (rawAttrText l ++ r) = some (l, skipXmlWs r)
  | _, 0, _ => by intro _ _ h; omega
  | [], f + 1, r => by
    intro _ hstop _
    rw [rawAttrText_nil, List.nil_append, pAttrsF, if_pos hstop]
  | (k, v) :: rest, f + 1, r => by
    intro hkv hstop hfuel
    have hk := (hkv (k, v) (by simp)).1
    have hv := (hkv (k, v) (by simp)).2
    simp only [serTok, Bool.and_eq_true, Bool.not_eq_true'] at hk
    obtain ⟨khd, ktl, hkc⟩ : ∃ khd ktl, k = khd :: ktl := by
      cases k with
      | nil => simp [List.isEmpty] at hk
      | cons a b => exact ⟨a, b, rfl⟩
    have hkall : k.all nameChar = true := hk.2
    have hkhd : nameChar khd = true := by
      rw [hkc] at hkall
      simp only [List.all_cons, Bool.and_eq_true] at hkall
      exact hkall.1
    have hkall2 : k.all nameChar = true := hk.2
    rw [rawAttrText_cons] at hfuel
    rw [rawAttrText_cons, show ((' ' :: (k ++ '=' :: '"' :: (escAttrib v ++ ['"']))) ++ rawAttrText rest) ++ r
        = ' ' :: (k ++ '=' :: '"' :: (escAttrib v ++ '"' :: (rawAttrText rest ++ r))) from by
      simp [List.append_assoc]]
    rw [pAttrsF]
    have hskip : skipXmlWs (' ' :: (k ++ '=' :: '"' :: (escAttrib v ++ '"' :: (rawAttrText rest ++ r))))
        = k ++ '=' :: '"' :: (escAttrib v ++ '"' :: (rawAttrText rest ++ r)) := by
      rw [skipXmlWs, if_pos (by decide), hkc, List.cons_append,
          skipXmlWs_cons_not khd _ (nameChar_not_ws khd hkhd), ← List.cons_append, ← hkc]
    rw [hskip]
    have hnostop : headIsStop (k ++ '=' :: '"' :: (escAttrib v ++ '"' :: (rawAttrText rest ++ r)))
        = false := by
      rw [hkc, List.cons_append]
      simp only [headIsStop, Bool.or_eq_false_iff, decide_eq_false_iff_not]
      exact ⟨(nameChar_spec khd hkhd).2.2.2.1, (nameChar_spec khd hkhd).2.2.1⟩
    rw [if_neg (by
      intro hcon
      rw [hnostop] at hcon
      exact absurd hcon (by decide))]
    have hone : pOneAttr f (k ++ '=' :: '"' :: (escAttrib v ++ '"' :: (rawAttrText rest ++ r)))
        = some ((k, v), rawAttrText rest ++ r) := by
      rw [pOneAttr, pName_token k '=' _ hkall2 (by decide)]
      dsimp only
      rw [if_neg (by rw [hkc]; simp)]
      rw [skipXmlWs_cons_not '=' _ (by decide), expectChar, if_pos rfl]
      dsimp only
      rw [skipXmlWs_cons_not '"' _ (by decide), pQuote, if_pos (by decide)]
      dsimp only
      rw [pAttrValueF_escAttrib v f (rawAttrText rest ++ r) hv (by
        have hel := escAttrib_len v
        simp only [List.length_append, List.length_cons] at hfuel
        omega)]
    rw [hone]
    dsimp only
    rw [pAttrsF_rawAttrText rest f r (fun kv hm => hkv kv (by simp [hm])) hstop (by
      simp only [List.length_append, List.length_cons] at hfuel
      omega)]

theorem firstSplitAt_first (ch : Char) (a b : Str) (h : a.all (fun c => c ≠ ch) = true) :
    firstSplitAt ch (a ++ ch :: b) = some (a, b) := by
  induction a with
  | nil =>
    rw [List.nil_append, firstSplitAt, if_pos rfl]
  | cons x xs ih =>
    simp only [List.all_cons, Bool.and_eq_true, decide_eq_true_eq] at h
    rw [List.cons_append, firstSplitAt, if_neg h.1, ih h.2]

theorem splitXmlns_ord (l : List (Str × Str))
    (h : ∀ kv ∈ l, ordAttrKey kv.1 = true) :
    splitXmlnsAttrs l = some ([], l) := by
  induction l with
  | nil => rfl
  | cons kv rest ih =>
    obtain ⟨k, v⟩ := kv
    have hk := h (k, v) (by simp)
    simp only [ordAttrKey, Bool.and_eq_true, decide_eq_true_eq] at hk
    rw [splitXmlnsAttrs, ih (fun kv hm => h kv (by simp [hm]))]
    dsimp only
    rw [if_neg hk.1]
    rcases hsp : firstSplitAt ':' k with _ | ⟨pfx, loc⟩
    · rfl
    · have hpfx : pfx ≠ "xmlns".toList := by
        have h2 := hk.2
        rw [hsp] at h2
        simpa using h2
      dsimp only
      rw [if_neg hpfx]

theorem splitXmlns_decl_cons (pfx uri : Str) (rest : List (Str × Str))
    (hp : pfx ≠ []) (hu : uri ≠ []) (hxmlns : pfx ≠ "xmlns".toList)
    (hxml : pfx ≠ "xml".toList) (bs ras : List (Str × Str))
    (hrest : splitXmlnsAttrs rest = some (bs, ras)) :
    splitXmlnsAttrs (("xmlns:".toList ++ pfx, uri) :: rest) = some ((pfx, uri) :: bs, ras) := by
  rw [splitXmlnsAttrs, hrest]
  dsimp only
  rw [if_neg (by
    intro hcon
    have := congrArg List.length hcon
    simp at this)]
  rw [show ("xmlns:".toList ++ pfx : Str) = "xmlns".toList ++ ':' :: pfx from rfl]
  rw [firstSplitAt_first ':' "xmlns".toList pfx (by decide)]
  dsimp only
  rw [if_pos rfl, if_neg (by
    intro hcon
    simp only [Bool.or_eq_true, decide_eq_true_eq] at hcon
    rcases hcon with ((h | h) | h) | h
    · exact hp h
    · exact hu h
    · exact hxmlns h
    · exact hxml h)]

theorem declOk_spec (p : Str × Str) (h : declOk p = true) :
    p.2 ≠ [] ∧ p.2.all nameChar = true ∧ p.2.any (fun c => c = ':') = false ∧
    p.2 ≠ "xmlns".toList ∧ p.2 ≠ "xml".toList ∧ p.1 ≠ [] ∧ cleanAttrV p.1 = true := by
  simp only [declOk, Bool.and_eq_true, Bool.not_eq_true', decide_eq_true_eq] at h
  obtain ⟨⟨⟨⟨⟨⟨h1, h2⟩, h3⟩, h4⟩, h5⟩, h6⟩, h7⟩ := h
  refine ⟨?_, h2, h3, h4, h5, ?_, h7⟩
  · intro hh
    rw [hh] at h1
    exact absurd h1 (by decide)
  · intro hh
    rw [hh] at h6
    exact absurd h6 (by decide)

theorem splitXmlns_decls (ds : List (Str × Str)) (l : List (Str × Str))
    (ras : List (Str × Str))
    (hds : ∀ p ∈ ds, declOk p = true)
    (hl : splitXmlnsAttrs l = some ([], ras)) :
    splitXmlnsAttrs (ds.map (fun p => ("xmlns:".toList ++ p.2, p.1)) ++ l)
      = some (ds.map (fun p => (p.2, p.1)), ras) := by
  induction ds with
  | nil => simpa using hl
  | cons p ps ih =>
    have hp := declOk_spec p (hds p (by simp))
    rw [List.map_cons, List.cons_append,
        splitXmlns_decl_cons p.2 p.1 _ hp.1 hp.2.2.2.2.2.1 hp.2.2.2.1 hp.2.2.2.2.1
          (ps.map (fun q => (q.2, q.1))) ras (ih (fun q hm => hds q (by simp [hm]))),
        List.map_cons]

theorem resolveAttrs_raw (phi env : List (Str × Str)) : ∀ (a : List (Str × Str)),
    (∀ kv ∈ a, resolveAttrName env (serTag phi kv.1) = some kv.1) →
    resolveAttrs env (a.map (fun kv => (serTag phi kv.1, kv.2))) = some a
  | [], _ => rfl
  | kv :: rest, h => by
    rw [List.map_cons, resolveAttrs, h kv (by simp),
        resolveAttrs_raw phi env rest (fun q hm => h q (by simp [hm]))]

theorem mem_insertByPfx (x y : Str × Str) (l : List (Str × Str)) :
    y ∈ insertByPfx x l ↔ y = x ∨ y ∈ l := by
  induction l with
  | nil => simp [insertByPfx]
  | cons a as ih =>
    rw [insertByPfx]
    split
    · simp
    · simp only [List.mem_cons, ih]
      tauto

theorem mem_sortByPfx (l : List (Str × Str)) (x : Str × Str) :
    x ∈ sortByPfx l ↔ x ∈ l := by
  induction l with
  | nil => simp [sortByPfx]
  | cons a as ih =>
    show x ∈ insertByPfx a (sortByPfx as) ↔ _
    rw [mem_insertByPfx, ih]
    simp

theorem serCore_shapeX (phi : List (Str × Str)) (extra : Str) (e : XElem) :
    ∃ z, serCore phi extra e = '<' :: z := by
  obtain ⟨t, a, tx, tl, cs⟩ := e
  rw [serCore]
  split
  · exact ⟨_, rfl⟩
  · exact ⟨_, rfl⟩

theorem serCore_shape (phi : List (Str × Str)) (e : XElem) :
    ∃ z, serCore phi [] e = '<' :: z := serCore_shapeX phi [] e

theorem serCore_len_pos (phi : List (Str × Str)) (e : XElem) :
    1 ≤ (serCore phi [] e).length := by
  obtain ⟨z, hz⟩ := serCore_shape phi e
  rw [hz]
  simp

theorem rawAttrText_append (x y : List (Str × Str)) :
    rawAttrText (x ++ y) = rawAttrText x ++ rawAttrText y := by
  simp [rawAttrText]

theorem declsOf_eq (phi : List (Str × Str)) :
    declsOf phi
      = rawAttrText ((sortByPfx phi).map (fun p => ("xmlns:".toList ++ p.2, p.1))) := by
  rw [declsOf, rawAttrText, List.map_map]
  congr 1

theorem headIsClose_lt_cons (c : Char) (l : Str) (h : c ≠ '/') :
    headIsClose ('<' :: c :: l) = false := by
  rw [headIsClose.eq_def]
  split
  · next heq =>
    injection heq with h1 h2
    injection h2 with h3 h4
    exact absurd h3 h
  · rfl

theorem headIsClose_shape (r : Str) (h : headIsClose r = true) :
    ∃ w, r = '<' :: '/' :: w := by
  rw [headIsClose.eq_def] at h
  split at h
  · exact ⟨_, rfl⟩
  · exact absurd h (by decide)

theorem resOk_spec (phi env : List (Str × Str)) (t : Str) (a : List (Str × Str))
    (tx tl : Option Str) (cs : List XElem)
    (h : resOk phi env (.mk t a tx tl cs) = true) :
    serTok (serTag phi t) = true ∧ resolveTagName env (serTag phi t) = some t ∧
    (∀ kv ∈ a, serTok (serTag phi kv.1) = true ∧ ordAttrKey (serTag phi kv.1) = true ∧
      resolveAttrName env (serTag phi kv.1) = some kv.1) ∧
    resOkList phi env cs = true := by
  rw [resOk] at h
  simp only [Bool.and_eq_true, List.all_eq_true, decide_eq_true_eq] at h
  refine ⟨h.1.1.1, h.1.1.2, ?_, h.2⟩
  intro kv hm
  have := h.1.2 kv hm
  exact ⟨this.1.1, this.1.2, this.2⟩

theorem wfX_spec (t : Str) (a : List (Str × Str)) (tx tl : Option Str) (cs : List XElem)
    (h : wfX (.mk t a tx tl cs) = true) :
    tagOk t = true ∧ (∀ kv ∈ a, attrKeyOk kv.1 = true ∧ cleanAttrV kv.2 = true) ∧
    wfOptText tx = true ∧ wfOptText tl = true ∧ wfXList cs = true := by
  rw [wfX] at h
  simp only [Bool.and_eq_true, List.all_eq_true] at h
  refine ⟨h.1.1.1.1, ?_, h.1.1.2, h.1.2, h.2⟩
  intro kv hm
  have := h.1.1.1.2 kv hm
  simp only [Bool.and_eq_true] at this
  exact this

theorem wfOptText_some_spec (s : Str) (h : wfOptText (some s) = true) :
    s ≠ [] ∧ cleanText s = true := by
  rw [wfOptText] at h
  simp only [Bool.and_eq_true, Bool.not_eq_true', List.isEmpty_eq_false] at h
  exact h

theorem optTruthy_none_of (tx : Option Str) (hw : wfOptText tx = true)
    (h : optTruthy tx = false) : tx = none := by
  cases tx with
  | none => rfl
  | some s =>
    have hs := (wfOptText_some_spec s hw).1
    rw [optTruthy] at h
    simp only [decide_eq_false_iff_not] at h
    exact absurd h (by simpa using hs)

theorem withTail_tail (e : XElem) : (e.withTail none).withTail e.tail = e := by
  obtain ⟨t, a, tx, tl, cs⟩ := e
  rfl

theorem serTok_shape (s : Str) (h : serTok s = true) :
    ∃ c cr, s = c :: cr ∧ nameChar c = true ∧ s.all nameChar = true := by
  rw [serTok] at h
  simp only [Bool.and_eq_true, Bool.not_eq_true', List.isEmpty_eq_false] at h
  cases s with
  | nil => exact absurd rfl h.1
  | cons c cr =>
    refine ⟨c, cr, rfl, ?_, h.2⟩
    have := h.2
    simp only [List.all_cons, Bool.and_eq_true] at this
    exact this.1

theorem headIsClose_serCore (phi : List (Str × Str)) (e : XElem) (X : Str)
    (htok : serTok (serTag phi e.tag) = true) :
    headIsClose (serCore phi [] e ++ X) = false := by
  obtain ⟨t, a, tx, tl, cs⟩ := e
  obtain ⟨c, cr, hc, hnc, _⟩ := serTok_shape _ htok
  rw [serCore]
  split
  · rw [show XElem.tag (.mk t a tx tl cs) = t from rfl] at hc
    rw [hc, List.cons_append, List.cons_append]
    exact headIsClose_lt_cons c _ (nameChar_spec c hnc).2.2.2.1
  · rw [show XElem.tag (.mk t a tx tl cs) = t from rfl] at hc
    rw [hc, List.cons_append, List.cons_append]
    exact headIsClose_lt_cons c _ (nameChar_spec c hnc).2.2.2.1

theorem rawAttrText_stop (l : List (Str × Str)) (c : Char) (X : Str) (hc : nameChar c = false) :
    ∃ d Z, rawAttrText l ++ c :: X = d :: Z ∧ nameChar d = false := by
  cases l with
  | nil => exact ⟨c, X, by rw [rawAttrText_nil, List.nil_append], hc⟩
  | cons kv l2 =>
    refine ⟨' ', (kv.1 ++ '=' :: '"' :: (escAttrib kv.2 ++ ['"'])) ++
      (rawAttrText l2 ++ c :: X), ?_, by decide⟩
    rw [rawAttrText_cons]
    simp [List.append_assoc]

theorem pTextF_lt (f : Nat) (X : Str) (h : 1 ≤ f) :
    pTextF f ('<' :: X) = some ([], '<' :: X) := by
  cases f with
  | zero => omega
  | succ f2 => rw [pTextF, if_pos rfl]

mutual

theorem pElemF_serCore : ∀ (e : XElem) (phi env : List (Str × Str)) (fuel : Nat) (r : Str),
    wfX e = true → resOk phi env e = true →
    (serCore phi [] e).length + 2 ≤ fuel →
    pElemF env fuel (serCore phi [] e ++ r) = some (e.withTail none, r)
  | .mk t a tx tl cs, phi, env, fuel, r => by
    intro hwf hres hfuel
    obtain ⟨htok, htag, hattrs, hrescs⟩ := resOk_spec phi env t a tx tl cs hres
    obtain ⟨htagok, hwattrs, hwtx, hwtl, hwcs⟩ := wfX_spec t a tx tl cs hwf
    obtain ⟨nh, nt, hnm, hnh, hnmall⟩ := serTok_shape (serTag phi t) htok
    have hnmlen : 1 ≤ (serTag phi t).length := by
      rw [hnm]
      simp
    have hnmne : serTag phi t ≠ [] := by
      rw [hnm]
      simp
    have hra : ∀ kv ∈ a.map (fun kv => (serTag phi kv.1, kv.2)),
        serTok kv.1 = true ∧ cleanAttrV kv.2 = true := by
      intro kv hm
      obtain ⟨kv0, hm0, hkv0⟩ := List.mem_map.mp hm
      rw [← hkv0]
      exact ⟨(hattrs kv0 hm0).1, (hwattrs kv0 hm0).2⟩
    have hraOrd : ∀ kv ∈ a.map (fun kv => (serTag phi kv.1, kv.2)),
        ordAttrKey kv.1 = true := by
      intro kv hm
      obtain ⟨kv0, hm0, hkv0⟩ := List.mem_map.mp hm
      rw [← hkv0]
      exact (hattrs kv0 hm0).2.1
    have hsplit : splitXmlnsAttrs (a.map (fun kv => (serTag phi kv.1, kv.2)))
        = some ([], a.map (fun kv => (serTag phi kv.1, kv.2))) := splitXmlns_ord _ hraOrd
    have hresolve : resolveAttrs env (a.map (fun kv => (serTag phi kv.1, kv.2))) = some a :=
      resolveAttrs_raw phi env a (fun kv hm => (hattrs kv hm).2.2)
    cases fuel with
    | zero =>
      exact absurd hfuel (by omega)
    | succ f =>
    rcases htx3 : tx with _ | s
    · subst htx3
      rcases hcs3 : cs with _ | ⟨c0, cs0⟩
      · subst hcs3
        rw [serCore, if_neg (by decide)] at hfuel ⊢
        simp only [List.length_cons, List.length_append, List.length_nil] at hfuel
        rw [show ('<' :: (serTag phi t ++ [] ++
              rawAttrText (a.map fun kv => (serTag phi kv.1, kv.2)) ++ [' ', '/', '>'])) ++ r
            = '<' :: (serTag phi t ++
              (rawAttrText (a.map fun kv => (serTag phi kv.1, kv.2)) ++
                (' ' :: '/' :: '>' :: r))) from by simp]
        obtain ⟨d, Z, hdz, hdn⟩ :=
          rawAttrText_stop (a.map fun kv => (serTag phi kv.1, kv.2)) ' '
            ('/' :: '>' :: r) (by decide)
        rw [pElemF, if_pos rfl, hdz, pName_token _ d Z hnmall hdn]
        dsimp only
        rw [if_neg hnmne, ← hdz,
            pAttrsF_rawAttrText _ f (' ' :: '/' :: '>' :: r) hra
              (by
                rw [skipXmlWs, if_pos (by decide), skipXmlWs_cons_not '/' _ (by decide)]
                simp [headIsStop])
              (by omega)]
        dsimp only
        rw [hsplit]
        dsimp only
        rw [List.nil_append, htag, hresolve]
        dsimp only
        rw [show skipXmlWs (' ' :: '/' :: '>' :: r) = '/' :: '>' :: r from by
              rw [skipXmlWs, if_pos (by decide), skipXmlWs_cons_not '/' _ (by decide)],
            expectChar, if_pos rfl]
        dsimp only
        rw [expectChar, if_pos rfl]
        rfl
      · subst hcs3
        rw [serCore, if_pos (by simp [optTruthy])] at hfuel ⊢
        rw [show optTruthy none = false from rfl, if_neg (by decide)] at hfuel ⊢
        simp only [List.length_cons, List.length_append, List.length_nil] at hfuel
        rw [show ('<' :: (serTag phi t ++ [] ++
              rawAttrText (a.map fun kv => (serTag phi kv.1, kv.2)) ++ '>' ::
                ([] ++ serList phi (c0 :: cs0) ++
                  '<' :: '/' :: (serTag phi t ++ ['>'])))) ++ r
            = '<' :: (serTag phi t ++
              (rawAttrText (a.map fun kv => (serTag phi kv.1, kv.2)) ++
                ('>' :: (serList phi (c0 :: cs0) ++
                  ('<' :: '/' :: (serTag phi t ++ '>' :: r)))))) from by simp]
        obtain ⟨d, Z, hdz, hdn⟩ :=
          rawAttrText_stop (a.map fun kv => (serTag phi kv.1, kv.2)) '>'
            (serList phi (c0 :: cs0) ++ ('<' :: '/' :: (serTag phi t ++ '>' :: r)))
            (by decide)
        rw [pElemF, if_pos rfl, hdz, pName_token _ d Z hnmall hdn]
        dsimp only
        rw [if_neg hnmne, ← hdz,
            pAttrsF_rawAttrText _ f _ hra
              (by
                rw [skipXmlWs_cons_not '>' _ (by decide)]
                simp [headIsStop])
              (by omega)]
        dsimp only
        rw [hsplit]
        dsimp only
        rw [List.nil_append, htag, hresolve]
        dsimp only
        rw [show skipXmlWs ('>' :: (serList phi (c0 :: cs0) ++
              ('<' :: '/' :: (serTag phi t ++ '>' :: r))))
            = '>' :: (serList phi (c0 :: cs0) ++
              ('<' :: '/' :: (serTag phi t ++ '>' :: r))) from
          skipXmlWs_cons_not '>' _ (by decide)]
        rw [expectChar, if_neg (by decide)]
        dsimp only
        rw [expectChar, if_pos rfl]
        dsimp only
        obtain ⟨z0, hz0⟩ := serCore_shape phi c0
        rw [show serList phi (c0 :: cs0) ++ ('<' :: '/' :: (serTag phi t ++ '>' :: r))
            = serCore phi [] c0 ++ (tailEsc c0 ++ serList phi cs0 ++
                ('<' :: '/' :: (serTag phi t ++ '>' :: r))) from by
          rw [serList]
          simp [List.append_assoc]]
        rw [hz0, List.cons_append, pTextF_lt f _ (by omega), ← List.cons_append, ← hz0]
        dsimp only
        rw [show serCore phi [] c0 ++ (tailEsc c0 ++ serList phi cs0 ++
              ('<' :: '/' :: (serTag phi t ++ '>' :: r)))
            = serList phi (c0 :: cs0) ++ ('<' :: '/' :: (serTag phi t ++ '>' :: r)) from by
          rw [serList]
          simp [List.append_assoc]]
        rw [pChildrenF_serList (c0 :: cs0) phi env f
            ('<' :: '/' :: (serTag phi t ++ '>' :: r)) hwcs hrescs rfl (by
          have hsl : (serList phi (c0 :: cs0)).length
              = (serCore phi [] c0).length + (tailEsc c0).length + (serList phi cs0).length := by
            rw [serList]
            simp only [List.length_append]
          omega)]
        dsimp only
        rw [expectChar, if_pos rfl]
        dsimp only
        rw [expectChar, if_pos rfl]
        dsimp only
        rw [pName_token _ '>' r hnmall (by decide), if_pos rfl]
        dsimp only
        rw [skipXmlWs_cons_not '>' _ (by decide), expectChar, if_pos rfl]
        rfl
    · subst htx3
      have hs := wfOptText_some_spec s hwtx
      have hopt : optTruthy (some s) = true := by
        simp [optTruthy, hs.1]
      rw [serCore, if_pos (by simp [hopt])] at hfuel ⊢
      rw [hopt, if_pos rfl] at hfuel ⊢
      rw [show optOrEmpty (some s) = s from rfl] at hfuel ⊢
      simp only [List.length_cons, List.length_append, List.length_nil] at hfuel
      have hesclen := escCdata_len s
      rw [show ('<' :: (serTag phi t ++ [] ++
            rawAttrText (a.map fun kv => (serTag phi kv.1, kv.2)) ++ '>' ::
              (escCdata s ++ serList phi cs ++
                '<' :: '/' :: (serTag phi t ++ ['>'])))) ++ r
          = '<' :: (serTag phi t ++
            (rawAttrText (a.map fun kv => (serTag phi kv.1, kv.2)) ++
              ('>' :: (escCdata s ++ (serList phi cs ++
                ('<' :: '/' :: (serTag phi t ++ '>' :: r))))))) from by simp]
      obtain ⟨d, Z, hdz, hdn⟩ :=
        rawAttrText_stop (a.map fun kv => (serTag phi kv.1, kv.2)) '>'
          (escCdata s ++ (serList phi cs ++ ('<' :: '/' :: (serTag phi t ++ '>' :: r))))
          (by decide)
      rw [pElemF, if_pos rfl, hdz, pName_token _ d Z hnmall hdn]
      dsimp only
      rw [if_neg hnmne, ← hdz,
          pAttrsF_rawAttrText _ f _ hra
            (by
              rw [skipXmlWs_cons_not '>' _ (by decide)]
              simp [headIsStop])
            (by omega)]
      dsimp only
      rw [hsplit]
      dsimp only
      rw [List.nil_append, htag, hresolve]
      dsimp only
      rw [show skipXmlWs ('>' :: (escCdata s ++ (serList phi cs ++
            ('<' :: '/' :: (serTag phi t ++ '>' :: r)))))
          = '>' :: (escCdata s ++ (serList phi cs ++
            ('<' :: '/' :: (serTag phi t ++ '>' :: r)))) from
        skipXmlWs_cons_not '>' _ (by decide)]
      rw [expectChar, if_neg (by decide)]
      dsimp only
      rw [expectChar, if_pos rfl]
      dsimp only
      obtain ⟨W, hW⟩ : ∃ W, serList phi cs ++ ('<' :: '/' :: (serTag phi t ++ '>' :: r))
          = '<' :: W := by
        cases cs with
        | nil => exact ⟨'/' :: (serTag phi t ++ '>' :: r), by rw [serList, List.nil_append]⟩
        | cons c0 cs0 =>
          obtain ⟨z, hz⟩ := serCore_shape phi c0
          refine ⟨z ++ (tailEsc c0 ++ (serList phi cs0 ++
            ('<' :: '/' :: (serTag phi t ++ '>' :: r)))), ?_⟩
          rw [serList, hz]
          simp [List.append_assoc]
      rw [hW, pTextF_escCdata s f W hs.2 (by omega), ← hW]
      dsimp only
      rw [pChildrenF_serList cs phi env f
          ('<' :: '/' :: (serTag phi t ++ '>' :: r)) hwcs hrescs rfl (by omega)]
      dsimp only
      rw [expectChar, if_pos rfl]
      dsimp only
      rw [expectChar, if_pos rfl]
      dsimp only
      rw [pName_token _ '>' r hnmall (by decide), if_pos rfl]
      dsimp only
      rw [skipXmlWs_cons_not '>' _ (by decide), expectChar, if_pos rfl]
      dsimp only
      rw [if_neg hs.1]
      rfl

theorem pChildrenF_serList : ∀ (cs : List XElem) (phi env : List (Str × Str)) (fuel : Nat)
    (r : Str),
    wfXList cs = true → resOkList phi env cs = true →
    headIsClose r = true →
    (serList phi cs).length + 3 ≤ fuel →
    pChildrenF env fuel (serList phi cs ++ r) = some (cs, r)
  | [], phi, env, fuel, r => by
    intro _ _ hr hfuel
    cases fuel with
    | zero => exact absurd hfuel (by omega)
    | succ f => rw [serList, List.nil_append, pChildrenF, if_pos hr]
  | .mk ct ca ctx ctl ccs :: cs, phi, env, fuel, r => by
    intro hwf hres hr hfuel
    have hwf2 : wfX (.mk ct ca ctx ctl ccs) = true ∧ wfXList cs = true := by
      rw [wfXList] at hwf
      simpa [Bool.and_eq_true] using hwf
    have hres2 : resOk phi env (.mk ct ca ctx ctl ccs) = true ∧ resOkList phi env cs = true := by
      rw [resOkList] at hres
      simpa [Bool.and_eq_true] using hres
    have htokc : serTok (serTag phi ct) = true :=
      (resOk_spec phi env ct ca ctx ctl ccs hres2.1).1
    have hwtl : wfOptText ctl = true := (wfX_spec ct ca ctx ctl ccs hwf2.1).2.2.2.1
    cases fuel with
    | zero => exact absurd hfuel (by omega)
    | succ f =>
    have hsllen : (serList phi (.mk ct ca ctx ctl ccs :: cs)).length
        = (serCore phi [] (.mk ct ca ctx ctl ccs)).length + (tailEsc (.mk ct ca ctx ctl ccs)).length
          + (serList phi cs).length := by
      rw [serList]
      simp only [List.length_append]
    rw [show serList phi (.mk ct ca ctx ctl ccs :: cs) ++ r
        = serCore phi [] (.mk ct ca ctx ctl ccs) ++
            (tailEsc (.mk ct ca ctx ctl ccs) ++ (serList phi cs ++ r)) from by
      rw [serList]
      simp [List.append_assoc]]
    rw [pChildrenF]
    rw [if_neg (by
      rw [headIsClose_serCore phi (.mk ct ca ctx ctl ccs) _ htokc]
      exact fun hcon => absurd hcon (by decide))]
    rw [pElemF_serCore (.mk ct ca ctx ctl ccs) phi env f _ hwf2.1 hres2.1 (by
      rw [hsllen] at hfuel
      omega)]
    dsimp only
    rcases hctl : ctl with _ | s
    · subst hctl
      rw [show tailEsc (.mk ct ca ctx none ccs) = [] from rfl, List.nil_append]
      obtain ⟨W, hW⟩ : ∃ W, serList phi cs ++ r = '<' :: W := by
        cases cs with
        | nil =>
          obtain ⟨w, hw⟩ := headIsClose_shape r hr
          exact ⟨_, by rw [serList, List.nil_append, hw]⟩
        | cons c0 cs0 =>
          obtain ⟨z, hz⟩ := serCore_shape phi c0
          refine ⟨z ++ (tailEsc c0 ++ (serList phi cs0 ++ r)), ?_⟩
          rw [serList, hz]
          simp [List.append_assoc]
      rw [hW, pTextF_lt f W (by rw [hsllen] at hfuel; omega), ← hW]
      dsimp only
      rw [pChildrenF_serList cs phi env f r hwf2.2 hres2.2 hr (by
        rw [hsllen] at hfuel
        have hcp := serCore_len_pos phi (.mk ct ca ctx none ccs)
        omega)]
      rfl
    · subst hctl
      have hs := wfOptText_some_spec s hwtl
      rw [show tailEsc (.mk ct ca ctx (some s) ccs)
          = escCdata s from by
        rw [tailEsc]
        rw [show XElem.tail (.mk ct ca ctx (some s) ccs) = some s from rfl]
        rw [show optTruthy (some s) = true from by simp [optTruthy, hs.1], if_pos rfl]
        rfl]
      obtain ⟨W, hW⟩ : ∃ W, serList phi cs ++ r = '<' :: W := by
        cases cs with
        | nil =>
          obtain ⟨w, hw⟩ := headIsClose_shape r hr
          exact ⟨_, by rw [serList, List.nil_append, hw]⟩
        | cons c0 cs0 =>
          obtain ⟨z, hz⟩ := serCore_shape phi c0
          refine ⟨z ++ (tailEsc c0 ++ (serList phi cs0 ++ r)), ?_⟩
          rw [serList, hz]
          simp [List.append_assoc]
      rw [hW, pTextF_escCdata s f W hs.2 (by
            rw [hsllen] at hfuel
            have := escCdata_len s
            simp only [show tailEsc (.mk ct ca ctx (some s) ccs)
                = escCdata s from by
              rw [tailEsc]
              rw [show XElem.tail (.mk ct ca ctx (some s) ccs) = some s from rfl]
              rw [show optTruthy (some s) = true from by simp [optTruthy, hs.1], if_pos rfl]
              rfl] at hfuel
            omega),
          ← hW]
      dsimp only
      rw [pChildrenF_serList cs phi env f r hwf2.2 hres2.2 hr (by
        rw [hsllen] at hfuel
        have hcp := serCore_len_pos phi (.mk ct ca ctx (some s) ccs)
        omega)]
      dsimp only
      rw [if_neg hs.1]
      rfl

end

theorem pElemF_serCore_root (t : Str) (a : List (Str × Str)) (tx : Option Str)
    (cs : List XElem) (phi envB ds : List (Str × Str)) (fuel : Nat) (r : Str)
    (hwf : wfX (.mk t a tx none cs) = true)
    (hres : resOk phi (ds.map (fun p => (p.2, p.1)) ++ envB) (.mk t a tx none cs) = true)
    (hds : ∀ p ∈ ds, declOk p = true)
    (hfuel : (serCore phi (rawAttrText (ds.map (fun p => ("xmlns:".toList ++ p.2, p.1))))
        (.mk t a tx none cs)).length + 2 ≤ fuel) :
    pElemF envB fuel
        (serCore phi (rawAttrText (ds.map (fun p => ("xmlns:".toList ++ p.2, p.1))))
          (.mk t a tx none cs) ++ r)
      = some (.mk t a tx none cs, r) := by
  obtain ⟨htok, htag, hattrs, hrescs⟩ :=
    resOk_spec phi (ds.map (fun p => (p.2, p.1)) ++ envB) t a tx none cs hres
  obtain ⟨htagok, hwattrs, hwtx, hwtl, hwcs⟩ := wfX_spec t a tx none cs hwf
  obtain ⟨nh, nt, hnm, hnh, hnmall⟩ := serTok_shape (serTag phi t) htok
  have hnmne : serTag phi t ≠ [] := by
    rw [hnm]
    simp
  have hra : ∀ kv ∈ a.map (fun kv => (serTag phi kv.1, kv.2)),
      serTok kv.1 = true ∧ cleanAttrV kv.2 = true := by
    intro kv hm
    obtain ⟨kv0, hm0, hkv0⟩ := List.mem_map.mp hm
    rw [← hkv0]
    exact ⟨(hattrs kv0 hm0).1, (hwattrs kv0 hm0).2⟩
  have hraOrd : ∀ kv ∈ a.map (fun kv => (serTag phi kv.1, kv.2)),
      ordAttrKey kv.1 = true := by
    intro kv hm
    obtain ⟨kv0, hm0, hkv0⟩ := List.mem_map.mp hm
    rw [← hkv0]
    exact (hattrs kv0 hm0).2.1
  have hraC : ∀ kv ∈ ds.map (fun p => ("xmlns:".toList ++ p.2, p.1))
      ++ a.map (fun kv => (serTag phi kv.1, kv.2)),
      serTok kv.1 = true ∧ cleanAttrV kv.2 = true := by
    intro kv hm
    rcases List.mem_append.mp hm with hm2 | hm2
    · obtain ⟨p, hp0, hpe⟩ := List.mem_map.mp hm2
      have hps := declOk_spec p (hds p hp0)
      rw [← hpe]
      constructor
      · rw [serTok]
        simp only [Bool.and_eq_true, Bool.not_eq_true']
        constructor
        · rfl
        · rw [List.all_append]
          simp only [Bool.and_eq_true]
          exact ⟨by decide, hps.2.1⟩
      · exact hps.2.2.2.2.2.2
    · exact hra kv hm2
  have hsplit : splitXmlnsAttrs (ds.map (fun p => ("xmlns:".toList ++ p.2, p.1))
        ++ a.map (fun kv => (serTag phi kv.1, kv.2)))
      = some (ds.map (fun p => (p.2, p.1)), a.map (fun kv => (serTag phi kv.1, kv.2))) :=
    splitXmlns_decls ds _ _ hds (splitXmlns_ord _ hraOrd)
  have hresolve : resolveAttrs (ds.map (fun p => (p.2, p.1)) ++ envB)
      (a.map (fun kv => (serTag phi kv.1, kv.2))) = some a :=
    resolveAttrs_raw phi _ a (fun kv hm => (hattrs kv hm).2.2)
  cases fuel with
  | zero =>
    exact absurd hfuel (by omega)
  | succ f =>
  rcases htx3 : tx with _ | s
  · subst htx3
    rcases hcs3 : cs with _ | ⟨c0, cs0⟩
    · subst hcs3
      rw [serCore, if_neg (by decide)] at hfuel ⊢
      simp only [List.length_cons, List.length_append, List.length_nil] at hfuel
      rw [show ('<' :: (serTag phi t ++
            rawAttrText (ds.map (fun p => ("xmlns:".toList ++ p.2, p.1))) ++
            rawAttrText (a.map fun kv => (serTag phi kv.1, kv.2)) ++ [' ', '/', '>'])) ++ r
          = '<' :: (serTag phi t ++
            (rawAttrText (ds.map (fun p => ("xmlns:".toList ++ p.2, p.1))
              ++ a.map (fun kv => (serTag phi kv.1, kv.2))) ++
              (' ' :: '/' :: '>' :: r))) from by
        rw [rawAttrText_append]
        simp [List.append_assoc]]
      obtain ⟨d, Z, hdz, hdn⟩ :=
        rawAttrText_stop (ds.map (fun p => ("xmlns:".toList ++ p.2, p.1))
          ++ a.map (fun kv => (serTag phi kv.1, kv.2))) ' '
          ('/' :: '>' :: r) (by decide)
      rw [pElemF, if_pos rfl, hdz, pName_token _ d Z hnmall hdn]
      dsimp only
      rw [if_neg hnmne, ← hdz,
          pAttrsF_rawAttrText _ f (' ' :: '/' :: '>' :: r) hraC
            (by
              rw [skipXmlWs, if_pos (by decide), skipXmlWs_cons_not '/' _ (by decide)]
              simp [headIsStop])
            (by
              rw [rawAttrText_append]
              simp only [List.length_append]
              omega)]
      dsimp only
      rw [hsplit]
      dsimp only
      rw [htag, hresolve]
      dsimp only
      rw [show skipXmlWs (' ' :: '/' :: '>' :: r) = '/' :: '>' :: r from by
            rw [skipXmlWs, if_pos (by decide), skipXmlWs_cons_not '/' _ (by decide)],
          expectChar, if_pos rfl]
      dsimp only
      rw [expectChar, if_pos rfl]
    · subst hcs3
      rw [serCore, if_pos (by simp [optTruthy])] at hfuel ⊢
      rw [show optTruthy none = false from rfl, if_neg (by decide)] at hfuel ⊢
      simp only [List.length_cons, List.length_append, List.length_nil] at hfuel
      rw [show ('<' :: (serTag phi t ++
            rawAttrText (ds.map (fun p => ("xmlns:".toList ++ p.2, p.1))) ++
            rawAttrText (a.map fun kv => (serTag phi kv.1, kv.2)) ++ '>' ::
              ([] ++ serList phi (c0 :: cs0) ++
                '<' :: '/' :: (serTag phi t ++ ['>'])))) ++ r
          = '<' :: (serTag phi t ++
            (rawAttrText (ds.map (fun p => ("xmlns:".toList ++ p.2, p.1))
              ++ a.map (fun kv => (serTag phi kv.1, kv.2))) ++
              ('>' :: (serList phi (c0 :: cs0) ++
                ('<' :: '/' :: (serTag phi t ++ '>' :: r)))))) from by
        rw [rawAttrText_append]
        simp [List.append_assoc]]
      obtain ⟨d, Z, hdz, hdn⟩ :=
        rawAttrText_stop (ds.map (fun p => ("xmlns:".toList ++ p.2, p.1))
          ++ a.map (fun kv => (serTag phi kv.1, kv.2))) '>'
          (serList phi (c0 :: cs0) ++ ('<' :: '/' :: (serTag phi t ++ '>' :: r)))
          (by decide)
      rw [pElemF, if_pos rfl, hdz, pName_token _ d Z hnmall hdn]
      dsimp only
      rw [if_neg hnmne, ← hdz,
          pAttrsF_rawAttrText _ f _ hraC
            (by
              rw [skipXmlWs_cons_not '>' _ (by decide)]
              simp [headIsStop])
            (by
              rw [rawAttrText_append]
              simp only [List.length_append]
              omega)]
      dsimp only
      rw [hsplit]
      dsimp only
      rw [htag, hresolve]
      dsimp only
      rw [show skipXmlWs ('>' :: (serList phi (c0 :: cs0) ++
            ('<' :: '/' :: (serTag phi t ++ '>' :: r))))
          = '>' :: (serList phi (c0 :: cs0) ++
            ('<' :: '/' :: (serTag phi t ++ '>' :: r))) from
        skipXmlWs_cons_not '>' _ (by decide)]
      rw [expectChar, if_neg (by decide)]
      dsimp only
      rw [expectChar, if_pos rfl]
      dsimp only
      obtain ⟨z0, hz0⟩ := serCore_shape phi c0
      rw [show serList phi (c0 :: cs0) ++ ('<' :: '/' :: (serTag phi t ++ '>' :: r))
          = serCore phi [] c0 ++ (tailEsc c0 ++ serList phi cs0 ++
              ('<' :: '/' :: (serTag phi t ++ '>' :: r))) from by
        rw [serList]
        simp [List.append_assoc]]
      rw [hz0, List.cons_append, pTextF_lt f _ (by omega), ← List.cons_append, ← hz0]
      dsimp only
      rw [show serCore phi [] c0 ++ (tailEsc c0 ++ serList phi cs0 ++
            ('<' :: '/' :: (serTag phi t ++ '>' :: r)))
          = serList phi (c0 :: cs0) ++ ('<' :: '/' :: (serTag phi t ++ '>' :: r)) from by
        rw [serList]
        simp [List.append_assoc]]
      rw [pChildrenF_serList (c0 :: cs0) phi (ds.map (fun p => (p.2, p.1)) ++ envB) f
          ('<' :: '/' :: (serTag phi t ++ '>' :: r)) hwcs hrescs rfl (by
        have hsl : (serList phi (c0 :: cs0)).length
            = (serCore phi [] c0).length + (tailEsc c0).length + (serList phi cs0).length := by
          rw [serList]
          simp only [List.length_append]
        omega)]
      dsimp only
      rw [expectChar, if_pos rfl]
      dsimp only
      rw [expectChar, if_pos rfl]
      dsimp only
      rw [pName_token _ '>' r hnmall (by decide), if_pos rfl]
      dsimp only
      rw [skipXmlWs_cons_not '>' _ (by decide), expectChar, if_pos rfl]
      rfl
  · subst htx3
    have hs := wfOptText_some_spec s hwtx
    have hopt : optTruthy (some s) = true := by
      simp [optTruthy, hs.1]
    rw [serCore, if_pos (by simp [hopt])] at hfuel ⊢
    rw [hopt, if_pos rfl] at hfuel ⊢
    rw [show optOrEmpty (some s) = s from rfl] at hfuel ⊢
    simp only [List.length_cons, List.length_append, List.length_nil] at hfuel
    have hesclen := escCdata_len s
    rw [show ('<' :: (serTag phi t ++
          rawAttrText (ds.map (fun p => ("xmlns:".toList ++ p.2, p.1))) ++
          rawAttrText (a.map fun kv => (serTag phi kv.1, kv.2)) ++ '>' ::
            (escCdata s ++ serList phi cs ++
              '<' :: '/' :: (serTag phi t ++ ['>'])))) ++ r
        = '<' :: (serTag phi t ++
          (rawAttrText (ds.map (fun p => ("xmlns:".toList ++ p.2, p.1))
            ++ a.map (fun kv => (serTag phi kv.1, kv.2))) ++
            ('>' :: (escCdata s ++ (serList phi cs ++
              ('<' :: '/' :: (serTag phi t ++ '>' :: r))))))) from by
      rw [rawAttrText_append]
      simp [List.append_assoc]]
    obtain ⟨d, Z, hdz, hdn⟩ :=
      rawAttrText_stop (ds.map (fun p => ("xmlns:".toList ++ p.2, p.1))
        ++ a.map (fun kv => (serTag phi kv.1, kv.2))) '>'
        (escCdata s ++ (serList phi cs ++ ('<' :: '/' :: (serTag phi t ++ '>' :: r))))
        (by decide)
    rw [pElemF, if_pos rfl, hdz, pName_token _ d Z hnmall hdn]
    dsimp only
    rw [if_neg hnmne, ← hdz,
        pAttrsF_rawAttrText _ f _ hraC
          (by
            rw [skipXmlWs_cons_not '>' _ (by decide)]
            simp [headIsStop])
          (by
            rw [rawAttrText_append]
            simp only [List.length_append]
            omega)]
    dsimp only
    rw [hsplit]
    dsimp only
    rw [htag, hresolve]
    dsimp only
    rw [show skipXmlWs ('>' :: (escCdata s ++ (serList phi cs ++
          ('<' :: '/' :: (serTag phi t ++ '>' :: r)))))
        = '>' :: (escCdata s ++ (serList phi cs ++
          ('<' :: '/' :: (serTag phi t ++ '>' :: r)))) from
      skipXmlWs_cons_not '>' _ (by decide)]
    rw [expectChar, if_neg (by decide)]
    dsimp only
    rw [expectChar, if_pos rfl]
    dsimp only
    obtain ⟨W, hW⟩ : ∃ W, serList phi cs ++ ('<' :: '/' :: (serTag phi t ++ '>' :: r))
        = '<' :: W := by
      cases cs with
      | nil => exact ⟨'/' :: (serTag phi t ++ '>' :: r), by rw [serList, List.nil_append]⟩
      | cons c0 cs0 =>
        obtain ⟨z, hz⟩ := serCore_shape phi c0
        refine ⟨z ++ (tailEsc c0 ++ (serList phi cs0 ++
          ('<' :: '/' :: (serTag phi t ++ '>' :: r)))), ?_⟩
        rw [serList, hz]
        simp [List.append_assoc]
    rw [hW, pTextF_escCdata s f W hs.2 (by omega), ← hW]
    dsimp only
    rw [pChildrenF_serList cs phi (ds.map (fun p => (p.2, p.1)) ++ envB) f
        ('<' :: '/' :: (serTag phi t ++ '>' :: r)) hwcs hrescs rfl (by omega)]
    dsimp only
    rw [expectChar, if_pos rfl]
    dsimp only
    rw [expectChar, if_pos rfl]
    dsimp only
    rw [pName_token _ '>' r hnmall (by decide), if_pos rfl]
    dsimp only
    rw [skipXmlWs_cons_not '>' _ (by decide), expectChar, if_pos rfl]
    dsimp only
    rw [if_neg hs.1]

/-- The serializer-parser round trip: a well-formed tree with no tail
whose namespace assignment is invertible parses back from its own
document serialization. -/
theorem parseDoc_serializeDoc (t1 : XElem) (hwf : wfX t1 = true) (htl : t1.tail = none)
    (hrt : serRT t1 = true) :
    parseDoc (serializeDoc t1) = some t1 := by
  obtain ⟨t, a, tx, tl, cs⟩ := t1
  have htl2 : tl = none := htl
  subst htl2
  rw [serRT, Bool.and_eq_true] at hrt
  have hds : ∀ p ∈ sortByPfx (buildAssign (collectQNames (.mk t a tx none cs))),
      declOk p = true := by
    intro p hp
    have hphi := hrt.1
    rw [phiOk, List.all_eq_true] at hphi
    exact hphi p ((mem_sortByPfx _ p).mp hp)
  have hres2 : resOk (buildAssign (collectQNames (.mk t a tx none cs)))
      ((sortByPfx (buildAssign (collectQNames (.mk t a tx none cs)))).map
        (fun p => (p.2, p.1)) ++ env0) (.mk t a tx none cs) = true := by
    have h2 := hrt.2
    rw [envOf] at h2
    exact h2
  rw [serializeDoc]
  rw [serElemCore_eq, show tailEsc (.mk t a tx none cs) = [] from rfl, List.append_nil,
      declsOf_eq]
  obtain ⟨z, hz⟩ := serCore_shapeX (buildAssign (collectQNames (.mk t a tx none cs)))
    (rawAttrText ((sortByPfx (buildAssign (collectQNames (.mk t a tx none cs)))).map
      (fun p => ("xmlns:".toList ++ p.2, p.1)))) (.mk t a tx none cs)
  have hraw : parseDocRaw (xmlDeclStr ++
      serCore (buildAssign (collectQNames (.mk t a tx none cs)))
        (rawAttrText ((sortByPfx (buildAssign (collectQNames (.mk t a tx none cs)))).map
          (fun p => ("xmlns:".toList ++ p.2, p.1)))) (.mk t a tx none cs))
      = some (.mk t a tx none cs) := by
    rw [show xmlDeclStr ++
        serCore (buildAssign (collectQNames (.mk t a tx none cs)))
          (rawAttrText ((sortByPfx (buildAssign (collectQNames (.mk t a tx none cs)))).map
            (fun p => ("xmlns:".toList ++ p.2, p.1)))) (.mk t a tx none cs)
        = '<' :: '?' :: ("xml version='1.0' encoding='utf-8'?>\n".toList ++
            serCore (buildAssign (collectQNames (.mk t a tx none cs)))
              (rawAttrText ((sortByPfx (buildAssign (collectQNames (.mk t a tx none cs)))).map
                (fun p => ("xmlns:".toList ++ p.2, p.1)))) (.mk t a tx none cs)) from rfl]
    rw [parseDocRaw]
    rw [show skipPastPiEnd ("xml version='1.0' encoding='utf-8'?>\n".toList ++
          serCore (buildAssign (collectQNames (.mk t a tx none cs)))
            (rawAttrText ((sortByPfx (buildAssign (collectQNames (.mk t a tx none cs)))).map
              (fun p => ("xmlns:".toList ++ p.2, p.1)))) (.mk t a tx none cs))
        = some ('\n' ::
          serCore (buildAssign (collectQNames (.mk t a tx none cs)))
            (rawAttrText ((sortByPfx (buildAssign (collectQNames (.mk t a tx none cs)))).map
              (fun p => ("xmlns:".toList ++ p.2, p.1)))) (.mk t a tx none cs)) from rfl]
    dsimp only
    rw [show skipXmlWs ('\n' ::
          serCore (buildAssign (collectQNames (.mk t a tx none cs)))
            (rawAttrText ((sortByPfx (buildAssign (collectQNames (.mk t a tx none cs)))).map
              (fun p => ("xmlns:".toList ++ p.2, p.1)))) (.mk t a tx none cs))
        = serCore (buildAssign (collectQNames (.mk t a tx none cs)))
            (rawAttrText ((sortByPfx (buildAssign (collectQNames (.mk t a tx none cs)))).map
              (fun p => ("xmlns:".toList ++ p.2, p.1)))) (.mk t a tx none cs) from by
      rw [skipXmlWs, if_pos (by decide), hz, skipXmlWs_cons_not '<' _ (by decide), ← hz]]
    rw [show serCore (buildAssign (collectQNames (.mk t a tx none cs)))
          (rawAttrText ((sortByPfx (buildAssign (collectQNames (.mk t a tx none cs)))).map
            (fun p => ("xmlns:".toList ++ p.2, p.1)))) (.mk t a tx none cs)
        = serCore (buildAssign (collectQNames (.mk t a tx none cs)))
            (rawAttrText ((sortByPfx (buildAssign (collectQNames (.mk t a tx none cs)))).map
              (fun p => ("xmlns:".toList ++ p.2, p.1)))) (.mk t a tx none cs) ++ []
        from (List.append_nil _).symm]
    rw [pElemF_serCore_root t a tx cs
        (buildAssign (collectQNames (.mk t a tx none cs))) env0
        (sortByPfx (buildAssign (collectQNames (.mk t a tx none cs)))) _ [] hwf hres2 hds
        (by
          simp only [List.length_cons, List.length_append]
          omega)]
    dsimp only
    rw [skipXmlWs, if_pos rfl]
  rw [parseDoc, hraw]
  dsimp only
  rw [if_pos hwf]

/-! ## Round trip, step 2: `_parse_or_create_xmpmeta_root` glue -/

theorem parseDoc_wf (s : Str) (t : XElem) (h : parseDoc s = some t) : wfX t = true := by
  rw [parseDoc] at h
  rcases h2 : parseDocRaw s with _ | t2
  · rw [h2] at h
    cases h
  · rw [h2] at h
    dsimp only at h
    by_cases hw : wfX t2 = true
    · rw [if_pos hw] at h
      cases h
      exact hw
    · rw [if_neg hw] at h
      cases h

mutual

theorem findPreFirst_wf : ∀ (p : XElem → Bool) (t : XElem) (el : XElem),
    findPreFirst p t = some el → wfX t = true → wfX el = true
  | p, .mk tg a tx tl cs, el => by
    intro hf hw
    rw [findPreFirst] at hf
    split at hf
    · cases hf
      exact hw
    · exact findPreFirstList_wf p cs el hf ((wfX_spec tg a tx tl cs hw).2.2.2.2)

theorem findPreFirstList_wf : ∀ (p : XElem → Bool) (cs : List XElem) (el : XElem),
    findPreFirstList p cs = some el → wfXList cs = true → wfX el = true
  | _, [], _ => by
    intro hf _
    cases hf
  | p, c :: cs, el => by
    intro hf hw
    rw [findPreFirstList] at hf
    have hw2 : wfX c = true ∧ wfXList cs = true := by
      rw [wfXList] at hw
      simpa [Bool.and_eq_true] using hw
    rcases hfc : findPreFirst p c with _ | el2
    · rw [hfc] at hf
      exact findPreFirstList_wf p cs el hf hw2.2
    · rw [hfc] at hf
      cases hf
      exact findPreFirst_wf p c _ hfc hw2.1

end

mutual

theorem findPreFirst_holds : ∀ (p : XElem → Bool) (t : XElem) (el : XElem),
    findPreFirst p t = some el → p el = true
  | p, .mk tg a tx tl cs, el => by
    intro hf
    rw [findPreFirst] at hf
    split at hf
    · next hp =>
      cases hf
      exact hp
    · exact findPreFirstList_holds p cs el hf

theorem findPreFirstList_holds : ∀ (p : XElem → Bool) (cs : List XElem) (el : XElem),
    findPreFirstList p cs = some el → p el = true
  | _, [], _ => by
    intro hf
    cases hf
  | p, c :: cs, el => by
    intro hf
    rw [findPreFirstList] at hf
    rcases hfc : findPreFirst p c with _ | el2
    · rw [hfc] at hf
      exact findPreFirstList_holds p cs el hf
    · rw [hfc] at hf
      cases hf
      exact findPreFirst_holds p c _ hfc

end

theorem parseOrCreate_wf (ex : Option Bytes) : wfX (parseOrCreateXmpmetaRoot ex) = true := by
  rw [parseOrCreateXmpmetaRoot.eq_def]
  rcases ex with _ | b
  · decide
  · dsimp only
    split
    · decide
    · split
      · decide
      · next txt htxt =>
        split
        · decide
        · split
          · decide
          · next root hroot =>
            split
            · exact parseDoc_wf _ _ hroot
            · split
              · next el hel => exact findPreFirst_wf _ _ _ hel (parseDoc_wf _ _ hroot)
              · decide

theorem parseOrCreate_tag (ex : Option Bytes) :
    listEnds "xmpmeta".toList (parseOrCreateXmpmetaRoot ex).tag = true := by
  rw [parseOrCreateXmpmetaRoot.eq_def]
  rcases ex with _ | b
  · decide
  · dsimp only
    split
    · decide
    · split
      · decide
      · next txt htxt =>
        split
        · decide
        · split
          · decide
          · next root hroot =>
            split
            · next hok => exact hok
            · split
              · next el hel => exact findPreFirst_holds _ _ _ hel
              · decide

theorem serializeDoc_ne_nil (t1 : XElem) : serializeDoc t1 ≠ [] := by
  rw [serializeDoc]
  intro h
  have := congrArg List.length h
  rw [List.length_append] at this
  rw [show (xmlDeclStr : Str).length = 39 from rfl] at this
  simp at this

theorem parseOrCreate_serialized (t1 : XElem)
    (hparse : parseDoc (serializeDoc t1) = some t1)
    (htag : listEnds "xmpmeta".toList t1.tag = true) :
    parseOrCreateXmpmetaRoot (some (serializeXmpmeta t1)) = t1 := by
  have hne : serializeDoc t1 ≠ [] := serializeDoc_ne_nil t1
  have hbne : (serializeXmpmeta t1).isEmpty = false := by
    rw [serializeXmpmeta, strToBytes]
    cases hs : serializeDoc t1 with
    | nil => exact absurd hs hne
    | cons c cr => rfl
  rw [parseOrCreateXmpmetaRoot.eq_def]
  dsimp only
  rw [hbne]
  rw [if_neg (by decide)]
  rw [decodeXmlBytes, if_neg (by simp [hbne])]
  dsimp only
  rw [show bytesToStr (serializeXmpmeta t1) = serializeDoc t1 from by
    rw [serializeXmpmeta]
    exact bytesToStr_strToBytes _]
  rw [if_neg (by
    intro hcon
    exact hne (by simpa using hcon))]
  rw [hparse]
  dsimp only
  rw [if_pos htag]

/-! ## Round trip, step 3: the update preserves well-formedness -/

theorem wfXList_append (xs ys : List XElem) :
    wfXList (xs ++ ys) = (wfXList xs && wfXList ys) := by
  induction xs with
  | nil => simp [wfXList]
  | cons c cs ih =>
    rw [List.cons_append, wfXList, ih, wfXList]
    simp [Bool.and_assoc]

theorem wfX_withChildren (t : Str) (a : List (Str × Str)) (tx tl : Option Str)
    (cs cs' : List XElem) (hw : wfX (.mk t a tx tl cs) = true)
    (hcs : wfXList cs' = true) : wfX (.mk t a tx tl cs') = true := by
  rw [wfX] at hw ⊢
  simp only [Bool.and_eq_true] at hw ⊢
  exact ⟨hw.1, hcs⟩

theorem wfX_withText (t : Str) (a : List (Str × Str)) (tx tl : Option Str)
    (cs : List XElem) (d : Str) (hw : wfX (.mk t a tx tl cs) = true)
    (hd1 : d ≠ []) (hd2 : cleanText d = true) : wfX (.mk t a (some d) tl cs) = true := by
  rw [wfX] at hw ⊢
  simp only [Bool.and_eq_true] at hw ⊢
  refine ⟨⟨⟨hw.1.1.1, ?_⟩, hw.1.2⟩, hw.2⟩
  rw [wfOptText]
  simp [hd1, hd2]

theorem freshLi_wf (k : Str) (hk1 : k ≠ []) (hk2 : cleanText k = true) :
    wfX (freshLi k) = true := by
  rw [freshLi, wfX]
  simp only [Bool.and_eq_true]
  refine ⟨⟨⟨⟨by decide, by decide⟩, ?_⟩, by decide⟩, by decide⟩
  rw [wfOptText]
  simp [hk1, hk2]

theorem xdefaultLi_wf (d : Str) (hd1 : d ≠ []) (hd2 : cleanText d = true) :
    wfX (xdefaultLi d) = true := by
  rw [xdefaultLi, wfX]
  simp only [Bool.and_eq_true]
  refine ⟨⟨⟨⟨by decide, by decide⟩, ?_⟩, by decide⟩, by decide⟩
  rw [wfOptText]
  simp [hd1, hd2]

theorem editXdefaultLi_wf (d : Str) (hd1 : d ≠ []) (hd2 : cleanText d = true) :
    ∀ (lis lis' : List XElem) (b : Bool),
    editXdefaultLi d lis = some (lis', b) → wfXList lis = true → wfXList lis' = true
  | [], _, _ => by
    intro h _
    cases h
  | li :: rest, lis', b => by
    intro h hw
    rw [wfXList, Bool.and_eq_true] at hw
    rw [editXdefaultLi] at h
    split at h
    · split at h
      · cases h
        rw [wfXList, Bool.and_eq_true]
        exact hw
      · cases h
        rw [wfXList, Bool.and_eq_true]
        refine ⟨?_, hw.2⟩
        obtain ⟨lt, la, ltx, ltl, lcs⟩ := li
        exact wfX_withText lt la ltx ltl lcs d hw.1 hd1 hd2
    · rcases h2 : editXdefaultLi d rest with _ | ⟨rest', b2⟩
      · rw [h2] at h
        cases h
      · rw [h2] at h
        cases h
        rw [wfXList, Bool.and_eq_true]
        exact ⟨hw.1, editXdefaultLi_wf d hd1 hd2 rest _ _ h2 hw.2⟩

theorem editFirstChild_wf {β : Type} (p : XElem → Bool) (f : XElem → XElem × β) :
    ∀ (cs cs' : List XElem) (b : β),
    editFirstChild p f cs = some (cs', b) → wfXList cs = true →
    (∀ x, wfX x = true → p x = true → wfX (f x).1 = true) → wfXList cs' = true
  | [], _, _ => by
    intro h _ _
    cases h
  | c :: cs, cs', b => by
    intro h hw hf
    rw [wfXList, Bool.and_eq_true] at hw
    rw [editFirstChild] at h
    split at h
    · next hp =>
      cases h
      rw [wfXList, Bool.and_eq_true]
      exact ⟨hf c hw.1 hp, hw.2⟩
    · rcases h2 : editFirstChild p f cs with _ | ⟨cs2, b2⟩
      · rw [h2] at h
        cases h
      · rw [h2] at h
        cases h
        rw [wfXList, Bool.and_eq_true]
        exact ⟨hw.1, editFirstChild_wf p f cs _ _ h2 hw.2 hf⟩

mutual

theorem editFirstPre_wf {β : Type} (p : XElem → Bool) (f : XElem → XElem × β) :
    ∀ (t : XElem) (t' : XElem) (b : β),
    editFirstPre p f t = some (t', b) → wfX t = true →
    (∀ x, wfX x = true → p x = true → wfX (f x).1 = true) → wfX t' = true
  | .mk tg a tx tl cs, t', b => by
    intro h hw hf
    rw [editFirstPre] at h
    split at h
    · next hp =>
      have : (f (.mk tg a tx tl cs)).1 = t' := by
        rw [show f (.mk tg a tx tl cs) = ((f (.mk tg a tx tl cs)).1,
            (f (.mk tg a tx tl cs)).2) from rfl] at h
        cases h
        rfl
      rw [← this]
      exact hf _ hw hp
    · rcases h2 : editFirstPreList p f cs with _ | ⟨cs2, b2⟩
      · rw [h2] at h
        cases h
      · rw [h2] at h
        cases h
        exact wfX_withChildren tg a tx tl cs _ hw
          (editFirstPreList_wf p f cs _ _ h2 ((wfX_spec tg a tx tl cs hw).2.2.2.2) hf)

theorem editFirstPreList_wf {β : Type} (p : XElem → Bool) (f : XElem → XElem × β) :
    ∀ (cs : List XElem) (cs' : List XElem) (b : β),
    editFirstPreList p f cs = some (cs', b) → wfXList cs = true →
    (∀ x, wfX x = true → p x = true → wfX (f x).1 = true) → wfXList cs' = true
  | [], _, _ => by
    intro h _ _
    cases h
  | c :: cs, cs', b => by
    intro h hw hf
    rw [wfXList, Bool.and_eq_true] at hw
    rw [editFirstPreList] at h
    rcases h2 : editFirstPre p f c with _ | ⟨c2, b2⟩
    · rw [h2] at h
      rcases h3 : editFirstPreList p f cs with _ | ⟨cs2, b3⟩
      · rw [h3] at h
        cases h
      · rw [h3] at h
        cases h
        rw [wfXList, Bool.and_eq_true]
        exact ⟨hw.1, editFirstPreList_wf p f cs _ _ h3 hw.2 hf⟩
    · rw [h2] at h
      cases h
      rw [wfXList, Bool.and_eq_true]
      exact ⟨editFirstPre_wf p f c _ _ h2 hw.1 hf, hw.2⟩

end

theorem bagInsertLi_wf (k : Str) (hk1 : k ≠ []) (hk2 : cleanText k = true)
    (bag : XElem) (hw : wfX bag = true) : wfX (bagInsertLi k bag).1 = true := by
  obtain ⟨t, a, tx, tl, cs⟩ := bag
  rw [bagInsertLi]
  split
  · exact hw
  · dsimp only
    refine wfX_withChildren t a tx tl cs _ hw ?_
    rw [wfXList_append]
    simp only [Bool.and_eq_true]
    refine ⟨(wfX_spec t a tx tl cs hw).2.2.2.2, ?_⟩
    rw [wfXList, Bool.and_eq_true]
    exact ⟨freshLi_wf k hk1 hk2, rfl⟩

theorem subjectEnsure_wf (k : Str) (hk1 : k ≠ []) (hk2 : cleanText k = true)
    (e : XElem) (hw : wfX e = true) : wfX (subjectEnsure k e).1 = true := by
  obtain ⟨t, a, tx, tl, cs⟩ := e
  rw [subjectEnsure]
  rcases h : editFirstChild (fun ch => ch.tag = tagBag) (bagInsertLi k)
      (XElem.mk t a tx tl cs).children with _ | ⟨cs', b⟩
  · dsimp only
    refine wfX_withChildren t a tx tl cs _ hw ?_
    rw [wfXList_append]
    simp only [Bool.and_eq_true]
    refine ⟨(wfX_spec t a tx tl cs hw).2.2.2.2, ?_⟩
    rw [wfXList, Bool.and_eq_true]
    refine ⟨?_, rfl⟩
    rw [wfX]
    simp only [Bool.and_eq_true]
    refine ⟨⟨⟨⟨by decide, by decide⟩, by decide⟩, by decide⟩, ?_⟩
    rw [wfXList, Bool.and_eq_true]
    exact ⟨freshLi_wf k hk1 hk2, rfl⟩
  · dsimp only
    exact wfX_withChildren t a tx tl cs _ hw
      (editFirstChild_wf _ _ _ _ _ h (wfX_spec t a tx tl cs hw).2.2.2.2
        (fun x hx _ => bagInsertLi_wf k hk1 hk2 x hx))

theorem ensureDcSubjectKeyword_wf (k : Str) (hk1 : k ≠ []) (hk2 : cleanText k = true)
    (e : XElem) (hw : wfX e = true) : wfX (ensureDcSubjectKeyword e k).1 = true := by
  obtain ⟨t, a, tx, tl, cs⟩ := e
  rw [ensureDcSubjectKeyword]
  rcases h : editFirstChild (fun ch => ch.tag = tagDcSubject) (subjectEnsure k)
      (XElem.mk t a tx tl cs).children with _ | ⟨cs', b⟩
  · dsimp only
    refine wfX_withChildren t a tx tl cs _ hw ?_
    rw [wfXList_append]
    simp only [Bool.and_eq_true]
    refine ⟨(wfX_spec t a tx tl cs hw).2.2.2.2, ?_⟩
    rw [wfXList, Bool.and_eq_true]
    refine ⟨?_, rfl⟩
    rw [wfX]
    simp only [Bool.and_eq_true]
    refine ⟨⟨⟨⟨by decide, by decide⟩, by decide⟩, by decide⟩, ?_⟩
    rw [wfXList, Bool.and_eq_true]
    refine ⟨?_, rfl⟩
    rw [wfX]
    simp only [Bool.and_eq_true]
    refine ⟨⟨⟨⟨by decide, by decide⟩, by decide⟩, by decide⟩, ?_⟩
    rw [wfXList, Bool.and_eq_true]
    exact ⟨freshLi_wf k hk1 hk2, rfl⟩
  · dsimp only
    exact wfX_withChildren t a tx tl cs _ hw
      (editFirstChild_wf _ _ _ _ _ h (wfX_spec t a tx tl cs hw).2.2.2.2
        (fun x hx _ => subjectEnsure_wf k hk1 hk2 x hx))

theorem altEnsureXdefault_wf (d : Str) (hd1 : d ≠ []) (hd2 : cleanText d = true)
    (e : XElem) (hw : wfX e = true) : wfX (altEnsureXdefault d e).1 = true := by
  obtain ⟨t, a, tx, tl, cs⟩ := e
  rw [altEnsureXdefault]
  rcases h : editXdefaultLi d (XElem.mk t a tx tl cs).children with _ | ⟨cs', b⟩
  · dsimp only
    refine wfX_withChildren t a tx tl cs _ hw ?_
    rw [wfXList_append]
    simp only [Bool.and_eq_true]
    refine ⟨(wfX_spec t a tx tl cs hw).2.2.2.2, ?_⟩
    rw [wfXList, Bool.and_eq_true]
    exact ⟨xdefaultLi_wf d hd1 hd2, rfl⟩
  · dsimp only
    exact wfX_withChildren t a tx tl cs _ hw
      (editXdefaultLi_wf d hd1 hd2 _ _ _ h (wfX_spec t a tx tl cs hw).2.2.2.2)

theorem descriptionEnsure_wf (d : Str) (hd1 : d ≠ []) (hd2 : cleanText d = true)
    (e : XElem) (hw : wfX e = true) : wfX (descriptionEnsure d e).1 = true := by
  obtain ⟨t, a, tx, tl, cs⟩ := e
  rw [descriptionEnsure]
  rcases h : editFirstChild (fun ch => ch.tag = tagAlt) (altEnsureXdefault d)
      (XElem.mk t a tx tl cs).children with _ | ⟨cs', b⟩
  · dsimp only
    refine wfX_withChildren t a tx tl cs _ hw ?_
    rw [wfXList_append]
    simp only [Bool.and_eq_true]
    refine ⟨(wfX_spec t a tx tl cs hw).2.2.2.2, ?_⟩
    rw [wfXList, Bool.and_eq_true]
    refine ⟨?_, rfl⟩
    rw [wfX]
    simp only [Bool.and_eq_true]
    refine ⟨⟨⟨⟨by decide, by decide⟩, by decide⟩, by decide⟩, ?_⟩
    rw [wfXList, Bool.and_eq_true]
    exact ⟨xdefaultLi_wf d hd1 hd2, rfl⟩
  · dsimp only
    exact wfX_withChildren t a tx tl cs _ hw
      (editFirstChild_wf _ _ _ _ _ h (wfX_spec t a tx tl cs hw).2.2.2.2
        (fun x hx _ => altEnsureXdefault_wf d hd1 hd2 x hx))

theorem ensureDcDescriptionXdefault_wf (d : Str) (hd1 : d ≠ []) (hd2 : cleanText d = true)
    (e : XElem) (hw : wfX e = true) : wfX (ensureDcDescriptionXdefault e d).1 = true := by
  obtain ⟨t, a, tx, tl, cs⟩ := e
  rw [ensureDcDescriptionXdefault]
  rcases h : editFirstChild (fun ch => ch.tag = tagDcDescription) (descriptionEnsure d)
      (XElem.mk t a tx tl cs).children with _ | ⟨cs', b⟩
  · dsimp only
    refine wfX_withChildren t a tx tl cs _ hw ?_
    rw [wfXList_append]
    simp only [Bool.and_eq_true]
    refine ⟨(wfX_spec t a tx tl cs hw).2.2.2.2, ?_⟩
    rw [wfXList, Bool.and_eq_true]
    refine ⟨?_, rfl⟩
    rw [wfX]
    simp only [Bool.and_eq_true]
    refine ⟨⟨⟨⟨by decide, by decide⟩, by decide⟩, by decide⟩, ?_⟩
    rw [wfXList, Bool.and_eq_true]
    refine ⟨?_, rfl⟩
    rw [wfX]
    simp only [Bool.and_eq_true]
    refine ⟨⟨⟨⟨by decide, by decide⟩, by decide⟩, by decide⟩, ?_⟩
    rw [wfXList, Bool.and_eq_true]
    exact ⟨xdefaultLi_wf d hd1 hd2, rfl⟩
  · dsimp only
    exact wfX_withChildren t a tx tl cs _ hw
      (editFirstChild_wf _ _ _ _ _ h (wfX_spec t a tx tl cs hw).2.2.2.2
        (fun x hx _ => descriptionEnsure_wf d hd1 hd2 x hx))

theorem descApply_fst (k d : Str) (e : XElem) :
    (descApply k d e).1 = (ensureDcDescriptionXdefault (ensureDcSubjectKeyword e k).1 d).1 := rfl

theorem descApply_wf (k d : Str) (hk1 : k ≠ []) (hk2 : cleanText k = true)
    (hd1 : d ≠ []) (hd2 : cleanText d = true)
    (e : XElem) (hw : wfX e = true) : wfX (descApply k d e).1 = true := by
  rw [descApply_fst]
  exact ensureDcDescriptionXdefault_wf d hd1 hd2 _
    (ensureDcSubjectKeyword_wf k hk1 hk2 e hw)

theorem rdfApply_wf (k d : Str) (hk1 : k ≠ []) (hk2 : cleanText k = true)
    (hd1 : d ≠ []) (hd2 : cleanText d = true)
    (e : XElem) (hw : wfX e = true) : wfX (rdfApply k d e).1 = true := by
  obtain ⟨t, a, tx, tl, cs⟩ := e
  rw [rdfApply]
  rcases h : editFirstChild (fun ch => ch.tag = tagDescription) (descApply k d)
      (XElem.mk t a tx tl cs).children with _ | ⟨cs', b⟩
  · dsimp only
    refine wfX_withChildren t a tx tl cs _ hw ?_
    rw [wfXList_append]
    simp only [Bool.and_eq_true]
    refine ⟨(wfX_spec t a tx tl cs hw).2.2.2.2, ?_⟩
    rw [wfXList, Bool.and_eq_true]
    exact ⟨descApply_wf k d hk1 hk2 hd1 hd2 _ (by decide), rfl⟩
  · dsimp only
    exact wfX_withChildren t a tx tl cs _ hw
      (editFirstChild_wf _ _ _ _ _ h (wfX_spec t a tx tl cs hw).2.2.2.2
        (fun x hx _ => descApply_wf k d hk1 hk2 hd1 hd2 x hx))

theorem updateXmpTree_wf (k d : Str) (hk1 : k ≠ []) (hk2 : cleanText k = true)
    (hd1 : d ≠ []) (hd2 : cleanText d = true)
    (root : XElem) (hw : wfX root = true) : wfX (updateXmpTree k d root).1 = true := by
  rw [updateXmpTree]
  rcases h : editFirstPre (fun e => e.tag = tagRDF) (rdfApply k d) root with _ | ⟨r2, b⟩
  · dsimp only
    obtain ⟨t, a, tx, tl, cs⟩ := root
    refine wfX_withChildren t a tx tl cs _ hw ?_
    rw [wfXList_append]
    simp only [Bool.and_eq_true]
    refine ⟨(wfX_spec t a tx tl cs hw).2.2.2.2, ?_⟩
    rw [wfXList, Bool.and_eq_true]
    refine ⟨?_, rfl⟩
    rw [wfX]
    simp only [Bool.and_eq_true]
    refine ⟨⟨⟨⟨by decide, by decide⟩, by decide⟩, by decide⟩, ?_⟩
    rw [wfXList, Bool.and_eq_true]
    exact ⟨descApply_wf k d hk1 hk2 hd1 hd2 _ (by decide), rfl⟩
  · dsimp only
    exact editFirstPre_wf _ _ _ _ _ h hw
      (fun x hx _ => rdfApply_wf k d hk1 hk2 hd1 hd2 x hx)

/-! ## Round trip, step 4: a second application of the update is a no-op -/

theorem withChildren_children (e : XElem) : (e.withChildren e.children) = e := by
  obtain ⟨t, a, tx, tl, cs⟩ := e
  rfl

theorem withChildren_children_eq (e : XElem) (cs : List XElem) :
    (e.withChildren cs).children = cs := by
  obtain ⟨t, a, tx, tl, cs0⟩ := e
  rfl

theorem withChildren_withChildren (e : XElem) (cs cs2 : List XElem) :
    (e.withChildren cs).withChildren cs2 = e.withChildren cs2 := by
  obtain ⟨t, a, tx, tl, cs0⟩ := e
  rfl

theorem withChildren_tag (e : XElem) (cs : List XElem) :
    (e.withChildren cs).tag = e.tag := by
  obtain ⟨t, a, tx, tl, cs0⟩ := e
  rfl

theorem editFirstChild_stable {β γ : Type} (p : XElem → Bool) (f : XElem → XElem × β)
    (g : XElem → XElem × γ) (c0 : γ)
    (hgf : ∀ x, p x = true → g (f x).1 = ((f x).1, c0))
    (hfp : ∀ x, p x = true → p (f x).1 = true) :
    ∀ (cs cs' : List XElem) (b : β), editFirstChild p f cs = some (cs', b) →
    editFirstChild p g cs' = some (cs', c0)
  | [], _, _ => by
    intro h
    cases h
  | c :: cs, cs', b => by
    intro h
    rw [editFirstChild] at h
    split at h
    · next hp =>
      cases h
      rw [editFirstChild, if_pos (hfp c hp), hgf c hp]
    · next hp =>
      rcases h2 : editFirstChild p f cs with _ | ⟨cs2, b2⟩
      · rw [h2] at h
        cases h
      · rw [h2] at h
        cases h
        rw [editFirstChild, if_neg (by simpa using hp),
            editFirstChild_stable p f g c0 hgf hfp cs _ _ h2]

theorem editFirstChild_none_pred {β : Type} (p : XElem → Bool) (f : XElem → XElem × β) :
    ∀ (cs : List XElem), editFirstChild p f cs = none → ∀ c ∈ cs, p c = false
  | [] => by
    intro _ c hc
    cases hc
  | c :: cs => by
    intro h c2 hc2
    rw [editFirstChild] at h
    split at h
    · cases h
    · next hp =>
      rcases List.mem_cons.mp hc2 with hc2 | hc2
      · rw [hc2]
        simpa using hp
      · rcases h2 : editFirstChild p f cs with _ | ⟨cs2, b2⟩
        · exact editFirstChild_none_pred p f cs h2 c2 hc2
        · rw [h2] at h
          cases h

theorem editFirstChild_all_false {γ : Type} (p : XElem → Bool) (g : XElem → XElem × γ) :
    ∀ (cs : List XElem), (∀ c ∈ cs, p c = false) → editFirstChild p g cs = none
  | [] => by
    intro _
    rfl
  | c :: cs => by
    intro h
    rw [editFirstChild, if_neg (by simp [h c (by simp)]),
        editFirstChild_all_false p g cs (fun c2 hc2 => h c2 (by simp [hc2]))]

theorem editFirstChild_append {γ : Type} (p : XElem → Bool) (g : XElem → XElem × γ)
    (c0 : γ) (x : XElem) (hx : p x = true) (hgx : g x = (x, c0)) :
    ∀ (cs : List XElem), (∀ c ∈ cs, p c = false) →
    editFirstChild p g (cs ++ [x]) = some (cs ++ [x], c0)
  | [] => by
    intro _
    rw [List.nil_append, editFirstChild, if_pos hx, hgx]
  | c :: cs => by
    intro h
    rw [List.cons_append, editFirstChild, if_neg (by simp [h c (by simp)]),
        editFirstChild_append p g c0 x hx hgx cs (fun c2 hc2 => h c2 (by simp [hc2]))]

theorem liKeywordMatch_freshLi (k : Str) (hk : pyStrip k = k) :
    liKeywordMatch k (freshLi k) = true := by
  rw [liKeywordMatch, freshLi]
  simp only [Bool.and_eq_true, decide_eq_true_eq]
  exact ⟨rfl, hk⟩

theorem bagInsertLi_tag (k : Str) (bag : XElem) : (bagInsertLi k bag).1.tag = bag.tag := by
  rw [bagInsertLi]
  split
  · rfl
  · exact withChildren_tag bag _

theorem bagInsertLi_stable (k : Str) (hk : pyStrip k = k) (bag : XElem) :
    bagInsertLi k (bagInsertLi k bag).1 = ((bagInsertLi k bag).1, false) := by
  by_cases hany : bag.children.any (liKeywordMatch k) = true
  · have h1 : bagInsertLi k bag = (bag, false) := by
      rw [bagInsertLi, if_pos hany]
    rw [h1]
    exact h1
  · have h1 : bagInsertLi k bag = (bag.withChildren (bag.children ++ [freshLi k]), true) := by
      rw [bagInsertLi, if_neg hany]
    rw [h1]
    show bagInsertLi k (bag.withChildren (bag.children ++ [freshLi k]))
      = (bag.withChildren (bag.children ++ [freshLi k]), false)
    rw [bagInsertLi, if_pos (by
      rw [withChildren_children_eq, List.any_append, List.any_cons]
      simp only [Bool.or_eq_true]
      exact Or.inr (Or.inl (liKeywordMatch_freshLi k hk)))]

theorem newBag_stable (k : Str) (hk : pyStrip k = k) :
    bagInsertLi k (.mk tagBag [] none none [freshLi k])
      = ((.mk tagBag [] none none [freshLi k] : XElem), false) := by
  rw [bagInsertLi, if_pos (by
    rw [show XElem.children (.mk tagBag [] none none [freshLi k]) = [freshLi k] from rfl]
    rw [List.any_cons]
    simp only [Bool.or_eq_true]
    exact Or.inl (liKeywordMatch_freshLi k hk))]

theorem subjectEnsure_tag (k : Str) (s : XElem) : (subjectEnsure k s).1.tag = s.tag := by
  rw [subjectEnsure]
  rcases h : editFirstChild (fun ch => ch.tag = tagBag) (bagInsertLi k) s.children
    with _ | ⟨cs', b⟩
  · exact withChildren_tag s _
  · exact withChildren_tag s _

theorem subjectEnsure_stable (k : Str) (hk : pyStrip k = k) (s : XElem) :
    subjectEnsure k (subjectEnsure k s).1 = ((subjectEnsure k s).1, false) := by
  rcases h : editFirstChild (fun ch => ch.tag = tagBag) (bagInsertLi k) s.children
    with _ | ⟨cs', b⟩
  · have h1 : subjectEnsure k s
        = (s.withChildren (s.children ++ [.mk tagBag [] none none [freshLi k]]), true) := by
      rw [subjectEnsure, h]
    rw [h1]
    show subjectEnsure k (s.withChildren (s.children ++ [.mk tagBag [] none none [freshLi k]]))
      = (s.withChildren (s.children ++ [.mk tagBag [] none none [freshLi k]]), false)
    rw [subjectEnsure, withChildren_children_eq,
        editFirstChild_append _ (bagInsertLi k) false _ (by simp [XElem.tag]) (newBag_stable k hk)
          s.children (editFirstChild_none_pred _ _ s.children h)]
    dsimp only
    rw [withChildren_withChildren]
  · have h1 : subjectEnsure k s = (s.withChildren cs', b) := by
      rw [subjectEnsure, h]
    rw [h1]
    show subjectEnsure k (s.withChildren cs') = (s.withChildren cs', false)
    rw [subjectEnsure, withChildren_children_eq,
        editFirstChild_stable _ (bagInsertLi k) (bagInsertLi k) false
          (fun x _ => bagInsertLi_stable k hk x)
          (fun x hx => by rw [bagInsertLi_tag]; exact hx) s.children cs' b h]
    dsimp only
    rw [withChildren_withChildren]

theorem newSubj_stable (k : Str) (hk : pyStrip k = k) :
    subjectEnsure k (.mk tagDcSubject [] none none [.mk tagBag [] none none [freshLi k]])
      = ((.mk tagDcSubject [] none none [.mk tagBag [] none none [freshLi k]] : XElem),
         false) := by
  rw [subjectEnsure]
  rw [show XElem.children (.mk tagDcSubject [] none none [.mk tagBag [] none none [freshLi k]])
      = [.mk tagBag [] none none [freshLi k]] from rfl]
  rw [editFirstChild, if_pos (by simp [XElem.tag]), newBag_stable k hk]
  rfl

theorem ensureDcSubjectKeyword_tag (k : Str) (e : XElem) :
    (ensureDcSubjectKeyword e k).1.tag = e.tag := by
  rw [ensureDcSubjectKeyword]
  rcases h : editFirstChild (fun ch => ch.tag = tagDcSubject) (subjectEnsure k) e.children
    with _ | ⟨cs', b⟩
  · exact withChildren_tag e _
  · exact withChildren_tag e _

theorem ensureDcSubjectKeyword_stable (k : Str) (hk : pyStrip k = k) (e : XElem) :
    ensureDcSubjectKeyword (ensureDcSubjectKeyword e k).1 k
      = ((ensureDcSubjectKeyword e k).1, false) := by
  rcases h : editFirstChild (fun ch => ch.tag = tagDcSubject) (subjectEnsure k) e.children
    with _ | ⟨cs', b⟩
  · have h1 : ensureDcSubjectKeyword e k
        = (e.withChildren (e.children ++
            [.mk tagDcSubject [] none none [.mk tagBag [] none none [freshLi k]]]), true) := by
      rw [ensureDcSubjectKeyword, h]
    rw [h1]
    show ensureDcSubjectKeyword (e.withChildren (e.children ++
        [.mk tagDcSubject [] none none [.mk tagBag [] none none [freshLi k]]])) k
      = (e.withChildren (e.children ++
          [.mk tagDcSubject [] none none [.mk tagBag [] none none [freshLi k]]]), false)
    rw [ensureDcSubjectKeyword, withChildren_children_eq,
        editFirstChild_append _ (subjectEnsure k) false _ (by simp [XElem.tag]) (newSubj_stable k hk)
          e.children (editFirstChild_none_pred _ _ e.children h)]
    dsimp only
    rw [withChildren_withChildren]
  · have h1 : ensureDcSubjectKeyword e k = (e.withChildren cs', b) := by
      rw [ensureDcSubjectKeyword, h]
    rw [h1]
    show ensureDcSubjectKeyword (e.withChildren cs') k = (e.withChildren cs', false)
    rw [ensureDcSubjectKeyword, withChildren_children_eq,
        editFirstChild_stable _ (subjectEnsure k) (subjectEnsure k) false
          (fun x _ => subjectEnsure_stable k hk x)
          (fun x hx => by rw [subjectEnsure_tag]; exact hx) e.children cs' b h]
    dsimp only
    rw [withChildren_withChildren]

theorem xdefaultLangMatch_withText (li : XElem) (tx : Option Str) :
    xdefaultLangMatch (li.withText tx) = xdefaultLangMatch li := by
  obtain ⟨t, a, tx0, tl, cs⟩ := li
  rfl

theorem xdefaultLangMatch_xdefaultLi (d : Str) : xdefaultLangMatch (xdefaultLi d) = true := rfl

theorem editXdefaultLi_stable (d : Str) : ∀ (lis lis' : List XElem) (b : Bool),
    editXdefaultLi d lis = some (lis', b) → editXdefaultLi d lis' = some (lis', false)
  | [], _, _ => by
    intro h
    cases h
  | li :: rest, lis', b => by
    intro h
    rw [editXdefaultLi] at h
    split at h
    · next hm =>
      split at h
      · next he =>
        cases h
        rw [editXdefaultLi, if_pos hm, if_pos he]
      · cases h
        rw [editXdefaultLi, if_pos (by rw [xdefaultLangMatch_withText]; exact hm),
            if_pos (by
              obtain ⟨t, a, tx0, tl, cs⟩ := li
              rfl)]
    · next hm =>
      rcases h2 : editXdefaultLi d rest with _ | ⟨rest2, b2⟩
      · rw [h2] at h
        cases h
      · rw [h2] at h
        cases h
        rw [editXdefaultLi, if_neg hm, editXdefaultLi_stable d rest _ _ h2]

theorem editXdefaultLi_none_pred (d : Str) : ∀ (lis : List XElem),
    editXdefaultLi d lis = none → ∀ li ∈ lis, xdefaultLangMatch li = false
  | [] => by
    intro _ li hli
    cases hli
  | li :: rest => by
    intro h li2 hli2
    rw [editXdefaultLi] at h
    split at h
    · split at h
      · cases h
      · cases h
    · next hm =>
      rcases List.mem_cons.mp hli2 with hc | hc
      · rw [hc]
        simpa using hm
      · rcases h2 : editXdefaultLi d rest with _ | ⟨rest2, b2⟩
        · exact editXdefaultLi_none_pred d rest h2 li2 hc
        · rw [h2] at h
          cases h

theorem editXdefaultLi_append (d : Str) : ∀ (lis : List XElem),
    (∀ li ∈ lis, xdefaultLangMatch li = false) →
    editXdefaultLi d (lis ++ [xdefaultLi d]) = some (lis ++ [xdefaultLi d], false)
  | [] => by
    intro _
    rw [List.nil_append, editXdefaultLi, if_pos (xdefaultLangMatch_xdefaultLi d),
        if_pos (show optOrEmpty (xdefaultLi d).text = d from rfl)]
  | li :: rest => by
    intro h
    rw [List.cons_append, editXdefaultLi, if_neg (by simp [h li (by simp)]),
        editXdefaultLi_append d rest (fun l hl => h l (by simp [hl]))]

theorem altEnsureXdefault_tag (d : Str) (alt : XElem) :
    (altEnsureXdefault d alt).1.tag = alt.tag := by
  rw [altEnsureXdefault]
  rcases h : editXdefaultLi d alt.children with _ | ⟨cs', b⟩
  · exact withChildren_tag alt _
  · exact withChildren_tag alt _

theorem altEnsureXdefault_stable (d : Str) (alt : XElem) :
    altEnsureXdefault d (altEnsureXdefault d alt).1 = ((altEnsureXdefault d alt).1, false) := by
  rcases h : editXdefaultLi d alt.children with _ | ⟨cs', b⟩
  · have h1 : altEnsureXdefault d alt
        = (alt.withChildren (alt.children ++ [xdefaultLi d]), true) := by
      rw [altEnsureXdefault, h]
    rw [h1]
    show altEnsureXdefault d (alt.withChildren (alt.children ++ [xdefaultLi d]))
      = (alt.withChildren (alt.children ++ [xdefaultLi d]), false)
    rw [altEnsureXdefault, withChildren_children_eq,
        editXdefaultLi_append d alt.children (editXdefaultLi_none_pred d alt.children h)]
    dsimp only
    rw [withChildren_withChildren]
  · have h1 : altEnsureXdefault d alt = (alt.withChildren cs', b) := by
      rw [altEnsureXdefault, h]
    rw [h1]
    show altEnsureXdefault d (alt.withChildren cs') = (alt.withChildren cs', false)
    rw [altEnsureXdefault, withChildren_children_eq, editXdefaultLi_stable d alt.children _ _ h]
    dsimp only
    rw [withChildren_withChildren]

theorem newAlt_stable (d : Str) :
    altEnsureXdefault d (.mk tagAlt [] none none [xdefaultLi d])
      = ((.mk tagAlt [] none none [xdefaultLi d] : XElem), false) := by
  rw [altEnsureXdefault]
  rw [show XElem.children (.mk tagAlt [] none none [xdefaultLi d]) = [xdefaultLi d] from rfl]
  rw [editXdefaultLi, if_pos (xdefaultLangMatch_xdefaultLi d),
      if_pos (show optOrEmpty (xdefaultLi d).text = d from rfl)]
  rfl

theorem descriptionEnsure_tag (d : Str) (e : XElem) :
    (descriptionEnsure d e).1.tag = e.tag := by
  rw [descriptionEnsure]
  rcases h : editFirstChild (fun ch => ch.tag = tagAlt) (altEnsureXdefault d) e.children
    with _ | ⟨cs', b⟩
  · exact withChildren_tag e _
  · exact withChildren_tag e _

theorem descriptionEnsure_stable (d : Str) (e : XElem) :
    descriptionEnsure d (descriptionEnsure d e).1 = ((descriptionEnsure d e).1, false) := by
  rcases h : editFirstChild (fun ch => ch.tag = tagAlt) (altEnsureXdefault d) e.children
    with _ | ⟨cs', b⟩
  · have h1 : descriptionEnsure d e
        = (e.withChildren (e.children ++ [.mk tagAlt [] none none [xdefaultLi d]]), true) := by
      rw [descriptionEnsure, h]
    rw [h1]
    show descriptionEnsure d (e.withChildren (e.children ++
        [.mk tagAlt [] none none [xdefaultLi d]]))
      = (e.withChildren (e.children ++ [.mk tagAlt [] none none [xdefaultLi d]]), false)
    rw [descriptionEnsure, withChildren_children_eq,
        editFirstChild_append _ (altEnsureXdefault d) false _ (by simp [XElem.tag])
          (newAlt_stable d) e.children (editFirstChild_none_pred _ _ e.children h)]
    dsimp only
    rw [withChildren_withChildren]
  · have h1 : descriptionEnsure d e = (e.withChildren cs', b) := by
      rw [descriptionEnsure, h]
    rw [h1]
    show descriptionEnsure d (e.withChildren cs') = (e.withChildren cs', false)
    rw [descriptionEnsure, withChildren_children_eq,
        editFirstChild_stable _ (altEnsureXdefault d) (altEnsureXdefault d) false
          (fun x _ => altEnsureXdefault_stable d x)
          (fun x hx => by rw [altEnsureXdefault_tag]; exact hx) e.children cs' b h]
    dsimp only
    rw [withChildren_withChildren]

theorem newDcDesc_stable (d : Str) :
    descriptionEnsure d (.mk tagDcDescription [] none none [.mk tagAlt [] none none [xdefaultLi d]])
      = ((.mk tagDcDescription [] none none [.mk tagAlt [] none none [xdefaultLi d]] : XElem),
         false) := by
  rw [descriptionEnsure]
  rw [show XElem.children
        (.mk tagDcDescription [] none none [.mk tagAlt [] none none [xdefaultLi d]])
      = [.mk tagAlt [] none none [xdefaultLi d]] from rfl]
  rw [editFirstChild, if_pos (by simp [XElem.tag]), newAlt_stable d]
  rfl

theorem ensureDcDescriptionXdefault_tag (d : Str) (e : XElem) :
    (ensureDcDescriptionXdefault e d).1.tag = e.tag := by
  rw [ensureDcDescriptionXdefault]
  rcases h : editFirstChild (fun ch => ch.tag = tagDcDescription) (descriptionEnsure d)
    e.children with _ | ⟨cs', b⟩
  · exact withChildren_tag e _
  · exact withChildren_tag e _

theorem ensureDcDescriptionXdefault_stable (d : Str) (e : XElem) :
    ensureDcDescriptionXdefault (ensureDcDescriptionXdefault e d).1 d
      = ((ensureDcDescriptionXdefault e d).1, false) := by
  rcases h : editFirstChild (fun ch => ch.tag = tagDcDescription) (descriptionEnsure d)
    e.children with _ | ⟨cs', b⟩
  · have h1 : ensureDcDescriptionXdefault e d
        = (e.withChildren (e.children ++
            [.mk tagDcDescription [] none none [.mk tagAlt [] none none [xdefaultLi d]]]),
           true) := by
      rw [ensureDcDescriptionXdefault, h]
    rw [h1]
    show ensureDcDescriptionXdefault (e.withChildren (e.children ++
        [.mk tagDcDescription [] none none [.mk tagAlt [] none none [xdefaultLi d]]])) d
      = (e.withChildren (e.children ++
          [.mk tagDcDescription [] none none [.mk tagAlt [] none none [xdefaultLi d]]]), false)
    rw [ensureDcDescriptionXdefault, withChildren_children_eq,
        editFirstChild_append _ (descriptionEnsure d) false _ (by simp [XElem.tag])
          (newDcDesc_stable d) e.children (editFirstChild_none_pred _ _ e.children h)]
    dsimp only
    rw [withChildren_withChildren]
  · have h1 : ensureDcDescriptionXdefault e d = (e.withChildren cs', b) := by
      rw [ensureDcDescriptionXdefault, h]
    rw [h1]
    show ensureDcDescriptionXdefault (e.withChildren cs') d = (e.withChildren cs', false)
    rw [ensureDcDescriptionXdefault, withChildren_children_eq,
        editFirstChild_stable _ (descriptionEnsure d) (descriptionEnsure d) false
          (fun x _ => descriptionEnsure_stable d x)
          (fun x hx => by rw [descriptionEnsure_tag]; exact hx) e.children cs' b h]
    dsimp only
    rw [withChildren_withChildren]

theorem editFirstChild_extend {γ : Type} (p : XElem → Bool) (g : XElem → XElem × γ) :
    ∀ (cs cs' : List XElem) (c : γ) (ys : List XElem),
    editFirstChild p g cs = some (cs', c) →
    editFirstChild p g (cs ++ ys) = some (cs' ++ ys, c)
  | [], _, _, _ => by
    intro h
    cases h
  | c :: cs, cs', cv, ys => by
    intro h
    rw [editFirstChild] at h
    split at h
    · next hp =>
      cases h
      rw [List.cons_append, editFirstChild, if_pos hp]
      rfl
    · next hp =>
      rcases h2 : editFirstChild p g cs with _ | ⟨cs2, b2⟩
      · rw [h2] at h
        cases h
      · rw [h2] at h
        cases h
        rw [List.cons_append, editFirstChild, if_neg hp,
            editFirstChild_extend p g cs _ _ ys h2]
        rfl

theorem editFirstChild_frame {γ β : Type} (p q : XElem → Bool) (g : XElem → XElem × γ)
    (f2 : XElem → XElem × β) (c0 : γ)
    (hpq : ∀ x, q x = true → p x = false)
    (hf2p : ∀ x, p (f2 x).1 = p x) :
    ∀ (cs cs2 : List XElem) (b : β),
    editFirstChild p g cs = some (cs, c0) →
    editFirstChild q f2 cs = some (cs2, b) →
    editFirstChild p g cs2 = some (cs2, c0)
  | [], _, _ => by
    intro _ hq
    cases hq
  | c :: cs, cs2, b => by
    intro hP hQ
    rw [editFirstChild] at hP hQ
    split at hQ
    · next hqc =>
      cases hQ
      have hpc : p c = false := hpq c hqc
      rw [if_neg (by simp [hpc])] at hP
      rcases h2 : editFirstChild p g cs with _ | ⟨cs3, b3⟩
      · rw [h2] at hP
        cases hP
      · rw [h2] at hP
        have hrest : editFirstChild p g cs = some (cs, c0) := by
          rw [h2]
          cases hP
          rfl
        rw [editFirstChild, if_neg (by simp [hf2p c, hpc]), hrest]
    · next hqc =>
      rcases hQ2 : editFirstChild q f2 cs with _ | ⟨cs3, b3⟩
      · rw [hQ2] at hQ
        cases hQ
      · rw [hQ2] at hQ
        cases hQ
        split at hP
        · next hpc =>
          have hP2 := hP
          rw [show g c = ((g c).1, (g c).2) from rfl] at hP2
          injection hP2 with hP3
          injection hP3 with hA hB
          injection hA with hh _
          rw [editFirstChild, if_pos hpc,
              show g c = (c, c0) from by
                rw [show g c = ((g c).1, (g c).2) from rfl, hh, hB]]
        · next hpc =>
          rcases h2 : editFirstChild p g cs with _ | ⟨cs4, b4⟩
          · rw [h2] at hP
            cases hP
          · rw [h2] at hP
            have hrest : editFirstChild p g cs = some (cs, c0) := by
              rw [h2]
              cases hP
              rfl
            rw [editFirstChild, if_neg hpc,
                editFirstChild_frame p q g f2 c0 hpq hf2p cs _ _ hrest hQ2]

theorem ensureDcSubjectKeyword_self_list (k : Str) (e : XElem)
    (h : ensureDcSubjectKeyword e k = (e, false)) :
    editFirstChild (fun ch => ch.tag = tagDcSubject) (subjectEnsure k) e.children
      = some (e.children, false) := by
  rw [ensureDcSubjectKeyword] at h
  rcases h2 : editFirstChild (fun ch => ch.tag = tagDcSubject) (subjectEnsure k) e.children
    with _ | ⟨cs', b⟩
  · rw [h2] at h
    dsimp only at h
    have := congrArg Prod.snd h
    simp at this
  · rw [h2] at h
    dsimp only at h
    have hb : b = false := by
      have := congrArg Prod.snd h
      simpa using this
    have hcs : cs' = e.children := by
      have h3 := congrArg Prod.fst h
      dsimp only at h3
      have h4 := congrArg XElem.children h3
      rw [withChildren_children_eq] at h4
      exact h4
    rw [hb, hcs]

theorem subjStable_after_desc (k d : Str) (e : XElem)
    (hS : ensureDcSubjectKeyword e k = (e, false)) :
    ensureDcSubjectKeyword (ensureDcDescriptionXdefault e d).1 k
      = ((ensureDcDescriptionXdefault e d).1, false) := by
  have hlist := ensureDcSubjectKeyword_self_list k e hS
  have hpq : ∀ x : XElem, (fun ch => ch.tag = tagDcDescription : XElem → Bool) x = true →
      (fun ch => ch.tag = tagDcSubject : XElem → Bool) x = false := by
    intro x hx
    simp only [decide_eq_true_eq] at hx
    simp only [decide_eq_false_iff_not]
    rw [hx]
    decide
  have hf2p : ∀ x : XElem, (fun ch => ch.tag = tagDcSubject : XElem → Bool)
      (descriptionEnsure d x).1 = (fun ch => ch.tag = tagDcSubject : XElem → Bool) x := by
    intro x
    simp only [descriptionEnsure_tag]
  rcases hD : editFirstChild (fun ch => ch.tag = tagDcDescription) (descriptionEnsure d)
    e.children with _ | ⟨cs2, b2⟩
  · have h1 : ensureDcDescriptionXdefault e d
        = (e.withChildren (e.children ++
            [.mk tagDcDescription [] none none [.mk tagAlt [] none none [xdefaultLi d]]]),
           true) := by
      rw [ensureDcDescriptionXdefault, hD]
    rw [h1]
    show ensureDcSubjectKeyword (e.withChildren (e.children ++
        [.mk tagDcDescription [] none none [.mk tagAlt [] none none [xdefaultLi d]]])) k
      = (e.withChildren (e.children ++
          [.mk tagDcDescription [] none none [.mk tagAlt [] none none [xdefaultLi d]]]), false)
    rw [ensureDcSubjectKeyword, withChildren_children_eq,
        editFirstChild_extend _ (subjectEnsure k) e.children e.children false _ hlist]
    dsimp only
    rw [withChildren_withChildren]
  · have h1 : ensureDcDescriptionXdefault e d = (e.withChildren cs2, b2) := by
      rw [ensureDcDescriptionXdefault, hD]
    rw [h1]
    show ensureDcSubjectKeyword (e.withChildren cs2) k = (e.withChildren cs2, false)
    rw [ensureDcSubjectKeyword, withChildren_children_eq,
        editFirstChild_frame _ _ (subjectEnsure k) (descriptionEnsure d) false hpq hf2p
          e.children cs2 b2 hlist hD]
    dsimp only
    rw [withChildren_withChildren]

theorem descApply_tag (k d : Str) (e : XElem) : (descApply k d e).1.tag = e.tag := by
  rw [descApply_fst, ensureDcDescriptionXdefault_tag, ensureDcSubjectKeyword_tag]

theorem descApply_stable (k d : Str) (hk : pyStrip k = k) (y : XElem) :
    descApply k d (descApply k d y).1 = ((descApply k d y).1, false, false) := by
  have hsubj : ensureDcSubjectKeyword (descApply k d y).1 k = ((descApply k d y).1, false) := by
    rw [descApply_fst]
    exact subjStable_after_desc k d (ensureDcSubjectKeyword y k).1
      (ensureDcSubjectKeyword_stable k hk y)
  have hdesc : ensureDcDescriptionXdefault (descApply k d y).1 d
      = ((descApply k d y).1, false) := by
    rw [descApply_fst]
    exact ensureDcDescriptionXdefault_stable d (ensureDcSubjectKeyword y k).1
  rw [descApply, hsubj]
  dsimp only
  rw [hdesc]

theorem rdfApply_tag (k d : Str) (r : XElem) : (rdfApply k d r).1.tag = r.tag := by
  rw [rdfApply]
  rcases h : editFirstChild (fun ch => ch.tag = tagDescription) (descApply k d) r.children
    with _ | ⟨cs', b⟩
  · exact withChildren_tag r _
  · exact withChildren_tag r _

theorem rdfApply_stable (k d : Str) (hk : pyStrip k = k) (y : XElem) :
    rdfApply k d (rdfApply k d y).1 = ((rdfApply k d y).1, false, false) := by
  have hgf : ∀ x : XElem, (fun ch => ch.tag = tagDescription : XElem → Bool) x = true →
      descApply k d (descApply k d x).1 = ((descApply k d x).1, (false, false)) := by
    intro x _
    exact descApply_stable k d hk x
  have hfp : ∀ x : XElem, (fun ch => ch.tag = tagDescription : XElem → Bool) x = true →
      (fun ch => ch.tag = tagDescription : XElem → Bool) (descApply k d x).1 = true := by
    intro x hx
    simp only [decide_eq_true_eq] at hx ⊢
    rw [descApply_tag, hx]
  rcases h : editFirstChild (fun ch => ch.tag = tagDescription) (descApply k d) y.children
    with _ | ⟨cs', b⟩
  · have h1 : rdfApply k d y
        = (y.withChildren (y.children ++
            [(descApply k d (.mk tagDescription [] none none [])).1]),
           (descApply k d (.mk tagDescription [] none none [])).2) := by
      rw [rdfApply, h]
    rw [h1]
    show rdfApply k d (y.withChildren (y.children ++
        [(descApply k d (.mk tagDescription [] none none [])).1]))
      = (y.withChildren (y.children ++
          [(descApply k d (.mk tagDescription [] none none [])).1]), false, false)
    have hx : (fun ch => ch.tag = tagDescription : XElem → Bool)
        (descApply k d (.mk tagDescription [] none none [])).1 = true := by
      simp only [decide_eq_true_eq]
      rw [descApply_tag]
      rfl
    have hgx : descApply k d (descApply k d (.mk tagDescription [] none none [])).1
        = ((descApply k d (.mk tagDescription [] none none [])).1, (false, false)) :=
      descApply_stable k d hk _
    rw [rdfApply, withChildren_children_eq,
        editFirstChild_append _ (descApply k d) (false, false) _ hx hgx y.children
          (editFirstChild_none_pred _ (descApply k d) y.children h)]
    dsimp only
    rw [withChildren_withChildren]
  · have h1 : rdfApply k d y = (y.withChildren cs', b) := by
      rw [rdfApply, h]
    rw [h1]
    show rdfApply k d (y.withChildren cs') = (y.withChildren cs', false, false)
    rw [rdfApply, withChildren_children_eq,
        editFirstChild_stable _ (descApply k d) (descApply k d) (false, false) hgf hfp
          y.children cs' b h]
    dsimp only
    rw [withChildren_withChildren]

theorem editFirstPre_pos {β : Type} (p : XElem → Bool) (g : XElem → XElem × β) :
    ∀ (e : XElem), p e = true → editFirstPre p g e = some (g e)
  | .mk t a tx tl cs => fun h => by rw [editFirstPre, if_pos h]

mutual

theorem editFirstPre_none {β γ : Type} (p : XElem → Bool) (f : XElem → XElem × β)
    (g : XElem → XElem × γ) :
    ∀ (e : XElem), editFirstPre p f e = none → editFirstPre p g e = none
  | .mk t a tx tl cs => by
    intro h
    rw [editFirstPre] at h
    split at h
    · cases h
    · next hp =>
      rcases h2 : editFirstPreList p f cs with _ | ⟨cs2, b2⟩
      · rw [editFirstPre, if_neg hp, editFirstPreList_none p f g cs h2]
      · rw [h2] at h
        cases h

theorem editFirstPreList_none {β γ : Type} (p : XElem → Bool) (f : XElem → XElem × β)
    (g : XElem → XElem × γ) :
    ∀ (cs : List XElem), editFirstPreList p f cs = none → editFirstPreList p g cs = none
  | [] => by
    intro _
    rfl
  | c :: cs => by
    intro h
    rw [editFirstPreList] at h
    rcases h2 : editFirstPre p f c with _ | ⟨c', b2⟩
    · rw [h2] at h
      rcases h3 : editFirstPreList p f cs with _ | ⟨cs2, b2⟩
      · rw [editFirstPreList, editFirstPre_none p f g c h2,
            editFirstPreList_none p f g cs h3]
      · rw [h3] at h
        cases h
    · rw [h2] at h
      cases h

end

mutual

theorem editFirstPre_stable {β γ : Type} (p : XElem → Bool) (f : XElem → XElem × β)
    (g : XElem → XElem × γ) (c0 : γ)
    (hgf : ∀ x, p x = true → g (f x).1 = ((f x).1, c0))
    (hfp : ∀ x, p x = true → p (f x).1 = true)
    (hpch : ∀ t a tx tl cs cs2, p (.mk t a tx tl cs2) = p (.mk t a tx tl cs)) :
    ∀ (e e' : XElem) (b : β), editFirstPre p f e = some (e', b) →
    editFirstPre p g e' = some (e', c0)
  | .mk t a tx tl cs, e', b => by
    intro h
    rw [editFirstPre] at h
    split at h
    · next hp =>
      injection h with h2
      have he' : e' = (f (.mk t a tx tl cs)).1 := by rw [h2]
      rcases e' with ⟨t2, a2, tx2, tl2, cs2⟩
      have hp2 : p (XElem.mk t2 a2 tx2 tl2 cs2) = true := by
        rw [he']
        exact hfp _ hp
      have hg : g (XElem.mk t2 a2 tx2 tl2 cs2) = (XElem.mk t2 a2 tx2 tl2 cs2, c0) := by
        rw [he']
        exact hgf _ hp
      rw [editFirstPre, if_pos hp2, hg]
    · next hp =>
      rcases h2 : editFirstPreList p f cs with _ | ⟨cs2, b2⟩
      · rw [h2] at h
        cases h
      · rw [h2] at h
        cases h
        rw [editFirstPre, if_neg (by rw [hpch t a tx tl cs cs2]; exact hp),
            editFirstPreList_stable p f g c0 hgf hfp hpch cs _ _ h2]

theorem editFirstPreList_stable {β γ : Type} (p : XElem → Bool) (f : XElem → XElem × β)
    (g : XElem → XElem × γ) (c0 : γ)
    (hgf : ∀ x, p x = true → g (f x).1 = ((f x).1, c0))
    (hfp : ∀ x, p x = true → p (f x).1 = true)
    (hpch : ∀ t a tx tl cs cs2, p (.mk t a tx tl cs2) = p (.mk t a tx tl cs)) :
    ∀ (cs cs' : List XElem) (b : β), editFirstPreList p f cs = some (cs', b) →
    editFirstPreList p g cs' = some (cs', c0)
  | [], _, _ => by
    intro h
    cases h
  | c :: cs, cs', b => by
    intro h
    rw [editFirstPreList] at h
    rcases h2 : editFirstPre p f c with _ | ⟨c', b2⟩
    · rw [h2] at h
      rcases h3 : editFirstPreList p f cs with _ | ⟨cs2, b2⟩
      · rw [h3] at h
        cases h
      · rw [h3] at h
        cases h
        rw [editFirstPreList, editFirstPre_none p f g c h2,
            editFirstPreList_stable p f g c0 hgf hfp hpch cs _ _ h3]
    · rw [h2] at h
      cases h
      rw [editFirstPreList, editFirstPre_stable p f g c0 hgf hfp hpch c _ _ h2]

end

theorem editFirstPreList_append {β γ : Type} (p : XElem → Bool) (f : XElem → XElem × β)
    (g : XElem → XElem × γ) (c0 : γ) (x : XElem) (hx : p x = true) (hgx : g x = (x, c0)) :
    ∀ (cs : List XElem), editFirstPreList p f cs = none →
    editFirstPreList p g (cs ++ [x]) = some (cs ++ [x], c0)
  | [] => by
    intro _
    rw [List.nil_append, editFirstPreList, editFirstPre_pos p g x hx, hgx]
  | c :: cs => by
    intro h
    rw [editFirstPreList] at h
    rcases h2 : editFirstPre p f c with _ | ⟨c', b2⟩
    · rw [h2] at h
      rcases h3 : editFirstPreList p f cs with _ | ⟨cs2, b2⟩
      · rw [List.cons_append, editFirstPreList, editFirstPre_none p f g c h2,
            editFirstPreList_append p f g c0 x hx hgx cs h3]
      · rw [h3] at h
        cases h
    · rw [h2] at h
      cases h

theorem rdfApply_newRDF (k d : Str) (hk : pyStrip k = k) :
    rdfApply k d
      (.mk tagRDF [] none none [(descApply k d (.mk tagDescription [] none none [])).1])
    = (.mk tagRDF [] none none [(descApply k d (.mk tagDescription [] none none [])).1],
       (false, false)) := by
  have hdd : (fun ch => ch.tag = tagDescription : XElem → Bool)
      (descApply k d (.mk tagDescription [] none none [])).1 = true := by
    simp only [decide_eq_true_eq]
    rw [descApply_tag]
    rfl
  have hstab : descApply k d (descApply k d (.mk tagDescription [] none none [])).1
      = ((descApply k d (.mk tagDescription [] none none [])).1, (false, false)) :=
    descApply_stable k d hk _
  have h4 : editFirstChild (fun ch => ch.tag = tagDescription) (descApply k d)
      [(descApply k d (.mk tagDescription [] none none [])).1]
      = some ([(descApply k d (.mk tagDescription [] none none [])).1], (false, false)) := by
    rw [editFirstChild, if_pos hdd, hstab]
  rw [rdfApply]
  show (match editFirstChild (fun ch => ch.tag = tagDescription) (descApply k d)
      [(descApply k d (.mk tagDescription [] none none [])).1] with
    | some (cs', b) =>
      ((XElem.mk tagRDF [] none none
          [(descApply k d (.mk tagDescription [] none none [])).1]).withChildren cs', b)
    | none =>
      ((XElem.mk tagRDF [] none none
          [(descApply k d (.mk tagDescription [] none none [])).1]).withChildren
         (([(descApply k d (.mk tagDescription [] none none [])).1] : List XElem) ++
           [(descApply k d (.mk tagDescription [] none none [])).1]),
       (descApply k d (.mk tagDescription [] none none [])).2)) = _
  rw [h4]
  rfl

/-- The whole update pass is stable: a second application changes nothing
and reports both flags `false`. -/
theorem updateXmpTree_stable (k d : Str) (hk : pyStrip k = k) (y : XElem) :
    updateXmpTree k d (updateXmpTree k d y).1 = ((updateXmpTree k d y).1, false, false) := by
  have hgf : ∀ x : XElem, (fun e => e.tag = tagRDF : XElem → Bool) x = true →
      rdfApply k d (rdfApply k d x).1 = ((rdfApply k d x).1, (false, false)) := by
    intro x _
    exact rdfApply_stable k d hk x
  have hfp : ∀ x : XElem, (fun e => e.tag = tagRDF : XElem → Bool) x = true →
      (fun e => e.tag = tagRDF : XElem → Bool) (rdfApply k d x).1 = true := by
    intro x hx
    simp only [decide_eq_true_eq] at hx ⊢
    rw [rdfApply_tag, hx]
  have hpch : ∀ t a tx tl cs cs2, (fun e => e.tag = tagRDF : XElem → Bool) (.mk t a tx tl cs2)
      = (fun e => e.tag = tagRDF : XElem → Bool) (.mk t a tx tl cs) :=
    fun _ _ _ _ _ _ => rfl
  rcases y with ⟨t, a, tx, tl, cs⟩
  rcases h : editFirstPre (fun e => e.tag = tagRDF) (rdfApply k d) (.mk t a tx tl cs)
    with _ | ⟨r', b⟩
  · have hp : ¬((fun e => e.tag = tagRDF : XElem → Bool) (XElem.mk t a tx tl cs) = true) := by
      intro hcon
      rw [editFirstPre_pos _ (rdfApply k d) _ hcon] at h
      cases h
    have hlist : editFirstPreList (fun e => e.tag = tagRDF) (rdfApply k d) cs = none := by
      rcases h3 : editFirstPreList (fun e => e.tag = tagRDF) (rdfApply k d) cs
        with _ | ⟨cs2, b2⟩
      · rfl
      · rw [editFirstPre, if_neg hp, h3] at h
        cases h
    have h1 : updateXmpTree k d (XElem.mk t a tx tl cs)
        = (XElem.mk t a tx tl (cs ++
            [.mk tagRDF [] none none [(descApply k d (.mk tagDescription [] none none [])).1]]),
           (descApply k d (.mk tagDescription [] none none [])).2) := by
      rw [updateXmpTree, h]
      rfl
    rw [h1]
    show updateXmpTree k d (XElem.mk t a tx tl (cs ++
        [.mk tagRDF [] none none [(descApply k d (.mk tagDescription [] none none [])).1]]))
      = (XElem.mk t a tx tl (cs ++
          [.mk tagRDF [] none none [(descApply k d (.mk tagDescription [] none none [])).1]]),
         false, false)
    have hx : (fun e => e.tag = tagRDF : XElem → Bool)
        (XElem.mk tagRDF [] none none
          [(descApply k d (.mk tagDescription [] none none [])).1]) = true := by
      simp [XElem.tag]
    have hp2 : ¬((fun e => e.tag = tagRDF : XElem → Bool)
        (XElem.mk t a tx tl (cs ++ [.mk tagRDF [] none none
          [(descApply k d (.mk tagDescription [] none none [])).1]])) = true) := hp
    rw [updateXmpTree, editFirstPre, if_neg hp2,
        editFirstPreList_append _ (rdfApply k d) (rdfApply k d) (false, false) _ hx
          (rdfApply_newRDF k d hk) cs hlist]
  · have h1 : updateXmpTree k d (XElem.mk t a tx tl cs) = (r', b) := by
      rw [updateXmpTree, h]
    rw [h1]
    show updateXmpTree k d r' = (r', false, false)
    rw [updateXmpTree,
        editFirstPre_stable _ (rdfApply k d) (rdfApply k d) (false, false) hgf hfp hpch
          _ _ _ h]

theorem editFirstPre_tag {β : Type} (p : XElem → Bool) (f : XElem → XElem × β)
    (hf : ∀ x, p x = true → (f x).1.tag = x.tag) :
    ∀ (e e' : XElem) (b : β), editFirstPre p f e = some (e', b) → e'.tag = e.tag
  | .mk t a tx tl cs, e', b => by
    intro h
    rw [editFirstPre] at h
    split at h
    · next hp =>
      injection h with h2
      have he' : e' = (f (.mk t a tx tl cs)).1 := by rw [h2]
      rw [he']
      exact hf _ hp
    · rcases h2 : editFirstPreList p f cs with _ | ⟨cs2, b2⟩
      · rw [h2] at h
        cases h
      · rw [h2] at h
        cases h
        rfl

theorem updateXmpTree_tag (k d : Str) (root : XElem) :
    (updateXmpTree k d root).1.tag = root.tag := by
  rw [updateXmpTree]
  rcases h : editFirstPre (fun e => e.tag = tagRDF) (rdfApply k d) root with _ | ⟨r', b⟩
  · exact withChildren_tag root _
  · exact editFirstPre_tag _ _ (fun x _ => rdfApply_tag k d x) _ _ _ h

theorem keywordFor_ne_nil (tool : Str) : keywordFor tool ≠ [] := by
  simp [keywordFor]

theorem descTextFor_ne_nil (tool processedDate : Str) :
    descTextFor tool processedDate ≠ [] := by
  simp [descTextFor]

/-- C1 (amended): the compose-update is idempotent provided the tool's
keyword survives `strip()` unchanged (no leading/trailing whitespace in
the tool name), the keyword and description are representable text, and
the first output's tree serializes invertibly (tail-free root, namespace
assignment resolving each name to itself).  Under those conditions the
second application returns byte-identical output. -/
theorem C1_idempotence_amended (ex : Option Bytes) (tool processedDate : Str)
    (hk : pyStrip (keywordFor tool) = keywordFor tool)
    (hkc : cleanText (keywordFor tool) = true)
    (hdc : cleanText (descTextFor tool processedDate) = true)
    (htl : (updateXmpTree (keywordFor tool) (descTextFor tool processedDate)
        (parseOrCreateXmpmetaRoot ex)).1.tail = none)
    (hrt : serRT (updateXmpTree (keywordFor tool) (descTextFor tool processedDate)
        (parseOrCreateXmpmetaRoot ex)).1 = true) :
    makeUpdatedXmpPacket (some (makeUpdatedXmpPacket ex tool processedDate)) tool processedDate
      = makeUpdatedXmpPacket ex tool processedDate := by
  have hwf1 : wfX (updateXmpTree (keywordFor tool) (descTextFor tool processedDate)
      (parseOrCreateXmpmetaRoot ex)).1 = true :=
    updateXmpTree_wf _ _ (keywordFor_ne_nil tool) hkc
      (descTextFor_ne_nil tool processedDate) hdc _ (parseOrCreate_wf ex)
  have hparse := parseDoc_serializeDoc _ hwf1 htl hrt
  have htag : listEnds "xmpmeta".toList (updateXmpTree (keywordFor tool)
      (descTextFor tool processedDate) (parseOrCreateXmpmetaRoot ex)).1.tag = true := by
    rw [updateXmpTree_tag]
    exact parseOrCreate_tag ex
  have hroot2 := parseOrCreate_serialized _ hparse htag
  rw [show makeUpdatedXmpPacket ex tool processedDate
      = serializeXmpmeta (updateXmpTree (keywordFor tool) (descTextFor tool processedDate)
          (parseOrCreateXmpmetaRoot ex)).1 from rfl]
  show serializeXmpmeta (updateXmpTree (keywordFor tool) (descTextFor tool processedDate)
      (parseOrCreateXmpmetaRoot (some (serializeXmpmeta (updateXmpTree (keywordFor tool)
        (descTextFor tool processedDate) (parseOrCreateXmpmetaRoot ex)).1)))).1
    = serializeXmpmeta (updateXmpTree (keywordFor tool) (descTextFor tool processedDate)
        (parseOrCreateXmpmetaRoot ex)).1
  rw [hroot2,
      updateXmpTree_stable (keywordFor tool) (descTextFor tool processedDate) hk
        (parseOrCreateXmpmetaRoot ex)]

theorem C1_idempotence_amended_witness :
    (pyStrip (keywordFor "t".toList) = keywordFor "t".toList ∧
     cleanText (keywordFor "t".toList) = true ∧
     cleanText (descTextFor "t".toList "2024-01-01".toList) = true ∧
     (updateXmpTree (keywordFor "t".toList) (descTextFor "t".toList "2024-01-01".toList)
        (parseOrCreateXmpmetaRoot none)).1.tail = none ∧
     serRT (updateXmpTree (keywordFor "t".toList) (descTextFor "t".toList "2024-01-01".toList)
        (parseOrCreateXmpmetaRoot none)).1 = true) ∧
    makeUpdatedXmpPacket
        (some (makeUpdatedXmpPacket none "t".toList "2024-01-01".toList))
        "t".toList "2024-01-01".toList
      = makeUpdatedXmpPacket none "t".toList "2024-01-01".toList :=
  ⟨⟨by decide, by decide, by decide, by decide, by decide⟩,
   C1_idempotence_amended none "t".toList "2024-01-01".toList (by decide) (by decide)
     (by decide) (by decide) (by decide)⟩

theorem ifNegBool {b : Bool} (h : b = false) : ¬(b = true) := by
  rw [h]
  simp

/-- C2 (amended): feeding a fresh first-embed packet for tool A into a
second compose with tool B yields a packet whose `dc:subject` Bag holds
exactly the two keywords and whose `dc:description` default-language
entry holds exactly the tool-B text — provided A's keyword survives
`strip()` unchanged, the two keywords differ, and the first tree
serializes invertibly. -/
theorem C2_round_trip_amended (toolA toolB dateA dateB : Str)
    (hA : pyStrip (keywordFor toolA) = keywordFor toolA)
    (hAB : keywordFor toolA ≠ keywordFor toolB)
    (hkcA : cleanText (keywordFor toolA) = true)
    (hdcA : cleanText (descTextFor toolA dateA) = true)
    (htl : (updateXmpTree (keywordFor toolA) (descTextFor toolA dateA)
        (parseOrCreateXmpmetaRoot none)).1.tail = none)
    (hrt : serRT (updateXmpTree (keywordFor toolA) (descTextFor toolA dateA)
        (parseOrCreateXmpmetaRoot none)).1 = true) :
    makeUpdatedXmpPacket (some (makeUpdatedXmpPacket none toolA dateA)) toolB dateB
      = serializeXmpmeta
          (updateXmpTree (keywordFor toolB) (descTextFor toolB dateB)
            (parseOrCreateXmpmetaRoot (some (makeUpdatedXmpPacket none toolA dateA)))).1 ∧
    bagTexts (updateXmpTree (keywordFor toolB) (descTextFor toolB dateB)
        (parseOrCreateXmpmetaRoot (some (makeUpdatedXmpPacket none toolA dateA)))).1
      = [keywordFor toolA, keywordFor toolB] ∧
    xdefaultTexts (updateXmpTree (keywordFor toolB) (descTextFor toolB dateB)
        (parseOrCreateXmpmetaRoot (some (makeUpdatedXmpPacket none toolA dateA)))).1
      = [descTextFor toolB dateB] := by
  have hwf1 : wfX (updateXmpTree (keywordFor toolA) (descTextFor toolA dateA)
      (parseOrCreateXmpmetaRoot none)).1 = true :=
    updateXmpTree_wf _ _ (keywordFor_ne_nil toolA) hkcA
      (descTextFor_ne_nil toolA dateA) hdcA _ (parseOrCreate_wf none)
  have hparse := parseDoc_serializeDoc _ hwf1 htl hrt
  have htag : listEnds "xmpmeta".toList (updateXmpTree (keywordFor toolA)
      (descTextFor toolA dateA) (parseOrCreateXmpmetaRoot none)).1.tag = true := by
    rw [updateXmpTree_tag]
    exact parseOrCreate_tag none
  have hroot2 := parseOrCreate_serialized _ hparse htag
  have ht1 : (updateXmpTree (keywordFor toolA) (descTextFor toolA dateA)
      (parseOrCreateXmpmetaRoot none)).1
      = XElem.mk tagXmpmeta [] none none
          [XElem.mk tagRDF [] none none
            [XElem.mk tagDescription [] none none
              [XElem.mk tagDcSubject [] none none
                [XElem.mk tagBag [] none none [freshLi (keywordFor toolA)]],
               XElem.mk tagDcDescription [] none none
                [XElem.mk tagAlt [] none none
                  [xdefaultLi (descTextFor toolA dateA)]]]]] := rfl
  have hcT : decide True = true := by decide
  have hcSubjDesc : decide (tagDcSubject = tagDcDescription) = false := by decide
  have hcXmpRdf : decide (tagXmpmeta = tagRDF) = false := by decide
  have hPS : pyStrip (optOrEmpty (freshLi (keywordFor toolA)).text) = keywordFor toolA := hA
  have hmatch : liKeywordMatch (keywordFor toolB) (freshLi (keywordFor toolA)) = false := by
    rw [liKeywordMatch, hPS, decide_eq_false hAB, Bool.and_false]
  have hbag : bagInsertLi (keywordFor toolB)
      (XElem.mk tagBag [] none none [freshLi (keywordFor toolA)])
      = (XElem.mk tagBag [] none none
          [freshLi (keywordFor toolA), freshLi (keywordFor toolB)], true) := by
    rw [bagInsertLi, if_neg (by
      rw [show XElem.children (XElem.mk tagBag [] none none [freshLi (keywordFor toolA)])
            = [freshLi (keywordFor toolA)] from rfl,
          List.any_cons, List.any_nil, hmatch]
      simp)]
    rfl
  have hsubj : subjectEnsure (keywordFor toolB)
      (XElem.mk tagDcSubject [] none none
        [XElem.mk tagBag [] none none [freshLi (keywordFor toolA)]])
      = (XElem.mk tagDcSubject [] none none
          [XElem.mk tagBag [] none none
            [freshLi (keywordFor toolA), freshLi (keywordFor toolB)]], true) := by
    rw [subjectEnsure,
        show XElem.children (XElem.mk tagDcSubject [] none none
            [XElem.mk tagBag [] none none [freshLi (keywordFor toolA)]])
          = [XElem.mk tagBag [] none none [freshLi (keywordFor toolA)]] from rfl,
        editFirstChild]
    simp only [XElem.tag]
    rw [if_pos hcT, hbag]
    rfl
  have hsubjfull : ensureDcSubjectKeyword
      (XElem.mk tagDescription [] none none
        [XElem.mk tagDcSubject [] none none
          [XElem.mk tagBag [] none none [freshLi (keywordFor toolA)]],
         XElem.mk tagDcDescription [] none none
          [XElem.mk tagAlt [] none none [xdefaultLi (descTextFor toolA dateA)]]])
      (keywordFor toolB)
      = (XElem.mk tagDescription [] none none
          [XElem.mk tagDcSubject [] none none
            [XElem.mk tagBag [] none none
              [freshLi (keywordFor toolA), freshLi (keywordFor toolB)]],
           XElem.mk tagDcDescription [] none none
            [XElem.mk tagAlt [] none none [xdefaultLi (descTextFor toolA dateA)]]],
         true) := by
    rw [ensureDcSubjectKeyword,
        show XElem.children (XElem.mk tagDescription [] none none
            [XElem.mk tagDcSubject [] none none
              [XElem.mk tagBag [] none none [freshLi (keywordFor toolA)]],
             XElem.mk tagDcDescription [] none none
              [XElem.mk tagAlt [] none none [xdefaultLi (descTextFor toolA dateA)]]])
          = [XElem.mk tagDcSubject [] none none
              [XElem.mk tagBag [] none none [freshLi (keywordFor toolA)]],
             XElem.mk tagDcDescription [] none none
              [XElem.mk tagAlt [] none none [xdefaultLi (descTextFor toolA dateA)]]]
          from rfl,
        editFirstChild]
    simp only [XElem.tag]
    rw [if_pos hcT, hsubj]
    rfl
  obtain ⟨bf, hxd⟩ : ∃ bf, editXdefaultLi (descTextFor toolB dateB)
      [xdefaultLi (descTextFor toolA dateA)]
      = some ([xdefaultLi (descTextFor toolB dateB)], bf) := by
    by_cases hd : optOrEmpty (xdefaultLi (descTextFor toolA dateA)).text
        = descTextFor toolB dateB
    · refine ⟨false, ?_⟩
      rw [editXdefaultLi,
          if_pos (show xdefaultLangMatch (xdefaultLi (descTextFor toolA dateA)) = true
            from rfl),
          if_pos hd, show descTextFor toolA dateA = descTextFor toolB dateB from hd]
    · refine ⟨true, ?_⟩
      rw [editXdefaultLi,
          if_pos (show xdefaultLangMatch (xdefaultLi (descTextFor toolA dateA)) = true
            from rfl),
          if_neg hd]
      rfl
  have halt : altEnsureXdefault (descTextFor toolB dateB)
      (XElem.mk tagAlt [] none none [xdefaultLi (descTextFor toolA dateA)])
      = (XElem.mk tagAlt [] none none [xdefaultLi (descTextFor toolB dateB)], bf) := by
    rw [altEnsureXdefault,
        show XElem.children (XElem.mk tagAlt [] none none
            [xdefaultLi (descTextFor toolA dateA)])
          = [xdefaultLi (descTextFor toolA dateA)] from rfl,
        hxd]
    rfl
  have hdescEn : descriptionEnsure (descTextFor toolB dateB)
      (XElem.mk tagDcDescription [] none none
        [XElem.mk tagAlt [] none none [xdefaultLi (descTextFor toolA dateA)]])
      = (XElem.mk tagDcDescription [] none none
          [XElem.mk tagAlt [] none none [xdefaultLi (descTextFor toolB dateB)]], bf) := by
    rw [descriptionEnsure,
        show XElem.children (XElem.mk tagDcDescription [] none none
            [XElem.mk tagAlt [] none none [xdefaultLi (descTextFor toolA dateA)]])
          = [XElem.mk tagAlt [] none none [xdefaultLi (descTextFor toolA dateA)]] from rfl,
        editFirstChild]
    simp only [XElem.tag]
    rw [if_pos hcT, halt]
    rfl
  have hensDesc : ensureDcDescriptionXdefault
      (XElem.mk tagDescription [] none none
        [XElem.mk tagDcSubject [] none none
          [XElem.mk tagBag [] none none
            [freshLi (keywordFor toolA), freshLi (keywordFor toolB)]],
         XElem.mk tagDcDescription [] none none
          [XElem.mk tagAlt [] none none [xdefaultLi (descTextFor toolA dateA)]]])
      (descTextFor toolB dateB)
      = (XElem.mk tagDescription [] none none
          [XElem.mk tagDcSubject [] none none
            [XElem.mk tagBag [] none none
              [freshLi (keywordFor toolA), freshLi (keywordFor toolB)]],
           XElem.mk tagDcDescription [] none none
            [XElem.mk tagAlt [] none none [xdefaultLi (descTextFor toolB dateB)]]],
         bf) := by
    rw [ensureDcDescriptionXdefault,
        show XElem.children (XElem.mk tagDescription [] none none
            [XElem.mk tagDcSubject [] none none
              [XElem.mk tagBag [] none none
                [freshLi (keywordFor toolA), freshLi (keywordFor toolB)]],
             XElem.mk tagDcDescription [] none none
              [XElem.mk tagAlt [] none none [xdefaultLi (descTextFor toolA dateA)]]])
          = [XElem.mk tagDcSubject [] none none
              [XElem.mk tagBag [] none none
                [freshLi (keywordFor toolA), freshLi (keywordFor toolB)]],
             XElem.mk tagDcDescription [] none none
              [XElem.mk tagAlt [] none none [xdefaultLi (descTextFor toolA dateA)]]]
          from rfl,
        editFirstChild]
    simp only [XElem.tag]
    rw [if_neg (ifNegBool hcSubjDesc), editFirstChild]
    simp only [XElem.tag]
    rw [if_pos hcT, hdescEn]
    rfl
  have hdescApp : descApply (keywordFor toolB) (descTextFor toolB dateB)
      (XElem.mk tagDescription [] none none
        [XElem.mk tagDcSubject [] none none
          [XElem.mk tagBag [] none none [freshLi (keywordFor toolA)]],
         XElem.mk tagDcDescription [] none none
          [XElem.mk tagAlt [] none none [xdefaultLi (descTextFor toolA dateA)]]])
      = (XElem.mk tagDescription [] none none
          [XElem.mk tagDcSubject [] none none
            [XElem.mk tagBag [] none none
              [freshLi (keywordFor toolA), freshLi (keywordFor toolB)]],
           XElem.mk tagDcDescription [] none none
            [XElem.mk tagAlt [] none none [xdefaultLi (descTextFor toolB dateB)]]],
         true, bf) := by
    rw [descApply, hsubjfull]
    dsimp only
    rw [hensDesc]
  have hrdf : rdfApply (keywordFor toolB) (descTextFor toolB dateB)
      (XElem.mk tagRDF [] none none
        [XElem.mk tagDescription [] none none
          [XElem.mk tagDcSubject [] none none
            [XElem.mk tagBag [] none none [freshLi (keywordFor toolA)]],
           XElem.mk tagDcDescription [] none none
            [XElem.mk tagAlt [] none none [xdefaultLi (descTextFor toolA dateA)]]]])
      = (XElem.mk tagRDF [] none none
          [XElem.mk tagDescription [] none none
            [XElem.mk tagDcSubject [] none none
              [XElem.mk tagBag [] none none
                [freshLi (keywordFor toolA), freshLi (keywordFor toolB)]],
             XElem.mk tagDcDescription [] none none
              [XElem.mk tagAlt [] none none [xdefaultLi (descTextFor toolB dateB)]]]],
         true, bf) := by
    rw [rdfApply,
        show XElem.children (XElem.mk tagRDF [] none none
            [XElem.mk tagDescription [] none none
              [XElem.mk tagDcSubject [] none none
                [XElem.mk tagBag [] none none [freshLi (keywordFor toolA)]],
               XElem.mk tagDcDescription [] none none
                [XElem.mk tagAlt [] none none [xdefaultLi (descTextFor toolA dateA)]]]])
          = [XElem.mk tagDescription [] none none
              [XElem.mk tagDcSubject [] none none
                [XElem.mk tagBag [] none none [freshLi (keywordFor toolA)]],
               XElem.mk tagDcDescription [] none none
                [XElem.mk tagAlt [] none none [xdefaultLi (descTextFor toolA dateA)]]]]
          from rfl,
        editFirstChild]
    simp only [XElem.tag]
    rw [if_pos hcT, hdescApp]
    rfl
  have hupd : updateXmpTree (keywordFor toolB) (descTextFor toolB dateB)
      (XElem.mk tagXmpmeta [] none none
        [XElem.mk tagRDF [] none none
          [XElem.mk tagDescription [] none none
            [XElem.mk tagDcSubject [] none none
              [XElem.mk tagBag [] none none [freshLi (keywordFor toolA)]],
             XElem.mk tagDcDescription [] none none
              [XElem.mk tagAlt [] none none [xdefaultLi (descTextFor toolA dateA)]]]]])
      = (XElem.mk tagXmpmeta [] none none
          [XElem.mk tagRDF [] none none
            [XElem.mk tagDescription [] none none
              [XElem.mk tagDcSubject [] none none
                [XElem.mk tagBag [] none none
                  [freshLi (keywordFor toolA), freshLi (keywordFor toolB)]],
               XElem.mk tagDcDescription [] none none
                [XElem.mk tagAlt [] none none [xdefaultLi (descTextFor toolB dateB)]]]]],
         true, bf) := by
    rw [updateXmpTree, editFirstPre]
    simp only [XElem.tag]
    rw [if_neg (ifNegBool hcXmpRdf), editFirstPreList, editFirstPre]
    simp only [XElem.tag]
    rw [if_pos hcT, hrdf]
  refine ⟨rfl, ?_, ?_⟩
  · rw [show makeUpdatedXmpPacket none toolA dateA
        = serializeXmpmeta (updateXmpTree (keywordFor toolA) (descTextFor toolA dateA)
            (parseOrCreateXmpmetaRoot none)).1 from rfl,
        hroot2, ht1, hupd]
    rfl
  · rw [show makeUpdatedXmpPacket none toolA dateA
        = serializeXmpmeta (updateXmpTree (keywordFor toolA) (descTextFor toolA dateA)
            (parseOrCreateXmpmetaRoot none)).1 from rfl,
        hroot2, ht1, hupd]
    rfl

theorem C2_round_trip_amended_witness :
    (pyStrip (keywordFor "a".toList) = keywordFor "a".toList ∧
     keywordFor "a".toList ≠ keywordFor "b".toList ∧
     cleanText (keywordFor "a".toList) = true ∧
     cleanText (descTextFor "a".toList "d1".toList) = true ∧
     (updateXmpTree (keywordFor "a".toList) (descTextFor "a".toList "d1".toList)
        (parseOrCreateXmpmetaRoot none)).1.tail = none ∧
     serRT (updateXmpTree (keywordFor "a".toList) (descTextFor "a".toList "d1".toList)
        (parseOrCreateXmpmetaRoot none)).1 = true) ∧
    (makeUpdatedXmpPacket (some (makeUpdatedXmpPacket none "a".toList "d1".toList))
        "b".toList "d2".toList
      = serializeXmpmeta
          (updateXmpTree (keywordFor "b".toList) (descTextFor "b".toList "d2".toList)
            (parseOrCreateXmpmetaRoot
              (some (makeUpdatedXmpPacket none "a".toList "d1".toList)))).1 ∧
    bagTexts (updateXmpTree (keywordFor "b".toList) (descTextFor "b".toList "d2".toList)
        (parseOrCreateXmpmetaRoot
          (some (makeUpdatedXmpPacket none "a".toList "d1".toList)))).1
      = [keywordFor "a".toList, keywordFor "b".toList] ∧
    xdefaultTexts (updateXmpTree (keywordFor "b".toList) (descTextFor "b".toList "d2".toList)
        (parseOrCreateXmpmetaRoot
          (some (makeUpdatedXmpPacket none "a".toList "d1".toList)))).1
      = [descTextFor "b".toList "d2".toList]) :=
  ⟨⟨by decide, by decide, by decide, by decide, by decide, by decide⟩,
   C2_round_trip_amended "a".toList "b".toList "d1".toList "d2".toList (by decide)
     (by decide) (by decide) (by decide) (by decide) (by decide)⟩
